import Mathlib

/-!
Wrench menu: menu population and delegated command dispatch

A shallow embedding of `chrome/browser/ui/views/wrench_menu.cc`:
`WrenchMenu::Init`, `PopulateMenu`, `AppendMenuItem`, `ExecuteCommand`,
`CancelAndEvaluate`, the state queries `IsItemChecked`, `IsCommandEnabled` and
`GetAccelerator`, `Observe`, `CreateBookmarkMenu`, `RunMenu`, and the two
composite views `CutCopyPasteView` and `ZoomView` with their button factory
`CreateButtonWithAccName`, their `ButtonPressed` handlers, and
`MaxWidthForZoomLabel`, `GetPreferredSize` and `Layout` of the zoom row.

Conventions of the embedding.

* C++ `int` values are `Int` (identifiers, model indices) or `Nat` (loop
  counters and item counts, which the code never makes negative).  Overflow
  of `int` is not modelled: item counts and zoom percentages are far below
  `2^31`.
* A `MenuModel*` is a finite tree of models.  Every model object carries its
  address `addr`; two occurrences of a model in the tree are the same object
  exactly when they are equal as values.
* A `MenuItemView*` handle is the command identifier of the view (the root
  view `root_` has command identifier 0), and the view tree is stored as the
  list of created views, each naming its parent.
* A failed `DCHECK` is fatal when DCHECKs are compiled in and is skipped
  (its arguments are not even evaluated) otherwise.
* Behaviour the C++ standard leaves undefined is an explicit `Fault`.
-/

namespace Chrome

/-! ## Faults -/

/-- Ways an execution can fail to return normally. -/
inductive Fault where
  /-- A `DCHECK` failed in a build that compiles DCHECKs in. -/
  | DCHECK
  /-- A menu model was queried at an index for which it has no item. -/
  | OUT_OF_RANGE
  /-- A null pointer or a past-the-end iterator was dereferenced. -/
  | UNDEFINED
  /-- The step budget of the embedding ran out (models non-termination). -/
  | OUT_OF_FUEL
  deriving DecidableEq, Repr

/-- Result of querying a model: `none` is a query outside the model. -/
def query {α : Type} (o : Option α) : Except Fault α :=
  match o with
  | some a => .ok a
  | none => .error .OUT_OF_RANGE

/-- `DCHECK(cond)`: fatal when DCHECKs are on, skipped otherwise. -/
def dcheck (dcheck_is_on : Bool) (cond : Bool) : Except Fault Unit :=
  if dcheck_is_on && !cond then .error .DCHECK else .ok ()

/-! ## Build and environment -/

/-- The selected tab, as far as `ZoomView` reads it. -/
structure WebContents where
  zoom_percent : Int
  enable_increment : Bool
  enable_decrement : Bool
  minimum_zoom_percent : Int
  maximum_zoom_percent : Int
  deriving DecidableEq, Repr

/-- Build flags and the pieces of browser state the menu code reads. -/
structure Config where
  /-- DCHECKs are compiled in (debug build). -/
  dcheck_is_on : Bool
  /-- Truth value of `ui::GetDisplayLayout() == ui::LAYOUT_TOUCH`. -/
  is_touch : Bool
  /-- Truth value of `defined(OS_WIN)`. -/
  os_win : Bool
  /-- Instant extended API is enabled and the search mode is NTP. -/
  instant_ntp : Bool
  /-- Result of `chrome::GetActiveWebContents(browser_)`, `none` for NULL. -/
  selected_tab : Option WebContents
  /-- Rendered width, in the menu font, of the zoom-percent string. -/
  string_width : Int → Int

/-- Command identifiers from `chrome/app/chrome_command_ids.h`, a header
that is not part of the sources at hand; the functions take them as a
parameter. -/
structure CommandIds where
  IDC_CUT : Int
  IDC_COPY : Int
  IDC_PASTE : Int
  IDC_ZOOM_MINUS : Int
  IDC_ZOOM_PLUS : Int
  IDC_FULLSCREEN : Int
  IDC_BOOKMARKS_MENU : Int
  IDC_FEEDBACK : Int
  deriving DecidableEq, Repr

/-- The command identifiers the menu code names. -/
def CommandIds.all (K : CommandIds) : List Int :=
  [K.IDC_CUT, K.IDC_COPY, K.IDC_PASTE, K.IDC_ZOOM_MINUS, K.IDC_ZOOM_PLUS,
    K.IDC_FULLSCREEN, K.IDC_BOOKMARKS_MENU, K.IDC_FEEDBACK]

/-- The identifiers are pairwise distinct, as `#define`d command
identifiers are (the `switch` in `PopulateMenu` would not compile with two
equal case labels). -/
def CommandIds.Distinct (K : CommandIds) : Prop :=
  K.all.Nodup

instance (K : CommandIds) : Decidable K.Distinct := by
  unfold CommandIds.Distinct; infer_instance

/-! ## The menu model (`ui::MenuModel`) -/

/-- Item types of `ui::MenuModel::ItemType`. -/
inductive ItemType where
  | TYPE_COMMAND
  | TYPE_CHECK
  | TYPE_RADIO
  | TYPE_SEPARATOR
  | TYPE_SUBMENU
  deriving DecidableEq, Repr

/-- A key code with modifiers (`ui::Accelerator`). -/
structure Accelerator where
  key_code : Nat
  modifiers : Nat
  deriving DecidableEq, Repr

/-- Per-item data a `MenuModel` reports. -/
structure ItemData where
  type : ItemType
  command_id : Int
  enabled : Bool
  visible : Bool
  checked : Bool
  accelerator : Option Accelerator
  icon : Option Nat
  deriving DecidableEq, Repr

/-- A menu model object: its address, the value of `GetFirstItemIndex`,
`HasIcons`, and its items in order, each with the submenu model pointer it
reports (`none` for NULL). -/
inductive MenuModel where
  | mk (addr : Nat) (first_item_index : Int) (has_icons : Bool)
      (items : List (ItemData × Option MenuModel)) : MenuModel

namespace MenuModel

/-- Address of the model object. -/
def addr : MenuModel → Nat
  | .mk a _ _ _ => a

/-- Items of the model with their submenu pointers. -/
def items : MenuModel → List (ItemData × Option MenuModel)
  | .mk _ _ _ l => l

/-- Embeds `MenuModel::GetFirstItemIndex`. -/
def GetFirstItemIndex : MenuModel → Int
  | .mk _ f _ _ => f

/-- Embeds `MenuModel::HasIcons`. -/
def HasIcons : MenuModel → Bool
  | .mk _ _ h _ => h

/-- Embeds `MenuModel::GetItemCount`. -/
def GetItemCount (m : MenuModel) : Nat := m.items.length

/-- The item a model index denotes; `none` outside the model. -/
def itemAt (m : MenuModel) (index : Int) : Option (ItemData × Option MenuModel) :=
  if index < m.GetFirstItemIndex then none
  else m.items[(index - m.GetFirstItemIndex).toNat]?

/-- Embeds `MenuModel::GetCommandIdAt`. -/
def GetCommandIdAt (m : MenuModel) (index : Int) : Option Int :=
  (m.itemAt index).map fun p => p.1.command_id

/-- Embeds `MenuModel::GetTypeAt`. -/
def GetTypeAt (m : MenuModel) (index : Int) : Option ItemType :=
  (m.itemAt index).map fun p => p.1.type

/-- Embeds `MenuModel::IsEnabledAt`. -/
def IsEnabledAt (m : MenuModel) (index : Int) : Option Bool :=
  (m.itemAt index).map fun p => p.1.enabled

/-- Embeds `MenuModel::IsVisibleAt`. -/
def IsVisibleAt (m : MenuModel) (index : Int) : Option Bool :=
  (m.itemAt index).map fun p => p.1.visible

/-- Embeds `MenuModel::IsItemCheckedAt`. -/
def IsItemCheckedAt (m : MenuModel) (index : Int) : Option Bool :=
  (m.itemAt index).map fun p => p.1.checked

/-- Embeds `MenuModel::GetAcceleratorAt`: the inner `none` is the `false`
return value. -/
def GetAcceleratorAt (m : MenuModel) (index : Int) : Option (Option Accelerator) :=
  (m.itemAt index).map fun p => p.1.accelerator

/-- Embeds `MenuModel::GetIconAt`: the inner `none` is the `false` return
value. -/
def GetIconAt (m : MenuModel) (index : Int) : Option (Option Nat) :=
  (m.itemAt index).map fun p => p.1.icon

/-- Embeds `MenuModel::GetSubmenuModelAt`: the inner `none` is NULL. -/
def GetSubmenuModelAt (m : MenuModel) (index : Int) : Option (Option MenuModel) :=
  (m.itemAt index).map fun p => p.2

end MenuModel

/-! ## Views -/

/-- String resources the menu code names. -/
inductive StringId where
  | IDS_CUT
  | IDS_COPY
  | IDS_PASTE
  | IDS_EDIT2
  | IDS_ZOOM_MENU2
  | IDS_ZOOM_MINUS2
  | IDS_ZOOM_PLUS2
  | IDS_ACCNAME_ZOOM_MINUS2
  | IDS_ACCNAME_ZOOM_PLUS2
  | IDS_ACCNAME_FULLSCREEN
  deriving DecidableEq, Repr

/-- Cases of `MenuButtonBackground::ButtonType`. -/
inductive ButtonType where
  | LEFT_BUTTON
  | CENTER_BUTTON
  | RIGHT_BUTTON
  | SINGLE_BUTTON
  deriving DecidableEq, Repr

/-- Horizontal padding on the edges of the buttons. -/
def kHorizontalPadding : Int := 6

/-- Horizontal padding for a touch enabled menu. -/
def kHorizontalTouchPadding : Int := 15

/-- Height in pixels of touch menu items that hold buttons. -/
def kTouchItemHeight : Int := 47

/-- An accessible name: the string resource and the accelerator whose
shortcut text is appended to it, if the model reports one. -/
structure AccessibleName where
  string_id : StringId
  accelerator : Option Accelerator
  deriving DecidableEq, Repr

/-- Embeds `GetAccessibleNameForWrenchMenuItem`. -/
def GetAccessibleNameForWrenchMenuItem (model : MenuModel) (item_index : Int)
    (accessible_string_id : StringId) : Except Fault AccessibleName := do
  let menu_accelerator ← query (model.GetAcceleratorAt item_index)
  pure { string_id := accessible_string_id, accelerator := menu_accelerator }

/-- A `TextButton` as configured by `CreateButtonWithAccName`. -/
structure TextButton where
  string_id : StringId
  accessible_name : AccessibleName
  tag : Int
  enabled : Bool
  background : ButtonType
  deriving DecidableEq, Repr

/-- Embeds `WrenchMenuView::CreateButtonWithAccName`. -/
def CreateButtonWithAccName (menu_model_ : MenuModel) (string_id : StringId)
    (type : ButtonType) (index : Int) (acc_string_id : StringId) :
    Except Fault TextButton := do
  let name ← GetAccessibleNameForWrenchMenuItem menu_model_ index acc_string_id
  let enabled ← query (menu_model_.IsEnabledAt index)
  pure { string_id := string_id, accessible_name := name, tag := index,
         enabled := enabled, background := type }

/-- Embeds `WrenchMenuView::CreateAndConfigureButton`. -/
def CreateAndConfigureButton (menu_model_ : MenuModel) (string_id : StringId)
    (type : ButtonType) (index : Int) : Except Fault TextButton :=
  CreateButtonWithAccName menu_model_ string_id type index string_id

/-- The view holding the cut, copy and paste buttons: the model it was
built for and its child views in the order they were added. -/
structure CutCopyPasteView where
  menu_model_ : MenuModel
  children : List TextButton

/-- Embeds the constructor `CutCopyPasteView::CutCopyPasteView`. -/
def CutCopyPasteView.create (cfg : Config) (menu_model : MenuModel)
    (cut_index copy_index paste_index : Int) : Except Fault CutCopyPasteView := do
  let cut ← CreateAndConfigureButton menu_model .IDS_CUT .LEFT_BUTTON cut_index
  let copy ← CreateAndConfigureButton menu_model .IDS_COPY .CENTER_BUTTON copy_index
  let paste ← CreateAndConfigureButton menu_model .IDS_PASTE
    (if !cfg.os_win && cfg.is_touch then .CENTER_BUTTON else .RIGHT_BUTTON) paste_index
  pure { menu_model_ := menu_model, children := [cut, copy, paste] }

/-- The fullscreen `ImageButton` of the zoom row. -/
structure FullscreenButton where
  tag : Int
  accessible_name : AccessibleName
  horizontal_padding : Int
  deriving DecidableEq, Repr

/-- The sampling loop of `MaxWidthForZoomLabel`:
`for (int i = min_percent; i <= max_percent; i += step)`. -/
def zoomLabelLoop (string_width : Int → Int) (max_percent step : Int) :
    Nat → Int → Int → Except Fault Int
  | 0, _, _ => .error .OUT_OF_FUEL
  | fuel + 1, i, max_w =>
    if i ≤ max_percent then
      zoomLabelLoop string_width max_percent step fuel (i + step)
        (max (string_width i) max_w)
    else .ok max_w

/-- Embeds `ZoomView::MaxWidthForZoomLabel`.  The label border is a
`MenuButtonBorder`, whose insets are the horizontal padding on each side. -/
def MaxWidthForZoomLabel (cfg : Config) (fuel : Nat) : Except Fault Int := do
  let insets_width : Int :=
    2 * (if cfg.is_touch then kHorizontalTouchPadding else kHorizontalPadding)
  let max_w ←
    match cfg.selected_tab with
    | some selected_tab =>
      let min_percent := selected_tab.minimum_zoom_percent
      let max_percent := selected_tab.maximum_zoom_percent
      let step := Int.tdiv (max_percent - min_percent) 10
      zoomLabelLoop cfg.string_width max_percent step fuel min_percent 0
    | none => pure (cfg.string_width 100)
  pure (max_w + insets_width)

/-- The view holding the zoom controls. -/
structure ZoomView where
  menu_model_ : MenuModel
  fullscreen_index_ : Int
  decrement_button_ : TextButton
  increment_button_ : TextButton
  fullscreen_button_ : FullscreenButton
  /-- Percentage shown by `zoom_label_`. -/
  zoom_label_percent : Int
  zoom_label_width_ : Int

/-- Embeds `ZoomView::UpdateZoomControls`. -/
def ZoomView.UpdateZoomControls (cfg : Config) (fuel : Nat) (v : ZoomView) :
    Except Fault ZoomView := do
  let zoom : Int :=
    if !cfg.instant_ntp then
      match cfg.selected_tab with
      | some selected_tab => selected_tab.zoom_percent
      | none => 100
    else 100
  let v : ZoomView :=
    if !cfg.instant_ntp then
      let enable_increment :=
        match cfg.selected_tab with
        | some selected_tab => selected_tab.enable_increment
        | none => false
      let enable_decrement :=
        match cfg.selected_tab with
        | some selected_tab => selected_tab.enable_decrement
        | none => false
      { v with increment_button_ := { v.increment_button_ with enabled := enable_increment },
               decrement_button_ := { v.decrement_button_ with enabled := enable_decrement } }
    else v
  let width ← MaxWidthForZoomLabel cfg fuel
  pure { v with zoom_label_percent := zoom, zoom_label_width_ := width }

/-- Embeds the constructor `ZoomView::ZoomView`. -/
def ZoomView.create (cfg : Config) (fuel : Nat) (menu_model : MenuModel)
    (decrement_index increment_index fullscreen_index : Int) :
    Except Fault ZoomView := do
  let decrement_button ← CreateButtonWithAccName menu_model .IDS_ZOOM_MINUS2
    .LEFT_BUTTON decrement_index .IDS_ACCNAME_ZOOM_MINUS2
  let zoom_label_width ← MaxWidthForZoomLabel cfg fuel
  let increment_button ← CreateButtonWithAccName menu_model .IDS_ZOOM_PLUS2
    .RIGHT_BUTTON increment_index .IDS_ACCNAME_ZOOM_PLUS2
  let horizontal_padding :=
    if cfg.is_touch then kHorizontalTouchPadding else kHorizontalPadding
  let name ← GetAccessibleNameForWrenchMenuItem menu_model fullscreen_index
    .IDS_ACCNAME_FULLSCREEN
  let fullscreen_button : FullscreenButton :=
    { tag := fullscreen_index, accessible_name := name,
      horizontal_padding := horizontal_padding }
  ZoomView.UpdateZoomControls cfg fuel
    { menu_model_ := menu_model, fullscreen_index_ := fullscreen_index,
      decrement_button_ := decrement_button, increment_button_ := increment_button,
      fullscreen_button_ := fullscreen_button, zoom_label_percent := 100,
      zoom_label_width_ := zoom_label_width }

/-- A composite control attached to a menu item. -/
inductive ChildView where
  | cut_copy_paste (v : CutCopyPasteView)
  | zoom (v : ZoomView)

/-- Tags of the buttons of a composite control, in the order the
constructor creates them. -/
def ChildView.tags : ChildView → List Int
  | .cut_copy_paste v => v.children.map fun b => b.tag
  | .zoom v => [v.decrement_button_.tag, v.increment_button_.tag, v.fullscreen_button_.tag]

/-- The model a composite control was built for. -/
def ChildView.menu_model_ : ChildView → MenuModel
  | .cut_copy_paste v => v.menu_model_
  | .zoom v => v.menu_model_

/-- A `MenuItemView` below the root: the command identifier of its parent
view, its own command identifier, the model and index it was appended for
(the arguments of `AppendMenuItem`), the height override (0 for an ordinary
item, positive for a `ButtonContainerMenuItemView`), and the attributes the
menu code sets. -/
structure MenuItemView where
  parent : Int
  command : Int
  model : MenuModel
  index : Int
  height : Int
  use_right_margin : Bool
  visible : Bool
  icon : Option Nat
  /-- Title set by `SetTitle`; `none` while the title is the one of the model. -/
  title : Option StringId
  child_views : List ChildView

/-- The root view: `has_icons` and the number of `Cancel()` calls received. -/
structure RootView where
  has_icons : Bool
  cancel_calls : Nat
  deriving DecidableEq, Repr

/-! ## The identifier table (`std::map<int, Entry>`) -/

/-- The pair `std::pair<ui::MenuModel*, int>`: a model and an index in it. -/
abbrev Entry := MenuModel × Int

/-- The table `IDToEntry`, as the list of its key/value pairs. -/
abbrev IDToEntry := List (Int × Entry)

/-- Embeds `std::map::find`: `none` is the past-the-end iterator. -/
def IDToEntry.find : IDToEntry → Int → Option Entry
  | [], _ => none
  | (k, e) :: rest, id => if k = id then some e else IDToEntry.find rest id

/-- The table without the key `id`. -/
def IDToEntry.erase : IDToEntry → Int → IDToEntry
  | [], _ => []
  | (k, e) :: rest, id =>
    if k = id then IDToEntry.erase rest id else (k, e) :: IDToEntry.erase rest id

/-- Embeds `m[id].first = model; m[id].second = index;`: afterwards the key
`id` maps to `(model, index)`, whether or not it was present. -/
def IDToEntry.assign (m : IDToEntry) (id : Int) (e : Entry) : IDToEntry :=
  (id, e) :: IDToEntry.erase m id

/-! ## The menu -/

/-- State of a `WrenchMenu`, with the calls it made on its collaborators. -/
structure WrenchMenu where
  /-- The root view, `none` for NULL. -/
  root_ : Option RootView
  /-- The views below `root_`, in the order they were created. -/
  menu_items : List MenuItemView
  id_to_entry_ : IDToEntry
  /-- The model of `selected_menu_model_`, `none` for NULL. -/
  selected_menu_model_ : Option MenuModel
  selected_index_ : Int
  /-- Handle of the bookmark menu item, `none` for NULL. -/
  bookmark_menu_ : Option Int
  /-- Handle of the feedback menu item, `none` for NULL. -/
  feedback_menu_item_ : Option Int
  first_bookmark_command_id_ : Int
  /-- Whether `bookmark_menu_delegate_` holds a delegate. -/
  bookmark_menu_delegate_ : Bool
  /-- Whether `menu_runner_` holds a runner. -/
  menu_runner_ : Bool
  /-- Calls `model->ActivatedAt(index)` made so far, oldest first. -/
  activated : List (MenuModel × Int)
  /-- Calls `bookmark_menu_delegate_->ExecuteCommand(id, flags)` made so far. -/
  bookmark_executed : List (Int × Int)

namespace WrenchMenu

/-- Embeds the constructor `WrenchMenu::WrenchMenu`. -/
def create : WrenchMenu :=
  { root_ := none, menu_items := [], id_to_entry_ := [],
    selected_menu_model_ := none, selected_index_ := 0,
    bookmark_menu_ := none, feedback_menu_item_ := none,
    first_bookmark_command_id_ := 0, bookmark_menu_delegate_ := false,
    menu_runner_ := false, activated := [], bookmark_executed := [] }

/-- Applies `f` to the view with handle `item` (a call through the
`MenuItemView*`). -/
def updateItem (w : WrenchMenu) (item : Int) (f : MenuItemView → MenuItemView) :
    WrenchMenu :=
  { w with menu_items := w.menu_items.map fun v => if v.command = item then f v else v }

/-- Embeds `item->SetTitle(...)`. -/
def SetTitle (w : WrenchMenu) (item : Int) (title : StringId) : WrenchMenu :=
  w.updateItem item fun v => { v with title := some title }

/-- Embeds `item->AddChildView(...)`. -/
def AddChildView (w : WrenchMenu) (item : Int) (view : ChildView) : WrenchMenu :=
  w.updateItem item fun v => { v with child_views := v.child_views ++ [view] }

/-- The view with handle `item`, if one was created. -/
def itemView (w : WrenchMenu) (item : Int) : Option MenuItemView :=
  w.menu_items.find? fun v => v.command = item

/-- Embeds `WrenchMenu::AppendMenuItem`.  Returns the handle of the new
view and the advanced counter `*next_id`.  Both branches add the new view as
the last child of `parent`. -/
def AppendMenuItem (cfg : Config) (w : WrenchMenu) (parent : Int) (model : MenuModel)
    (index : Int) (menu_type : ItemType) (next_id : Int) (height : Int) :
    Except Fault (Int × Int × WrenchMenu) := do
  let id := next_id
  let next_id := next_id + 1
  let table := IDToEntry.assign w.id_to_entry_ id (model, index)
  let visible ← query (model.IsVisibleAt index)
  let icon ←
    (if menu_type = .TYPE_COMMAND && model.HasIcons then query (model.GetIconAt index)
     else pure none)
  let menu_item : MenuItemView :=
    { parent := parent, command := id, model := model, index := index,
      height := if height > 0 then height else 0,
      use_right_margin := !cfg.is_touch, visible := visible, icon := icon,
      title := none, child_views := [] }
  pure (id, next_id, { w with id_to_entry_ := table, menu_items := w.menu_items ++ [menu_item] })

/-- `DCHECK_EQ(expected, model->GetCommandIdAt(index))`: the model is
queried only when DCHECKs are on. -/
def dcheckCommandIdAt (dcheck_is_on : Bool) (expected : Int) (model : MenuModel)
    (index : Int) : Except Fault Unit :=
  if dcheck_is_on then do
    let actual ← query (model.GetCommandIdAt index)
    if expected = actual then pure () else .error .DCHECK
  else pure ()

/-- `DCHECK_EQ(expected, model->GetTypeAt(index))`: the model is queried
only when DCHECKs are on. -/
def dcheckTypeAt (dcheck_is_on : Bool) (expected : ItemType) (model : MenuModel)
    (index : Int) : Except Fault Unit :=
  if dcheck_is_on then do
    let actual ← query (model.GetTypeAt index)
    if expected = actual then pure () else .error .DCHECK
  else pure ()

/-- The `switch (model->GetCommandIdAt(index))` statement of `PopulateMenu`
for the view `item` made for loop counter `i`.  Returns the loop counter
after the statement (`i + 2` when a triple was consumed). -/
def populateSwitch (cfg : Config) (K : CommandIds) (fuel : Nat) (w : WrenchMenu)
    (model : MenuModel) (i max : Nat) (index : Int) (item : Int) :
    Except Fault (Nat × WrenchMenu) := do
  let command_id ← query (model.GetCommandIdAt index)
  if command_id = K.IDC_CUT then
    dcheckTypeAt cfg.dcheck_is_on .TYPE_COMMAND model index
    dcheck cfg.dcheck_is_on (decide (i + 2 < max))
    dcheckCommandIdAt cfg.dcheck_is_on K.IDC_COPY model (index + 1)
    dcheckCommandIdAt cfg.dcheck_is_on K.IDC_PASTE model (index + 2)
    let w := w.SetTitle item .IDS_EDIT2
    let view ← CutCopyPasteView.create cfg model index (index + 1) (index + 2)
    pure (i + 2, w.AddChildView item (.cut_copy_paste view))
  else if command_id = K.IDC_ZOOM_MINUS then
    dcheckTypeAt cfg.dcheck_is_on .TYPE_COMMAND model index
    dcheckCommandIdAt cfg.dcheck_is_on K.IDC_ZOOM_PLUS model (index + 1)
    dcheckCommandIdAt cfg.dcheck_is_on K.IDC_FULLSCREEN model (index + 2)
    let w := w.SetTitle item .IDS_ZOOM_MENU2
    let view ← ZoomView.create cfg fuel model index (index + 1) (index + 2)
    pure (i + 2, w.AddChildView item (.zoom view))
  else if command_id = K.IDC_BOOKMARKS_MENU then
    dcheck cfg.dcheck_is_on w.bookmark_menu_.isNone
    pure (i, { w with bookmark_menu_ := some item })
  else if command_id = K.IDC_FEEDBACK then
    dcheck cfg.dcheck_is_on w.feedback_menu_item_.isNone
    pure (i, { w with feedback_menu_item_ := some item })
  else
    pure (i, w)

/-- Embeds `WrenchMenu::PopulateMenu`, from loop counter `i` on: the state
of the `for` loop is `i` and `*next_id`; `PopulateMenu` itself starts it at
`i = 0`.  Each test of the loop condition and each call takes one unit of
`fuel`. -/
def PopulateMenuFrom (cfg : Config) (K : CommandIds) :
    Nat → WrenchMenu → Int → MenuModel → Nat → Int → Except Fault (Int × WrenchMenu)
  | 0, _, _, _, _, _ => .error .OUT_OF_FUEL
  | fuel + 1, w, parent, model, i, next_id =>
    let index_offset := model.GetFirstItemIndex
    let max := model.GetItemCount
    if i < max then do
      let index : Int := i + index_offset
      let command_id ← query (model.GetCommandIdAt index)
      let height : Int :=
        if cfg.is_touch && (command_id = K.IDC_CUT || command_id = K.IDC_ZOOM_MINUS)
        then kTouchItemHeight else 0
      let type ← query (model.GetTypeAt index)
      let (item, next_id, w) ← AppendMenuItem cfg w parent model index type next_id height
      let (next_id, w) ←
        (if type = .TYPE_SUBMENU then
          (match model.GetSubmenuModelAt index with
           | none => .error .OUT_OF_RANGE
           | some none => .error .UNDEFINED
           | some (some submenu) => PopulateMenuFrom cfg K fuel w item submenu 0 next_id)
         else pure (next_id, w))
      let (i, w) ← populateSwitch cfg K fuel w model i max index item
      PopulateMenuFrom cfg K fuel w parent model (i + 1) next_id
    else .ok (next_id, w)

/-- Embeds `WrenchMenu::PopulateMenu`. -/
def PopulateMenu (cfg : Config) (K : CommandIds) (fuel : Nat) (w : WrenchMenu)
    (parent : Int) (model : MenuModel) (next_id : Int) :
    Except Fault (Int × WrenchMenu) :=
  PopulateMenuFrom cfg K fuel w parent model 0 next_id

/-- Embeds `WrenchMenu::Init`. -/
def Init (cfg : Config) (K : CommandIds) (fuel : Nat) (w : WrenchMenu)
    (model : MenuModel) : Except Fault WrenchMenu := do
  dcheck cfg.dcheck_is_on w.root_.isNone
  let w := { w with root_ := some { has_icons := true, cancel_calls := 0 }, menu_items := [] }
  let next_id : Int := 1
  let (next_id, w) ← PopulateMenu cfg K fuel w 0 model next_id
  pure { w with first_bookmark_command_id_ := next_id + 1, menu_runner_ := true }

/-- Modelled from the spec: `is_bookmark_command` is declared in
`wrench_menu.h`, which is not among the sources.  The spec describes the
bookmark identifiers as a disjoint range reserved for the externally
populated submenu, starting at `first_bookmark_command_id_`, and routed to
the bookmark delegate; without a delegate no identifier is a bookmark
command. -/
def is_bookmark_command (w : WrenchMenu) (command_id : Int) : Bool :=
  w.bookmark_menu_delegate_ && decide (w.first_bookmark_command_id_ ≤ command_id)

/-- Embeds `WrenchMenu::ExecuteCommand`.  Dereferencing the iterator that
`find` returns for an absent key is undefined. -/
def ExecuteCommand (K : CommandIds) (w : WrenchMenu) (id : Int)
    (mouse_event_flags : Int) : Except Fault WrenchMenu :=
  if w.is_bookmark_command id then
    .ok { w with bookmark_executed := w.bookmark_executed ++ [(id, mouse_event_flags)] }
  else
    match IDToEntry.find w.id_to_entry_ id with
    | none => .error .UNDEFINED
    | some entry => do
      let command_id ← query (entry.1.GetCommandIdAt entry.2)
      if command_id = K.IDC_CUT || command_id = K.IDC_ZOOM_MINUS then
        pure w
      else
        pure { w with activated := w.activated ++ [(entry.1, entry.2)] }

/-- Embeds `WrenchMenu::CancelAndEvaluate`. -/
def CancelAndEvaluate (w : WrenchMenu) (model : MenuModel) (index : Int) :
    Except Fault WrenchMenu :=
  let w := { w with selected_menu_model_ := some model, selected_index_ := index }
  match w.root_ with
  | none => .error .UNDEFINED
  | some root => .ok { w with root_ := some { root with cancel_calls := root.cancel_calls + 1 } }

/-- A menu before `Init`: no tree, empty table, no bookmark or feedback
item recorded. -/
def Unpopulated (w : WrenchMenu) : Prop :=
  w.root_ = none ∧ w.menu_items = [] ∧ w.id_to_entry_ = [] ∧
    w.bookmark_menu_ = none ∧ w.feedback_menu_item_ = none

end WrenchMenu

/-! ## Well-formed model trees -/

mutual
/-- The model objects of the tree below a model, the model first. -/
def MenuModel.subtree : MenuModel → List MenuModel
  | .mk a f h l => .mk a f h l :: subtreeItems l
/-- The model objects reachable through the submenu pointers of a list of
items. -/
def subtreeItems : List (ItemData × Option MenuModel) → List MenuModel
  | [] => []
  | (_, none) :: rest => subtreeItems rest
  | (_, some m) :: rest => m.subtree ++ subtreeItems rest
end

mutual
/-- Number of models and items of a tree. -/
def MenuModel.size : MenuModel → Nat
  | .mk _ _ _ l => 1 + sizeItems l
/-- Number of items of a list, with the sizes of their submenu models. -/
def sizeItems : List (ItemData × Option MenuModel) → Nat
  | [] => 0
  | (_, none) :: rest => 1 + sizeItems rest
  | (_, some m) :: rest => 1 + m.size + sizeItems rest
end

/-- Steps that suffice for `Init` on a model: one per model and item, and
the at most 21 steps of a zoom label sampling loop. -/
def MenuModel.fuelBound (m : MenuModel) : Nat := m.size + 21

/-- The item at a model index starts a composite triple. -/
def IsTripleHead (K : CommandIds) (m : MenuModel) (index : Int) : Prop :=
  m.GetCommandIdAt index = some K.IDC_CUT ∨ m.GetCommandIdAt index = some K.IDC_ZOOM_MINUS

instance (K : CommandIds) (m : MenuModel) (index : Int) : Decidable (IsTripleHead K m index) := by
  unfold IsTripleHead; infer_instance

/-- The model index is the second or third element of a composite triple. -/
def Consumed (K : CommandIds) (m : MenuModel) (index : Int) : Prop :=
  IsTripleHead K m (index - 1) ∨ IsTripleHead K m (index - 2)

instance (K : CommandIds) (m : MenuModel) (index : Int) : Decidable (Consumed K m index) := by
  unfold Consumed; infer_instance

/-- The conditions `PopulateMenu` asserts on one model: an `IDC_CUT` or
`IDC_ZOOM_MINUS` item is a command followed by its two companions, and an
item of type submenu has a submenu model. -/
def MenuModel.LocalOk (K : CommandIds) (m : MenuModel) : Prop :=
  ∀ j, j < m.GetItemCount →
    (m.GetCommandIdAt (j + m.GetFirstItemIndex) = some K.IDC_CUT →
      m.GetTypeAt (j + m.GetFirstItemIndex) = some .TYPE_COMMAND ∧ j + 2 < m.GetItemCount ∧
      m.GetCommandIdAt (j + m.GetFirstItemIndex + 1) = some K.IDC_COPY ∧
      m.GetCommandIdAt (j + m.GetFirstItemIndex + 2) = some K.IDC_PASTE) ∧
    (m.GetCommandIdAt (j + m.GetFirstItemIndex) = some K.IDC_ZOOM_MINUS →
      m.GetTypeAt (j + m.GetFirstItemIndex) = some .TYPE_COMMAND ∧ j + 2 < m.GetItemCount ∧
      m.GetCommandIdAt (j + m.GetFirstItemIndex + 1) = some K.IDC_ZOOM_PLUS ∧
      m.GetCommandIdAt (j + m.GetFirstItemIndex + 2) = some K.IDC_FULLSCREEN) ∧
    (m.GetTypeAt (j + m.GetFirstItemIndex) = some .TYPE_SUBMENU →
      ((m.GetSubmenuModelAt (j + m.GetFirstItemIndex)).bind id).isSome = true)

instance (K : CommandIds) (m : MenuModel) : Decidable (m.LocalOk K) := by
  unfold MenuModel.LocalOk; infer_instance

/-- Number of items of a model with a given command identifier. -/
def MenuModel.countCommand (c : Int) (m : MenuModel) : Nat :=
  (m.items.filter fun p => p.1.command_id = c).length

/-- A well-formed tree: every model of it meets the asserted conditions,
and the tree has at most one bookmarks-menu item and at most one feedback
item (the code asserts that it meets each only once). -/
def MenuModel.WellFormed (K : CommandIds) (root : MenuModel) : Prop :=
  (∀ m ∈ root.subtree, m.LocalOk K) ∧
    (root.subtree.map (MenuModel.countCommand K.IDC_BOOKMARKS_MENU)).sum ≤ 1 ∧
    (root.subtree.map (MenuModel.countCommand K.IDC_FEEDBACK)).sum ≤ 1

instance (K : CommandIds) (root : MenuModel) : Decidable (root.WellFormed K) := by
  unfold MenuModel.WellFormed; infer_instance

/-- No model of the tree has an `IDC_ZOOM_MINUS` item. -/
def MenuModel.NoZoomRow (K : CommandIds) (root : MenuModel) : Prop :=
  ∀ m ∈ root.subtree, m.countCommand K.IDC_ZOOM_MINUS = 0

/-- The models of the tree are pairwise distinct objects. -/
def MenuModel.NoAlias (root : MenuModel) : Prop :=
  (root.subtree.map MenuModel.addr).Nodup

instance (root : MenuModel) : Decidable root.NoAlias := by
  unfold MenuModel.NoAlias; infer_instance

/-- The models the walk of `root` reaches: `root`, and the submenu model of
every item of type submenu of a reached model that is not the second or
third element of a triple. -/
inductive Reached (K : CommandIds) : MenuModel → MenuModel → Prop where
  | root (m : MenuModel) : Reached K m m
  | submenu (m s m' : MenuModel) (index : Int) :
      ¬ Consumed K m index → m.GetTypeAt index = some .TYPE_SUBMENU →
      m.GetSubmenuModelAt index = some (some s) → Reached K s m' → Reached K m m'

/-- The zoom label sampling loop returns: there is no selected tab, or the
range of zoom percentages is empty, or it is at least 10 wide. -/
def Config.ZoomRangeOk (cfg : Config) : Prop :=
  match cfg.selected_tab with
  | none => True
  | some tab =>
    tab.maximum_zoom_percent < tab.minimum_zoom_percent ∨
      tab.minimum_zoom_percent + 10 ≤ tab.maximum_zoom_percent

instance (cfg : Config) : Decidable cfg.ZoomRangeOk := by
  unfold Config.ZoomRangeOk; split <;> infer_instance

/-! ## Sample data for the closed statements -/

/-- Command identifiers for closed examples; any pairwise distinct values
serve. -/
def sampleIds : CommandIds :=
  { IDC_CUT := 36000, IDC_COPY := 36001, IDC_PASTE := 36003,
    IDC_ZOOM_MINUS := 38003, IDC_ZOOM_PLUS := 38001, IDC_FULLSCREEN := 34030,
    IDC_BOOKMARKS_MENU := 40029, IDC_FEEDBACK := 40008 }

/-- A debug build (DCHECKs on), non-touch layout, no selected tab. -/
def debugConfig : Config :=
  { dcheck_is_on := true, is_touch := false, os_win := false, instant_ntp := false,
    selected_tab := none, string_width := fun p => p }

/-- A release build (DCHECKs compiled out), non-touch layout, no selected
tab. -/
def releaseConfig : Config :=
  { dcheck_is_on := false, is_touch := false, os_win := false, instant_ntp := false,
    selected_tab := none, string_width := fun p => p }

/-- An enabled, visible command item without submenu. -/
def commandItem (command_id : Int) : ItemData × Option MenuModel :=
  ({ type := .TYPE_COMMAND, command_id := command_id, enabled := true, visible := true,
     checked := false, accelerator := none, icon := none }, none)

/-- The flat model of the scenario:
`[Command(10), IDC_CUT, IDC_COPY, IDC_PASTE, Command(20)]`. -/
def scenarioModel (K : CommandIds) : MenuModel :=
  .mk 1 0 false [commandItem 10, commandItem K.IDC_CUT, commandItem K.IDC_COPY,
    commandItem K.IDC_PASTE, commandItem 20]


/-! ## Auxiliary notions for the proofs -/

/-- The list is `n, n + 1, n + 2, ...`. -/
def consecutiveFrom : Int → List Int → Prop
  | _, [] => True
  | n, c :: cs => c = n ∧ consecutiveFrom (n + 1) cs

/-- Every identifier in use (as the command of a view or as a key of the
table) is below `n`. -/
def WrenchMenu.Fresh (n : Int) (w : WrenchMenu) : Prop :=
  (∀ v ∈ w.menu_items, v.command < n) ∧
    ∀ id e, IDToEntry.find w.id_to_entry_ id = some e → id < n

/-- The fields of the menu that the walk does not touch agree. -/
def WrenchMenu.SameOutside (w w' : WrenchMenu) : Prop :=
  w'.root_ = w.root_ ∧ w'.selected_menu_model_ = w.selected_menu_model_ ∧
    w'.selected_index_ = w.selected_index_ ∧
    w'.first_bookmark_command_id_ = w.first_bookmark_command_id_ ∧
    w'.bookmark_menu_delegate_ = w.bookmark_menu_delegate_ ∧
    w'.menu_runner_ = w.menu_runner_ ∧ w'.activated = w.activated ∧
    w'.bookmark_executed = w.bookmark_executed

/-- What a part of the walk that starts with counter `n` in state `w` and
ends with counter `n'` in state `w'` has done: it appended views numbered
`n, ..., n' - 1`, gave each of them its table entry, and left the older
views and entries alone. -/
structure WrenchMenu.WalkEffect (n : Int) (w : WrenchMenu) (n' : Int) (w' : WrenchMenu) :
    Prop where
  items : ∃ new : List MenuItemView, w'.menu_items = w.menu_items ++ new ∧
    n' = n + new.length ∧ consecutiveFrom n (new.map fun v => v.command) ∧
    ∀ v ∈ new, IDToEntry.find w'.id_to_entry_ v.command = some (v.model, v.index)
  old : ∀ id, id < n ∨ n' ≤ id →
    IDToEntry.find w'.id_to_entry_ id = IDToEntry.find w.id_to_entry_ id
  outside : w.SameOutside w'

/-- Number of items with command identifier `c` in a list of items and in
the models below them. -/
def countIn (c : Int) (l : List (ItemData × Option MenuModel)) : Nat :=
  (l.filter fun p => p.1.command_id = c).length +
    ((subtreeItems l).map (MenuModel.countCommand c)).sum

/-- How many more items may set a view pointer that is asserted to be set
only once: one while it is NULL, none afterwards. -/
def budget (o : Option Int) : Nat :=
  match o with
  | none => 1
  | some _ => 0

/-- Number of items with command identifier `c` below a submenu pointer. -/
def countInSub (c : Int) : Option MenuModel → Nat
  | none => 0
  | some s => countIn c s.items

/-- What holds of a view once the loop iteration that made it is over: its
index lies in its model, and its child views are the composite control of
its command identifier, built for the view's model and tagged with the
view's index and the two indices after it. -/
def ItemOk (K : CommandIds) (v : MenuItemView) : Prop :=
  (v.model.itemAt v.index).isSome = true ∧
  (v.model.GetCommandIdAt v.index = some K.IDC_CUT →
    ∃ view, v.child_views = [.cut_copy_paste view] ∧ view.menu_model_ = v.model ∧
      (ChildView.cut_copy_paste view).tags = [v.index, v.index + 1, v.index + 2]) ∧
  (v.model.GetCommandIdAt v.index ≠ some K.IDC_CUT →
    v.model.GetCommandIdAt v.index = some K.IDC_ZOOM_MINUS →
    ∃ view, v.child_views = [.zoom view] ∧ view.menu_model_ = v.model ∧
      view.fullscreen_index_ = v.index + 2 ∧
      (ChildView.zoom view).tags = [v.index, v.index + 1, v.index + 2]) ∧
  (v.model.GetCommandIdAt v.index ≠ some K.IDC_CUT →
    v.model.GetCommandIdAt v.index ≠ some K.IDC_ZOOM_MINUS → v.child_views = [])

/-- The view was made for an item of `m` at loop position `i` or later, or
for an item of a model below such an item. -/
def InRegion (m : MenuModel) (i : Nat) (v : MenuItemView) : Prop :=
  (v.model = m ∧ ∃ j : Nat, i ≤ j ∧ j < m.GetItemCount ∧ v.index = j + m.GetFirstItemIndex) ∨
    v.model ∈ subtreeItems (m.items.drop i)

/-- The menu after `Init` on the scenario model (the unpopulated menu
should `Init` fail). -/
def scenarioMenu (cfg : Config) (K : CommandIds) : WrenchMenu :=
  match WrenchMenu.Init cfg K 27 WrenchMenu.create (scenarioModel K) with
  | .ok w => w
  | .error _ => WrenchMenu.create

/-- An enabled, visible item of type submenu with the given submenu model. -/
def submenuItem (command_id : Int) (sub : MenuModel) : ItemData × Option MenuModel :=
  ({ type := .TYPE_SUBMENU, command_id := command_id, enabled := true, visible := true,
     checked := false, accelerator := none, icon := none }, some sub)

/-- A model with a nested submenu: the root holds a command, a submenu and the
cut row; the submenu holds the zoom row and a command. -/
def nestedModel (K : CommandIds) : MenuModel :=
  .mk 1 0 false [commandItem 10,
    submenuItem 11 (.mk 2 0 false [commandItem K.IDC_ZOOM_MINUS, commandItem K.IDC_ZOOM_PLUS,
      commandItem K.IDC_FULLSCREEN, commandItem 5]),
    commandItem K.IDC_CUT, commandItem K.IDC_COPY, commandItem K.IDC_PASTE]

/-- A model whose `IDC_CUT` item is not followed by its companions:
`[IDC_CUT, Command(10), Command(20)]`. -/
def malformedCutModel (K : CommandIds) : MenuModel :=
  .mk 1 0 false [commandItem K.IDC_CUT, commandItem 10, commandItem 20]

/-! ## State queries, notifications and the menu run -/

/-- Notification types `WrenchMenu::Observe` can be handed: the one the
constructor registers for, and any other. -/
inductive NotificationType where
  | NOTIFICATION_GLOBAL_ERRORS_CHANGED
  | OTHER
  deriving DecidableEq, Repr

namespace WrenchMenu

/-- Embeds `WrenchMenu::IsItemChecked`.  The code dereferences the iterator
that `find` returns without comparing it with `end()`. -/
def IsItemChecked (w : WrenchMenu) (id : Int) : Except Fault Bool :=
  if w.is_bookmark_command id then .ok false
  else
    match IDToEntry.find w.id_to_entry_ id with
    | none => .error .UNDEFINED
    | some entry => query (entry.1.IsItemCheckedAt entry.2)

/-- Embeds `WrenchMenu::IsCommandEnabled`.  The code dereferences the
iterator that `find` returns without comparing it with `end()`; the model is
asked `IsEnabledAt` only when the command is not `IDC_CUT`. -/
def IsCommandEnabled (K : CommandIds) (w : WrenchMenu) (id : Int) : Except Fault Bool :=
  if w.is_bookmark_command id then .ok true
  else if id = 0 then .ok false
  else
    match IDToEntry.find w.id_to_entry_ id with
    | none => .error .UNDEFINED
    | some entry =>
      match entry.1.GetCommandIdAt entry.2 with
      | none => .error .OUT_OF_RANGE
      | some command_id =>
        if command_id = K.IDC_CUT then .ok true
        else query (entry.1.IsEnabledAt entry.2)

/-- Embeds `WrenchMenu::GetAccelerator`.  The argument `accelerator` is the
value of `*accelerator` before the call; the result is the return value, the
value of `*accelerator` after the call, and the menu (the function is not
`const`). -/
def GetAccelerator (K : CommandIds) (w : WrenchMenu) (id : Int) (accelerator : Accelerator) :
    Except Fault (Bool × Accelerator × WrenchMenu) :=
  if w.is_bookmark_command id then .ok (false, accelerator, w)
  else
    match IDToEntry.find w.id_to_entry_ id with
    | none => .ok (false, accelerator, w)
    | some entry =>
      match entry.1.GetCommandIdAt entry.2 with
      | none => .error .OUT_OF_RANGE
      | some command_id =>
        if command_id = K.IDC_CUT || command_id = K.IDC_ZOOM_MINUS then
          .ok (false, accelerator, w)
        else
          match entry.1.GetAcceleratorAt entry.2 with
          | none => .error .OUT_OF_RANGE
          | some none => .ok (false, accelerator, w)
          | some (some menu_accelerator) =>
            .ok (true, { key_code := menu_accelerator.key_code,
                         modifiers := menu_accelerator.modifiers }, w)

/-- Embeds `WrenchMenu::Observe`.  `root_->Cancel()` is a call through
`root_`; `NOTREACHED()` is a failed `DCHECK`. -/
def Observe (cfg : Config) (w : WrenchMenu) (type : NotificationType) :
    Except Fault WrenchMenu :=
  match type with
  | .NOTIFICATION_GLOBAL_ERRORS_CHANGED =>
    match w.root_ with
    | none => .error .UNDEFINED
    | some root => .ok { w with root_ := some { root with cancel_calls := root.cancel_calls + 1 } }
  | .OTHER =>
    match dcheck cfg.dcheck_is_on false with
    | .error e => .error e
    | .ok _ => .ok w

/-- Embeds `WrenchMenu::CreateBookmarkMenu`.  The argument is the bookmark
model of the profile: `none` for NULL, otherwise the value of `IsLoaded()`.
The second result is the first command identifier the new
`BookmarkMenuDelegate` is constructed with, `none` when no delegate is
made. -/
def CreateBookmarkMenu (w : WrenchMenu) (bookmark_model : Option Bool) :
    Except Fault (WrenchMenu × Option Int) :=
  if w.bookmark_menu_delegate_ then .ok (w, none)
  else
    match bookmark_model with
    | none => .error .UNDEFINED
    | some false => .ok (w, none)
    | some true =>
      .ok ({ w with bookmark_menu_delegate_ := true }, some w.first_bookmark_command_id_)

/-- The pair `(selected_menu_model_, selected_index_)`, `none` while
`selected_menu_model_` is NULL. -/
def selection (w : WrenchMenu) : Option (MenuModel × Int) :=
  w.selected_menu_model_.map fun m => (m, w.selected_index_)

/-- A menu after `Init`: the root view and the menu runner exist. -/
def Populated (w : WrenchMenu) : Prop :=
  w.root_.isSome = true ∧ w.menu_runner_ = true

instance (w : WrenchMenu) : Decidable w.Populated := by
  unfold Populated; infer_instance

/-- The members of the menu apart from the count of `Cancel()` calls its
root view has received, and whether the root view was asked to cancel. -/
def forgetCancelCount (w : WrenchMenu) : WrenchMenu × Bool :=
  ({ w with root_ := w.root_.map fun r => { r with cancel_calls := 0 } },
    match w.root_ with
    | none => false
    | some r => decide (0 < r.cancel_calls))

end WrenchMenu

/-- Embeds `CutCopyPasteView::ButtonPressed`; `sender_tag` is
`sender->tag()` and `menu_` the menu the view was built for. -/
def CutCopyPasteView.ButtonPressed (v : CutCopyPasteView) (menu_ : WrenchMenu)
    (sender_tag : Int) : Except Fault WrenchMenu :=
  menu_.CancelAndEvaluate v.menu_model_ sender_tag

/-- Embeds `ZoomView::ButtonPressed`; `sender_tag` is `sender->tag()` and
`menu_` the menu the view was built for. -/
def ZoomView.ButtonPressed (v : ZoomView) (menu_ : WrenchMenu) (sender_tag : Int) :
    Except Fault WrenchMenu :=
  if sender_tag = v.fullscreen_index_ then
    menu_.CancelAndEvaluate v.menu_model_ sender_tag
  else
    .ok { menu_ with activated := menu_.activated ++ [(v.menu_model_, sender_tag)] }

/-- Return values of `views::MenuRunner::RunMenuAt`. -/
inductive RunResult where
  | MENU_DELETED
  | NORMAL_EXIT
  deriving DecidableEq, Repr

/-- A call the views toolkit makes on the menu, or on one of its composite
views, while `RunMenuAt` shows the menu.  `WillShowBookmarkMenu` is
`WillShowMenu(bookmark_menu_)`, which calls `CreateBookmarkMenu`. -/
inductive Callback where
  | ExecuteCommand (id : Int) (mouse_event_flags : Int)
  | CutCopyPasteButtonPressed (view : CutCopyPasteView) (sender_tag : Int)
  | ZoomButtonPressed (view : ZoomView) (sender_tag : Int)
  | Observe (type : NotificationType)
  | WillShowBookmarkMenu (bookmark_model : Option Bool)

/-- The effect of one call on the menu. -/
def Callback.deliver (cfg : Config) (K : CommandIds) (w : WrenchMenu) :
    Callback → Except Fault WrenchMenu
  | .ExecuteCommand id mouse_event_flags => w.ExecuteCommand K id mouse_event_flags
  | .CutCopyPasteButtonPressed view sender_tag => view.ButtonPressed w sender_tag
  | .ZoomButtonPressed view sender_tag => view.ButtonPressed w sender_tag
  | .Observe type => w.Observe cfg type
  | .WillShowBookmarkMenu bookmark_model =>
    match w.CreateBookmarkMenu bookmark_model with
    | .error e => .error e
    | .ok r => .ok r.1

/-- The effect of a sequence of calls, in order. -/
def Callback.deliverAll (cfg : Config) (K : CommandIds) :
    WrenchMenu → List Callback → Except Fault WrenchMenu
  | w, [] => .ok w
  | w, c :: rest =>
    match c.deliver cfg K w with
    | .error e => .error e
    | .ok w1 => Callback.deliverAll cfg K w1 rest

/-- Embeds `WrenchMenu::RunMenu`.  `during` are the calls made while
`menu_runner_->RunMenuAt` shows the menu and `result` is its return value;
the call goes through `menu_runner_`.  The host button, the metrics record
and the removal of the bookmark observer do not touch the state kept here. -/
def WrenchMenu.RunMenu (cfg : Config) (K : CommandIds) (w : WrenchMenu)
    (during : List Callback) (result : RunResult) : Except Fault WrenchMenu :=
  if w.menu_runner_ then
    match Callback.deliverAll cfg K w during with
    | .error e => .error e
    | .ok w =>
      if result = .MENU_DELETED then .ok w
      else
        match w.selected_menu_model_ with
        | some selected_menu_model =>
          .ok { w with activated := w.activated ++ [(selected_menu_model, w.selected_index_)] }
        | none => .ok w
  else .error .UNDEFINED

/-- The arguments of the call of `CancelAndEvaluate` a toolkit call leads
to, if it leads to one. -/
def Callback.cancelRequest : Callback → Option (MenuModel × Int)
  | .CutCopyPasteButtonPressed view sender_tag => some (view.menu_model_, sender_tag)
  | .ZoomButtonPressed view sender_tag =>
    if sender_tag = view.fullscreen_index_ then some (view.menu_model_, sender_tag) else none
  | _ => none

/-- The arguments of the last call of `CancelAndEvaluate` in a sequence of
toolkit calls; `before` when the sequence leads to none. -/
def lastCancelRequest : Option (MenuModel × Int) → List Callback → Option (MenuModel × Int)
  | before, [] => before
  | before, c :: rest =>
    lastCancelRequest (match c.cancelRequest with | some e => some e | none => before) rest

/-! ## More sample data -/

/-- A model whose last item is `IDC_ZOOM_MINUS`:
`[Command(10), IDC_ZOOM_MINUS]`. -/
def zoomLastModel (K : CommandIds) : MenuModel :=
  .mk 1 0 false [commandItem 10, commandItem K.IDC_ZOOM_MINUS]

/-- A model whose second-to-last item is `IDC_ZOOM_MINUS`:
`[Command(10), IDC_ZOOM_MINUS, IDC_ZOOM_PLUS]`. -/
def zoomSecondLastModel (K : CommandIds) : MenuModel :=
  .mk 1 0 false [commandItem 10, commandItem K.IDC_ZOOM_MINUS, commandItem K.IDC_ZOOM_PLUS]

/-- A model whose last item is `IDC_CUT`: `[Command(10), IDC_CUT]`. -/
def cutLastModel (K : CommandIds) : MenuModel :=
  .mk 1 0 false [commandItem 10, commandItem K.IDC_CUT]

/-- A command item that reports an accelerator. -/
def acceleratedItem (command_id : Int) (a : Accelerator) : ItemData × Option MenuModel :=
  ({ type := .TYPE_COMMAND, command_id := command_id, enabled := true, visible := true,
     checked := false, accelerator := some a, icon := none }, none)

/-- A model whose items all report accelerators:
`[Command(10), IDC_CUT, IDC_COPY, IDC_PASTE]`. -/
def acceleratedModel (K : CommandIds) : MenuModel :=
  .mk 5 0 false [acceleratedItem 10 { key_code := 84, modifiers := 2 },
    acceleratedItem K.IDC_CUT { key_code := 88, modifiers := 2 },
    acceleratedItem K.IDC_COPY { key_code := 67, modifiers := 2 },
    acceleratedItem K.IDC_PASTE { key_code := 86, modifiers := 2 }]

/-- The menu after `Init` on the model with accelerators (the unpopulated
menu should `Init` fail). -/
def acceleratedMenu (cfg : Config) (K : CommandIds) : WrenchMenu :=
  match WrenchMenu.Init cfg K 27 WrenchMenu.create (acceleratedModel K) with
  | .ok w => w
  | .error _ => WrenchMenu.create

/-- The cut/copy/paste view of the scenario menu (an empty view should the
constructor fail). -/
def scenarioCutCopyPasteView (K : CommandIds) : CutCopyPasteView :=
  match CutCopyPasteView.create debugConfig (scenarioModel K) 1 2 3 with
  | .ok v => v
  | .error _ => { menu_model_ := scenarioModel K, children := [] }

/-! ## Layout of the zoom row -/

/-- Padding between the increment buttons and the reset button. -/
def kZoomPadding : Int := 6

/-- Padding between the increment buttons and the reset button for a touch
enabled menu. -/
def kTouchZoomPadding : Int := 14

/-- A `gfx::Rect`.  Widths are kept as given; the theorems about the layout
assume them non-negative. -/
structure Rect where
  x : Int
  y : Int
  width : Int
  height : Int
  deriving DecidableEq, Repr

/-- The right edge `x + width` of a rectangle. -/
def Rect.right (r : Rect) : Int := r.x + r.width

/-- The widths of `GetPreferredSize()` of the three buttons of a `ZoomView`,
which the views toolkit computes. -/
structure ZoomPreferredWidths where
  increment_button_ : Int
  decrement_button_ : Int
  fullscreen_button_ : Int
  deriving DecidableEq, Repr

/-- Embeds `ZoomView::GetPreferredSize`: width and height. -/
def ZoomView.GetPreferredSize (cfg : Config) (v : ZoomView) (pref : ZoomPreferredWidths) :
    Int × Int :=
  let button_width := max pref.increment_button_ pref.decrement_button_
  let zoom_padding := if cfg.is_touch then kTouchZoomPadding else kZoomPadding
  let fullscreen_width := pref.fullscreen_button_ + zoom_padding
  (button_width + v.zoom_label_width_ + button_width + fullscreen_width, 0)

/-- The bounds `ZoomView::Layout` gives to the four children. -/
structure ZoomLayout where
  decrement_button_ : Rect
  zoom_label_ : Rect
  increment_button_ : Rect
  fullscreen_button_ : Rect
  deriving DecidableEq, Repr

/-- Embeds `ZoomView::Layout`; `height` is the value of `height()`. -/
def ZoomView.Layout (cfg : Config) (v : ZoomView) (pref : ZoomPreferredWidths)
    (height : Int) : ZoomLayout :=
  let x : Int := 0
  let button_width := max pref.increment_button_ pref.decrement_button_
  let bounds : Rect := { x := 0, y := 0, width := button_width, height := height }
  let decrement_bounds := bounds
  let x := x + bounds.width
  let bounds := { bounds with x := x, width := v.zoom_label_width_ }
  let label_bounds := bounds
  let x := x + bounds.width
  let bounds := { bounds with x := x, width := button_width }
  let increment_bounds := bounds
  let x := x + bounds.width + (if cfg.is_touch then 0 else kZoomPadding)
  let fullscreen_width := pref.fullscreen_button_ + (if cfg.is_touch then kTouchZoomPadding else 0)
  let bounds := { bounds with x := x, width := fullscreen_width }
  { decrement_button_ := decrement_bounds, zoom_label_ := label_bounds,
    increment_button_ := increment_bounds, fullscreen_button_ := bounds }

/-! ## Notions for the order of the walk -/

/-- What the walk fixes of a view when it appends it: the handle of the
parent view, the identifier, and the model and index it was appended for. -/
structure Skeleton where
  parent : Int
  command : Int
  model : MenuModel
  index : Int

/-- The skeleton of a view. -/
def MenuItemView.skeleton (v : MenuItemView) : Skeleton :=
  { parent := v.parent, command := v.command, model := v.model, index := v.index }

/-- The views a walk of model `m` below the view `parent` makes from model
index `lo` on with counter `n`, in creation order: none; or a view for an
item of `m` at an index from `lo` on, with identifier `n`, followed by the
views of the walk of its submenu model below it, followed by the views for
the later items of `m`. -/
inductive PreOrder : Int → MenuModel → Int → Int → List Skeleton → Prop where
  | nil (parent : Int) (m : MenuModel) (lo n : Int) : PreOrder parent m lo n []
  | cons (parent : Int) (m : MenuModel) (lo n : Int) (a : Skeleton) (s : MenuModel)
      (lo_s lo_rest : Int) (kids rest : List Skeleton) :
      a.parent = parent → a.command = n → a.model = m → lo ≤ a.index → a.index < lo_rest →
      PreOrder n s lo_s (n + 1) kids →
      PreOrder parent m lo_rest (n + 1 + kids.length) rest →
      PreOrder parent m lo n (a :: (kids ++ rest))

/-- The view `v` lies below the view with handle `p`: its parent is `p`, or
its parent is a view that lies below `p`. -/
inductive Descendant (items : List MenuItemView) (p : Int) : MenuItemView → Prop where
  | child (v : MenuItemView) : v ∈ items → v.parent = p → Descendant items p v
  | step (u v : MenuItemView) : u ∈ items → v ∈ items → v.parent = u.command →
      Descendant items p u → Descendant items p v

/-- No item of the model is of type submenu. -/
def MenuModel.Flat (m : MenuModel) : Prop :=
  ∀ p ∈ m.items, p.1.type ≠ .TYPE_SUBMENU

instance (m : MenuModel) : Decidable m.Flat := by
  unfold MenuModel.Flat; infer_instance

/-- Number of items of a list that start a composite triple (`IDC_CUT` or
`IDC_ZOOM_MINUS`). -/
def tripleHeads (K : CommandIds) (l : List (ItemData × Option MenuModel)) : Nat :=
  (l.filter fun p => p.1.command_id = K.IDC_CUT ∨ p.1.command_id = K.IDC_ZOOM_MINUS).length

/-! ## Sample data for the zoom row -/

/-- A selected tab with the zoom range 25% to 500%. -/
def sampleTab : WebContents :=
  { zoom_percent := 100, enable_increment := true, enable_decrement := true,
    minimum_zoom_percent := 25, maximum_zoom_percent := 500 }

/-- A debug build with the sample tab selected and a font in which the
string for 100% is 50 wide and every other zoom string is 10 wide. -/
def wideHundredConfig : Config :=
  { dcheck_is_on := true, is_touch := false, os_win := false, instant_ntp := false,
    selected_tab := some sampleTab, string_width := fun p => if p = 100 then 50 else 10 }

/-- A debug build whose selected tab has the zoom range 100% to 105%. -/
def narrowRangeConfig : Config :=
  { dcheck_is_on := true, is_touch := false, os_win := false, instant_ntp := false,
    selected_tab := some { sampleTab with minimum_zoom_percent := 100,
                                          maximum_zoom_percent := 105 },
    string_width := fun p => p }

/-- A model that is one zoom row: `[IDC_ZOOM_MINUS, IDC_ZOOM_PLUS, IDC_FULLSCREEN]`. -/
def zoomRowModel (K : CommandIds) : MenuModel :=
  .mk 4 0 false [commandItem K.IDC_ZOOM_MINUS, commandItem K.IDC_ZOOM_PLUS,
    commandItem K.IDC_FULLSCREEN]

/-- A visible command item that the model reports as disabled. -/
def disabledItem (command_id : Int) : ItemData × Option MenuModel :=
  ({ type := .TYPE_COMMAND, command_id := command_id, enabled := false, visible := true,
     checked := false, accelerator := none, icon := none }, none)

/-- A model with a cut row and a zoom row whose first items the model
reports as disabled. -/
def disabledRowsModel (K : CommandIds) : MenuModel :=
  .mk 6 0 false [disabledItem K.IDC_CUT, commandItem K.IDC_COPY, commandItem K.IDC_PASTE,
    disabledItem K.IDC_ZOOM_MINUS, commandItem K.IDC_ZOOM_PLUS, commandItem K.IDC_FULLSCREEN]

/-- The menu after `Init` on the model with the disabled rows (the
unpopulated menu should `Init` fail). -/
def disabledRowsMenu (cfg : Config) (K : CommandIds) : WrenchMenu :=
  match WrenchMenu.Init cfg K 30 WrenchMenu.create (disabledRowsModel K) with
  | .ok w => w
  | .error _ => WrenchMenu.create

/-- The zoom view `ZoomView::ZoomView` builds for the zoom row model when no
tab is selected and the string for 100% is 100 wide. -/
def sampleZoomView (K : CommandIds) : ZoomView :=
  { menu_model_ := zoomRowModel K, fullscreen_index_ := 2,
    decrement_button_ :=
      { string_id := .IDS_ZOOM_MINUS2,
        accessible_name := { string_id := .IDS_ACCNAME_ZOOM_MINUS2, accelerator := none },
        tag := 0, enabled := false, background := .LEFT_BUTTON },
    increment_button_ :=
      { string_id := .IDS_ZOOM_PLUS2,
        accessible_name := { string_id := .IDS_ACCNAME_ZOOM_PLUS2, accelerator := none },
        tag := 1, enabled := false, background := .RIGHT_BUTTON },
    fullscreen_button_ :=
      { tag := 2,
        accessible_name := { string_id := .IDS_ACCNAME_FULLSCREEN, accelerator := none },
        horizontal_padding := 6 },
    zoom_label_percent := 100, zoom_label_width_ := 112 }

/-- The menu after `Init` on the nested model (the unpopulated menu should
`Init` fail). -/
def nestedMenu (cfg : Config) (K : CommandIds) : WrenchMenu :=
  match WrenchMenu.Init cfg K 40 WrenchMenu.create (nestedModel K) with
  | .ok w => w
  | .error _ => WrenchMenu.create

/-! ## Lemmas -/
open WrenchMenu

theorem bind_ok {α β : Type} (x : Except Fault α) (f : α → Except Fault β) (b : β) :
    (x >>= f) = .ok b ↔ ∃ a, x = .ok a ∧ f a = .ok b := by
  cases x with
  | error e => simp [bind, Except.bind]
  | ok a => simp [bind, Except.bind]

theorem query_ok {α : Type} (o : Option α) (a : α) : query o = .ok a ↔ o = some a := by
  cases o <;> simp [query]

theorem IDToEntry.find_erase_ne (m : IDToEntry) (id id' : Int) (h : id' ≠ id) :
    IDToEntry.find (IDToEntry.erase m id) id' = IDToEntry.find m id' := by
  induction m with
  | nil => rfl
  | cons p rest ih =>
    obtain ⟨k, e⟩ := p
    by_cases hk : k = id
    · subst hk
      have : k ≠ id' := fun h' => h h'.symm
      simp [IDToEntry.erase, IDToEntry.find, this, ih]
    · simp [IDToEntry.erase, IDToEntry.find, hk, ih]

theorem IDToEntry.find_assign_self (m : IDToEntry) (id : Int) (e : Entry) :
    IDToEntry.find (IDToEntry.assign m id e) id = some e := by
  simp [IDToEntry.assign, IDToEntry.find]

theorem IDToEntry.find_assign_ne (m : IDToEntry) (id id' : Int) (e : Entry) (h : id' ≠ id) :
    IDToEntry.find (IDToEntry.assign m id e) id' = IDToEntry.find m id' := by
  have h' : id ≠ id' := fun x => h x.symm
  simp [IDToEntry.assign, IDToEntry.find, h', IDToEntry.find_erase_ne m id id' h]

theorem MenuModel.itemAt_nat (m : MenuModel) (j : Nat) :
    m.itemAt ((j : Int) + m.GetFirstItemIndex) = m.items[j]? := by
  unfold MenuModel.itemAt
  have h1 : ¬ ((j : Int) + m.GetFirstItemIndex < m.GetFirstItemIndex) := by omega
  have h2 : ((j : Int) + m.GetFirstItemIndex - m.GetFirstItemIndex).toNat = j := by omega
  simp [h1, h2]

theorem MenuModel.itemAt_some (m : MenuModel) (index : Int) (x : ItemData × Option MenuModel)
    (h : m.itemAt index = some x) :
    ∃ j : Nat, j < m.GetItemCount ∧ index = (j : Int) + m.GetFirstItemIndex ∧ m.items[j]? = some x := by
  unfold MenuModel.itemAt at h
  split at h
  · cases h
  · rename_i hlt
    refine ⟨(index - m.GetFirstItemIndex).toNat, ?_, by omega, h⟩
    have := List.getElem?_eq_some.1 h
    obtain ⟨hl, _⟩ := this
    exact hl

theorem WrenchMenu.AppendMenuItem_ok (cfg : Config) (w : WrenchMenu) (parent : Int)
    (model : MenuModel) (index : Int) (menu_type : ItemType) (next_id height : Int)
    (r : Int × Int × WrenchMenu)
    (h : AppendMenuItem cfg w parent model index menu_type next_id height = .ok r) :
    ∃ v : MenuItemView, v.command = next_id ∧ v.parent = parent ∧ v.model = model ∧
      v.index = index ∧ v.child_views = [] ∧ v.title = none ∧
      r = (next_id, next_id + 1,
        { w with id_to_entry_ := IDToEntry.assign w.id_to_entry_ next_id (model, index),
                 menu_items := w.menu_items ++ [v] }) := by
  unfold AppendMenuItem at h
  obtain ⟨visible, _, h⟩ := (bind_ok _ _ _).1 h
  obtain ⟨icon, _, h⟩ := (bind_ok _ _ _).1 h
  simp only [pure, Except.pure, Except.ok.injEq] at h
  exact ⟨_, rfl, rfl, rfl, rfl, rfl, rfl, h.symm⟩

theorem WrenchMenu.AppendMenuItem_total (cfg : Config) (w : WrenchMenu) (parent : Int)
    (model : MenuModel) (index : Int) (menu_type : ItemType) (next_id height : Int)
    (x : ItemData × Option MenuModel) (hx : model.itemAt index = some x) :
    ∃ r, AppendMenuItem cfg w parent model index menu_type next_id height = .ok r := by
  unfold AppendMenuItem
  by_cases hc : (decide (menu_type = .TYPE_COMMAND) && model.HasIcons) = true
  · simp [MenuModel.IsVisibleAt, MenuModel.GetIconAt, hx, query, bind, Except.bind, pure,
      Except.pure, hc]
  · simp [MenuModel.IsVisibleAt, MenuModel.GetIconAt, hx, query, bind, Except.bind, pure,
      Except.pure, hc]

theorem CreateButtonWithAccName_ok (m : MenuModel) (sid : StringId) (t : ButtonType)
    (index : Int) (acc : StringId) (b : TextButton)
    (h : CreateButtonWithAccName m sid t index acc = .ok b) :
    b.tag = index ∧ (m.itemAt index).isSome = true := by
  unfold CreateButtonWithAccName at h
  obtain ⟨name, _, h⟩ := (bind_ok _ _ _).1 h
  obtain ⟨en, hen, h⟩ := (bind_ok _ _ _).1 h
  simp only [pure, Except.pure, Except.ok.injEq] at h
  subst h
  refine ⟨rfl, ?_⟩
  rw [query_ok] at hen
  unfold MenuModel.IsEnabledAt at hen
  cases hx : m.itemAt index with
  | none => simp [hx] at hen
  | some x => rfl

theorem CreateButtonWithAccName_total (m : MenuModel) (sid : StringId) (t : ButtonType)
    (index : Int) (acc : StringId) (h : (m.itemAt index).isSome = true) :
    ∃ b, CreateButtonWithAccName m sid t index acc = .ok b := by
  obtain ⟨x, hx⟩ := Option.isSome_iff_exists.1 h
  simp [CreateButtonWithAccName, GetAccessibleNameForWrenchMenuItem, MenuModel.GetAcceleratorAt,
    MenuModel.IsEnabledAt, hx, query, bind, Except.bind, pure, Except.pure]

theorem CutCopyPasteView_create_ok (cfg : Config) (m : MenuModel) (a b c : Int)
    (view : CutCopyPasteView) (h : CutCopyPasteView.create cfg m a b c = .ok view) :
    view.menu_model_ = m ∧ (ChildView.cut_copy_paste view).tags = [a, b, c] := by
  unfold CutCopyPasteView.create CreateAndConfigureButton at h
  obtain ⟨b1, h1, h⟩ := (bind_ok _ _ _).1 h
  obtain ⟨b2, h2, h⟩ := (bind_ok _ _ _).1 h
  obtain ⟨b3, h3, h⟩ := (bind_ok _ _ _).1 h
  simp only [pure, Except.pure, Except.ok.injEq] at h
  subst h
  simp [ChildView.tags, (CreateButtonWithAccName_ok _ _ _ _ _ _ h1).1,
    (CreateButtonWithAccName_ok _ _ _ _ _ _ h2).1, (CreateButtonWithAccName_ok _ _ _ _ _ _ h3).1]

theorem CutCopyPasteView_create_total (cfg : Config) (m : MenuModel) (a b c : Int)
    (ha : (m.itemAt a).isSome = true) (hb : (m.itemAt b).isSome = true)
    (hc : (m.itemAt c).isSome = true) :
    ∃ view, CutCopyPasteView.create cfg m a b c = .ok view := by
  obtain ⟨b1, h1⟩ := CreateButtonWithAccName_total m .IDS_CUT .LEFT_BUTTON a .IDS_CUT ha
  obtain ⟨b2, h2⟩ := CreateButtonWithAccName_total m .IDS_COPY .CENTER_BUTTON b .IDS_COPY hb
  obtain ⟨b3, h3⟩ := CreateButtonWithAccName_total m .IDS_PASTE
    (if !cfg.os_win && cfg.is_touch then .CENTER_BUTTON else .RIGHT_BUTTON) c .IDS_PASTE hc
  unfold CutCopyPasteView.create CreateAndConfigureButton
  rw [h1, h2, h3]
  exact ⟨_, rfl⟩

theorem ZoomView_UpdateZoomControls_ok (cfg : Config) (fuel : Nat) (v v' : ZoomView)
    (h : ZoomView.UpdateZoomControls cfg fuel v = .ok v') :
    v'.menu_model_ = v.menu_model_ ∧ v'.fullscreen_index_ = v.fullscreen_index_ ∧
      v'.decrement_button_.tag = v.decrement_button_.tag ∧
      v'.increment_button_.tag = v.increment_button_.tag ∧
      v'.fullscreen_button_ = v.fullscreen_button_ := by
  unfold ZoomView.UpdateZoomControls at h
  obtain ⟨wd, _, h⟩ := (bind_ok _ _ _).1 h
  simp only [pure, Except.pure, Except.ok.injEq] at h
  subst h
  cases cfg.instant_ntp <;> simp

theorem ZoomView_create_ok (cfg : Config) (fuel : Nat) (m : MenuModel) (a b c : Int)
    (view : ZoomView) (h : ZoomView.create cfg fuel m a b c = .ok view) :
    view.menu_model_ = m ∧ view.fullscreen_index_ = c ∧
      (ChildView.zoom view).tags = [a, b, c] := by
  unfold ZoomView.create at h
  obtain ⟨b1, h1, h⟩ := (bind_ok _ _ _).1 h
  obtain ⟨wd, _, h⟩ := (bind_ok _ _ _).1 h
  obtain ⟨b2, h2, h⟩ := (bind_ok _ _ _).1 h
  obtain ⟨name, _, h⟩ := (bind_ok _ _ _).1 h
  have hu := ZoomView_UpdateZoomControls_ok _ _ _ _ h
  simp only at hu
  obtain ⟨hm, hf, hd, hi, hfb⟩ := hu
  refine ⟨hm, hf, ?_⟩
  simp [ChildView.tags, hd, hi, hfb, (CreateButtonWithAccName_ok _ _ _ _ _ _ h1).1,
    (CreateButtonWithAccName_ok _ _ _ _ _ _ h2).1]

theorem zoomLabelLoop_total (width : Int → Int) (max_percent step : Int) :
    ∀ (f : Nat) (i max_w : Int), max_percent - i < f * step →
      ∃ r, zoomLabelLoop width max_percent step (f + 1) i max_w = .ok r := by
  intro f
  induction f with
  | zero =>
    intro i max_w h
    have : ¬ i ≤ max_percent := by simp at h; omega
    exact ⟨max_w, by simp [zoomLabelLoop, this]⟩
  | succ f ih =>
    intro i max_w h
    unfold zoomLabelLoop
    by_cases hi : i ≤ max_percent
    · simp only [hi, if_true]
      apply ih
      have : ((f + 1 : Nat) : Int) * step = f * step + step := by push_cast; ring
      rw [this] at h
      omega
    · exact ⟨max_w, by simp [hi]⟩

theorem MaxWidthForZoomLabel_total (cfg : Config) (fuel : Nat) (hz : cfg.ZoomRangeOk)
    (hf : 21 ≤ fuel) : ∃ r, MaxWidthForZoomLabel cfg fuel = .ok r := by
  unfold MaxWidthForZoomLabel
  unfold Config.ZoomRangeOk at hz
  cases htab : cfg.selected_tab with
  | none => exact ⟨_, rfl⟩
  | some tab =>
    rw [htab] at hz
    simp only at hz
    obtain ⟨f, rfl⟩ : ∃ f, fuel = f + 1 := ⟨fuel - 1, by omega⟩
    have key : ∃ r, zoomLabelLoop cfg.string_width tab.maximum_zoom_percent
        (Int.tdiv (tab.maximum_zoom_percent - tab.minimum_zoom_percent) 10) (f + 1)
        tab.minimum_zoom_percent 0 = .ok r := by
      rcases hz with hlt | hge
      · refine ⟨0, ?_⟩
        have : ¬ tab.minimum_zoom_percent ≤ tab.maximum_zoom_percent := by omega
        simp [zoomLabelLoop, this]
      · have hd : 0 ≤ tab.maximum_zoom_percent - tab.minimum_zoom_percent := by omega
        have he : Int.tdiv (tab.maximum_zoom_percent - tab.minimum_zoom_percent) 10 =
            (tab.maximum_zoom_percent - tab.minimum_zoom_percent) / 10 :=
          Int.tdiv_eq_ediv hd (by decide)
        rw [he]
        apply zoomLabelLoop_total
        · have h20 : (20 : Int) ≤ (f : Int) := by omega
          have hs : 0 < (tab.maximum_zoom_percent - tab.minimum_zoom_percent) / 10 := by omega
          have : 20 * ((tab.maximum_zoom_percent - tab.minimum_zoom_percent) / 10) ≤
              (f : Int) * ((tab.maximum_zoom_percent - tab.minimum_zoom_percent) / 10) :=
            Int.mul_le_mul_of_nonneg_right h20 (le_of_lt hs)
          omega
    obtain ⟨r, hr⟩ := key
    simp only [hr, bind, Except.bind, pure, Except.pure]
    exact ⟨_, rfl⟩

theorem ZoomView_UpdateZoomControls_total (cfg : Config) (fuel : Nat) (v : ZoomView)
    (hz : cfg.ZoomRangeOk) (hf : 21 ≤ fuel) :
    ∃ v', ZoomView.UpdateZoomControls cfg fuel v = .ok v' := by
  obtain ⟨r, hr⟩ := MaxWidthForZoomLabel_total cfg fuel hz hf
  unfold ZoomView.UpdateZoomControls
  simp only [hr, bind, Except.bind, pure, Except.pure]
  exact ⟨_, rfl⟩

theorem ZoomView_create_total (cfg : Config) (fuel : Nat) (m : MenuModel) (a b c : Int)
    (hz : cfg.ZoomRangeOk) (hf : 21 ≤ fuel)
    (ha : (m.itemAt a).isSome = true) (hb : (m.itemAt b).isSome = true)
    (hc : (m.itemAt c).isSome = true) :
    ∃ view, ZoomView.create cfg fuel m a b c = .ok view := by
  obtain ⟨b1, h1⟩ := CreateButtonWithAccName_total m .IDS_ZOOM_MINUS2 .LEFT_BUTTON a
    .IDS_ACCNAME_ZOOM_MINUS2 ha
  obtain ⟨b2, h2⟩ := CreateButtonWithAccName_total m .IDS_ZOOM_PLUS2 .RIGHT_BUTTON b
    .IDS_ACCNAME_ZOOM_PLUS2 hb
  obtain ⟨r, hr⟩ := MaxWidthForZoomLabel_total cfg fuel hz hf
  obtain ⟨x, hx⟩ := Option.isSome_iff_exists.1 hc
  unfold ZoomView.create
  simp only [h1, h2, hr, GetAccessibleNameForWrenchMenuItem, MenuModel.GetAcceleratorAt, hx,
    Option.map, query, bind, Except.bind, pure, Except.pure]
  exact ZoomView_UpdateZoomControls_total cfg fuel _ hz hf

theorem WrenchMenu.populateSwitch_ok (cfg : Config) (K : CommandIds) (fuel : Nat)
    (w : WrenchMenu) (model : MenuModel) (i max : Nat) (index item : Int)
    (r : Nat × WrenchMenu)
    (h : WrenchMenu.populateSwitch cfg K fuel w model i max index item = .ok r) :
    ∃ c, model.GetCommandIdAt index = some c ∧
      ((c = K.IDC_CUT ∧ r.1 = i + 2 ∧
          ∃ view, CutCopyPasteView.create cfg model index (index + 1) (index + 2) = .ok view ∧
            r.2 = (w.SetTitle item .IDS_EDIT2).AddChildView item (.cut_copy_paste view)) ∨
       (c ≠ K.IDC_CUT ∧ c = K.IDC_ZOOM_MINUS ∧ r.1 = i + 2 ∧
          ∃ view, ZoomView.create cfg fuel model index (index + 1) (index + 2) = .ok view ∧
            r.2 = (w.SetTitle item .IDS_ZOOM_MENU2).AddChildView item (.zoom view)) ∨
       (c ≠ K.IDC_CUT ∧ c ≠ K.IDC_ZOOM_MINUS ∧ r.1 = i ∧
          (r.2 = w ∨ r.2 = { w with bookmark_menu_ := some item } ∨
            r.2 = { w with feedback_menu_item_ := some item }))) := by
  unfold WrenchMenu.populateSwitch at h
  obtain ⟨c, hc, h⟩ := (bind_ok _ _ _).1 h
  rw [query_ok] at hc
  refine ⟨c, hc, ?_⟩
  by_cases h1 : c = K.IDC_CUT
  · left
    rw [if_pos h1] at h
    obtain ⟨_, _, h⟩ := (bind_ok _ _ _).1 h
    obtain ⟨_, _, h⟩ := (bind_ok _ _ _).1 h
    obtain ⟨_, _, h⟩ := (bind_ok _ _ _).1 h
    obtain ⟨_, _, h⟩ := (bind_ok _ _ _).1 h
    obtain ⟨view, hv, h⟩ := (bind_ok _ _ _).1 h
    simp only [pure, Except.pure, Except.ok.injEq] at h
    subst h
    exact ⟨h1, rfl, view, hv, rfl⟩
  · rw [if_neg h1] at h
    by_cases h2 : c = K.IDC_ZOOM_MINUS
    · right; left
      rw [if_pos h2] at h
      obtain ⟨_, _, h⟩ := (bind_ok _ _ _).1 h
      obtain ⟨_, _, h⟩ := (bind_ok _ _ _).1 h
      obtain ⟨_, _, h⟩ := (bind_ok _ _ _).1 h
      obtain ⟨view, hv, h⟩ := (bind_ok _ _ _).1 h
      simp only [pure, Except.pure, Except.ok.injEq] at h
      subst h
      exact ⟨h1, h2, rfl, view, hv, rfl⟩
    · right; right
      rw [if_neg h2] at h
      refine ⟨h1, h2, ?_⟩
      by_cases h3 : c = K.IDC_BOOKMARKS_MENU
      · rw [if_pos h3] at h
        obtain ⟨_, _, h⟩ := (bind_ok _ _ _).1 h
        simp only [pure, Except.pure, Except.ok.injEq] at h
        subst h
        exact ⟨rfl, Or.inr (Or.inl rfl)⟩
      · rw [if_neg h3] at h
        by_cases h4 : c = K.IDC_FEEDBACK
        · rw [if_pos h4] at h
          obtain ⟨_, _, h⟩ := (bind_ok _ _ _).1 h
          simp only [pure, Except.pure, Except.ok.injEq] at h
          subst h
          exact ⟨rfl, Or.inr (Or.inr rfl)⟩
        · rw [if_neg h4] at h
          simp only [pure, Except.pure, Except.ok.injEq] at h
          subst h
          exact ⟨rfl, Or.inl rfl⟩

theorem WrenchMenu.PopulateMenuFrom_succ_ok (cfg : Config) (K : CommandIds) (fuel : Nat)
    (w : WrenchMenu) (parent : Int) (m : MenuModel) (i : Nat) (n : Int)
    (r : Int × WrenchMenu)
    (h : WrenchMenu.PopulateMenuFrom cfg K (fuel + 1) w parent m i n = .ok r) :
    (m.GetItemCount ≤ i ∧ r = (n, w)) ∨
    (i < m.GetItemCount ∧ ∃ d sub height wa n1 w1 i2 w2,
      m.items[i]? = some (d, sub) ∧
      WrenchMenu.AppendMenuItem cfg w parent m (i + m.GetFirstItemIndex) d.type n height
        = .ok (n, n + 1, wa) ∧
      ((d.type = .TYPE_SUBMENU ∧ ∃ s, sub = some s ∧
          WrenchMenu.PopulateMenuFrom cfg K fuel wa n s 0 (n + 1) = .ok (n1, w1)) ∨
       (d.type ≠ .TYPE_SUBMENU ∧ n1 = n + 1 ∧ w1 = wa)) ∧
      WrenchMenu.populateSwitch cfg K fuel w1 m i m.GetItemCount (i + m.GetFirstItemIndex) n
        = .ok (i2, w2) ∧
      WrenchMenu.PopulateMenuFrom cfg K fuel w2 parent m (i2 + 1) n1 = .ok r) := by
  unfold WrenchMenu.PopulateMenuFrom at h
  simp only at h
  by_cases hi : i < m.GetItemCount
  · right
    rw [if_pos hi] at h
    refine ⟨hi, ?_⟩
    obtain ⟨c, hc, h1⟩ := (bind_ok _ _ _).1 h
    obtain ⟨t, ht, h2⟩ := (bind_ok _ _ _).1 h1
    obtain ⟨⟨item, n0, wa⟩, ha, h3⟩ := (bind_ok _ _ _).1 h2
    obtain ⟨⟨n1, w1⟩, hs, h4⟩ := (bind_ok _ _ _).1 h3
    obtain ⟨⟨i2, w2⟩, hsw, h5⟩ := (bind_ok _ _ _).1 h4
    clear h h1 h2 h3 h4
    simp only at h5 hs hsw
    rw [query_ok] at hc ht
    have hitem : m.itemAt ((i : Int) + m.GetFirstItemIndex) = m.items[i]? :=
      MenuModel.itemAt_nat m i
    obtain ⟨x, hx⟩ : ∃ x, m.items[i]? = some x := by
      have : i < m.items.length := hi
      exact ⟨_, List.getElem?_eq_getElem this⟩
    obtain ⟨d, sub⟩ := x
    have htd : t = d.type := by
      simp [MenuModel.GetTypeAt, hitem, hx] at ht
      exact ht.symm
    subst htd
    obtain ⟨v, hv1, _, _, _, _, _, hveq⟩ := WrenchMenu.AppendMenuItem_ok _ _ _ _ _ _ _ _ _ ha
    have hitem0 : item = n := by
      have := congrArg Prod.fst hveq
      exact this
    have hn0 : n0 = n + 1 := by
      have := congrArg (fun p => p.2.1) hveq
      exact this
    subst hitem0 hn0
    refine ⟨d, sub, _, wa, n1, w1, i2, w2, hx, ha, ?_, hsw, h5⟩
    by_cases hty : d.type = .TYPE_SUBMENU
    · left
      refine ⟨hty, ?_⟩
      rw [if_pos hty] at hs
      have hsub : m.GetSubmenuModelAt ((i : Int) + m.GetFirstItemIndex) = some sub := by
        simp [MenuModel.GetSubmenuModelAt, hitem, hx]
      rw [hsub] at hs
      cases sub with
      | none => simp at hs
      | some s => exact ⟨s, rfl, hs⟩
    · right
      rw [if_neg hty] at hs
      simp only [pure, Except.pure, Except.ok.injEq, Prod.mk.injEq] at hs
      exact ⟨hty, hs.1.symm, hs.2.symm⟩
  · left
    rw [if_neg hi] at h
    simp only [Except.ok.injEq] at h
    exact ⟨by omega, h.symm⟩

theorem consecutiveFrom_append (n : Int) (a b : List Int) :
    consecutiveFrom n (a ++ b) ↔ consecutiveFrom n a ∧ consecutiveFrom (n + a.length) b := by
  induction a generalizing n with
  | nil => simp [consecutiveFrom]
  | cons c cs ih =>
    show (c = n ∧ consecutiveFrom (n + 1) (cs ++ b)) ↔ _
    rw [ih]
    simp only [consecutiveFrom, List.length_cons, Nat.cast_add, Nat.cast_one]
    have : n + 1 + (cs.length : Int) = n + ((cs.length : Int) + 1) := by ring
    rw [this]
    tauto

theorem consecutiveFrom_mem (n : Int) (l : List Int) (h : consecutiveFrom n l) (c : Int) :
    c ∈ l ↔ n ≤ c ∧ c < n + l.length := by
  induction l generalizing n with
  | nil => simp
  | cons x xs ih =>
    obtain ⟨hx, hxs⟩ := h
    subst hx
    simp only [List.mem_cons, ih _ hxs, List.length_cons, Nat.cast_add, Nat.cast_one]
    omega

theorem consecutiveFrom_nodup (n : Int) (l : List Int) (h : consecutiveFrom n l) : l.Nodup := by
  induction l generalizing n with
  | nil => simp
  | cons x xs ih =>
    obtain ⟨hx, hxs⟩ := h
    subst hx
    refine List.nodup_cons.2 ⟨?_, ih _ hxs⟩
    intro hmem
    have := (consecutiveFrom_mem _ _ hxs x).1 hmem
    omega

namespace WrenchMenu

theorem SameOutside.same_refl (w : WrenchMenu) : w.SameOutside w :=
  ⟨rfl, rfl, rfl, rfl, rfl, rfl, rfl, rfl⟩

theorem SameOutside.same_trans {a b c : WrenchMenu} (h1 : a.SameOutside b) (h2 : b.SameOutside c) :
    a.SameOutside c := by
  obtain ⟨p1, p2, p3, p4, p5, p6, p7, p8⟩ := h1
  obtain ⟨q1, q2, q3, q4, q5, q6, q7, q8⟩ := h2
  exact ⟨q1.trans p1, q2.trans p2, q3.trans p3, q4.trans p4, q5.trans p5, q6.trans p6,
    q7.trans p7, q8.trans p8⟩

theorem WalkEffect.walk_refl (n : Int) (w : WrenchMenu) : WalkEffect n w n w :=
  { items := ⟨[], by simp, by simp, trivial, by simp⟩
    old := fun _ _ => rfl
    outside := SameOutside.same_refl w }

theorem WalkEffect.le {n n' : Int} {w w' : WrenchMenu} (h : WalkEffect n w n' w') : n ≤ n' := by
  obtain ⟨new, _, hn, _, _⟩ := h.items
  omega

theorem WalkEffect.walk_trans {n n1 n2 : Int} {w w1 w2 : WrenchMenu}
    (h1 : WalkEffect n w n1 w1) (h2 : WalkEffect n1 w1 n2 w2) : WalkEffect n w n2 w2 := by
  obtain ⟨new1, hi1, hn1, hc1, ht1⟩ := h1.items
  obtain ⟨new2, hi2, hn2, hc2, ht2⟩ := h2.items
  refine ⟨⟨new1 ++ new2, ?_, ?_, ?_, ?_⟩, ?_, SameOutside.same_trans h1.outside h2.outside⟩
  · rw [hi2, hi1, List.append_assoc]
  · simp only [List.length_append, Nat.cast_add]; omega
  · rw [List.map_append, consecutiveFrom_append]
    refine ⟨hc1, ?_⟩
    simpa [← hn1] using hc2
  · intro v hv
    rcases List.mem_append.1 hv with hv | hv
    · have hmem : v.command ∈ new1.map (fun v => v.command) := List.mem_map.2 ⟨v, hv, rfl⟩
      have hr := (consecutiveFrom_mem _ _ hc1 _).1 hmem
      simp only [List.length_map] at hr
      rw [h2.old _ (Or.inl (by omega))]
      exact ht1 v hv
    · exact ht2 v hv
  · intro id hid
    have := h1.le
    have := h2.le
    rw [h2.old id (by omega), h1.old id (by omega)]

theorem WalkEffect.keeps_fresh {n n' : Int} {w w' : WrenchMenu} (h : WalkEffect n w n' w')
    (hf : w.Fresh n) : w'.Fresh n' := by
  obtain ⟨new, hi, hn, hc, ht⟩ := h.items
  constructor
  · intro v hv
    rw [hi] at hv
    rcases List.mem_append.1 hv with hv | hv
    · have := hf.1 v hv; omega
    · have hmem : v.command ∈ new.map (fun v => v.command) := List.mem_map.2 ⟨v, hv, rfl⟩
      have hr := (consecutiveFrom_mem _ _ hc _).1 hmem
      simp only [List.length_map] at hr
      omega
  · intro id e he
    by_contra hge
    rw [h.old id (Or.inr (by omega))] at he
    have := hf.2 id e he
    omega

theorem WalkEffect.append (cfg : Config) (w : WrenchMenu) (parent : Int) (model : MenuModel)
    (index : Int) (t : ItemType) (n height : Int) (wa : WrenchMenu)
    (h : AppendMenuItem cfg w parent model index t n height = .ok (n, n + 1, wa)) :
    WalkEffect n w (n + 1) wa := by
  obtain ⟨v, hv1, _, hv3, hv4, _, _, hveq⟩ := AppendMenuItem_ok _ _ _ _ _ _ _ _ _ h
  have hwa : wa = { w with id_to_entry_ := IDToEntry.assign w.id_to_entry_ n (model, index),
                           menu_items := w.menu_items ++ [v] } := by
    have := congrArg (fun p => p.2.2) hveq
    exact this
  subst hwa
  refine ⟨⟨[v], rfl, by simp, ⟨hv1, trivial⟩, ?_⟩, ?_, ⟨rfl, rfl, rfl, rfl, rfl, rfl, rfl, rfl⟩⟩
  · intro v' hv'
    simp only [List.mem_singleton] at hv'
    subst hv'
    simp only [hv1, hv3, hv4]
    exact IDToEntry.find_assign_self _ _ _
  · intro id hid
    exact IDToEntry.find_assign_ne _ _ _ _ (by omega)

theorem WalkEffect.update {n n' : Int} {w w' : WrenchMenu} (h : WalkEffect n w n' w')
    (hf : w.Fresh n) (item : Int) (hitem : n ≤ item) (f : MenuItemView → MenuItemView)
    (hfc : ∀ v, (f v).command = v.command) (hfm : ∀ v, (f v).model = v.model)
    (hfi : ∀ v, (f v).index = v.index) :
    WalkEffect n w n' (w'.updateItem item f) := by
  obtain ⟨new, hi, hn, hc, ht⟩ := h.items
  refine ⟨⟨new.map (fun v => if v.command = item then f v else v), ?_, ?_, ?_, ?_⟩, h.old,
    h.outside⟩
  · simp only [updateItem, hi, List.map_append]
    congr 1
    conv_rhs => rw [← List.map_id w.menu_items]
    apply List.map_congr_left
    intro v hv
    have := hf.1 v hv
    have hne : v.command ≠ item := by omega
    simp [hne]
  · simpa using hn
  · have : (new.map (fun v => if v.command = item then f v else v)).map (fun v => v.command)
        = new.map (fun v => v.command) := by
      rw [List.map_map]
      apply List.map_congr_left
      intro v _
      simp only [Function.comp]
      split <;> simp [hfc]
    rw [this]; exact hc
  · intro v hv
    obtain ⟨u, hu, rfl⟩ := List.mem_map.1 hv
    have := ht u hu
    simp only [updateItem]
    split <;> simp [hfc, hfm, hfi, this]

end WrenchMenu

namespace WrenchMenu

theorem WalkEffect.of_same {n n' : Int} {w w' w'' : WrenchMenu} (h : WalkEffect n w n' w')
    (h1 : w''.menu_items = w'.menu_items) (h2 : w''.id_to_entry_ = w'.id_to_entry_)
    (h3 : w'.SameOutside w'') : WalkEffect n w n' w'' := by
  obtain ⟨new, hi, hn, hc, ht⟩ := h.items
  refine ⟨⟨new, by rw [h1, hi], hn, hc, ?_⟩, ?_, SameOutside.same_trans h.outside h3⟩
  · intro v hv; rw [h2]; exact ht v hv
  · intro id hid; rw [h2]; exact h.old id hid

theorem WalkEffect.switch (cfg : Config) (K : CommandIds) (fuel : Nat) {n n' : Int}
    {w w' : WrenchMenu} (h : WalkEffect n w n' w') (hf : w.Fresh n) (model : MenuModel)
    (i max : Nat) (index item : Int) (hitem : n ≤ item) (r : Nat × WrenchMenu)
    (hs : populateSwitch cfg K fuel w' model i max index item = .ok r) :
    WalkEffect n w n' r.2 := by
  obtain ⟨c, _, hcase⟩ := populateSwitch_ok _ _ _ _ _ _ _ _ _ _ hs
  rcases hcase with ⟨_, _, view, _, hr⟩ | ⟨_, _, _, view, _, hr⟩ | ⟨_, _, _, hr | hr | hr⟩
  · rw [hr]
    unfold AddChildView SetTitle
    refine WalkEffect.update (WalkEffect.update h hf item hitem _ ?_ ?_ ?_) hf item hitem _
      ?_ ?_ ?_ <;> intro _ <;> rfl
  · rw [hr]
    unfold AddChildView SetTitle
    refine WalkEffect.update (WalkEffect.update h hf item hitem _ ?_ ?_ ?_) hf item hitem _
      ?_ ?_ ?_ <;> intro _ <;> rfl
  · rw [hr]; exact h
  · rw [hr]; exact WalkEffect.of_same h rfl rfl ⟨rfl, rfl, rfl, rfl, rfl, rfl, rfl, rfl⟩
  · rw [hr]; exact WalkEffect.of_same h rfl rfl ⟨rfl, rfl, rfl, rfl, rfl, rfl, rfl, rfl⟩

theorem PopulateMenuFrom_effect (cfg : Config) (K : CommandIds) :
    ∀ (fuel : Nat) (w : WrenchMenu) (parent : Int) (m : MenuModel) (i : Nat) (n : Int)
      (r : Int × WrenchMenu), w.Fresh n →
      PopulateMenuFrom cfg K fuel w parent m i n = .ok r → WalkEffect n w r.1 r.2 := by
  intro fuel
  induction fuel with
  | zero => intro w parent m i n r _ h; simp [PopulateMenuFrom] at h
  | succ fuel ih =>
    intro w parent m i n r hf h
    rcases PopulateMenuFrom_succ_ok _ _ _ _ _ _ _ _ _ h with ⟨_, hr⟩ |
      ⟨_, d, sub, height, wa, n1, w1, i2, w2, _, ha, hsub, hsw, hrest⟩
    · rw [hr]; exact WalkEffect.walk_refl n w
    · have e1 : WalkEffect n w (n + 1) wa := WalkEffect.append _ _ _ _ _ _ _ _ _ ha
      have e2 : WalkEffect n w n1 w1 := by
        rcases hsub with ⟨_, s, _, hrun⟩ | ⟨_, hn1, hw1⟩
        · exact e1.walk_trans (ih _ _ _ _ _ _ (e1.keeps_fresh hf) hrun)
        · rw [hn1, hw1]; exact e1
      have e3 : WalkEffect n w n1 w2 :=
        WalkEffect.switch cfg K fuel e2 hf m i _ _ n (le_refl n) _ hsw
      exact e3.walk_trans (ih _ _ _ _ _ _ (e3.keeps_fresh hf) hrest)

end WrenchMenu

theorem MenuModel.subtree_eq (m : MenuModel) : m.subtree = m :: subtreeItems m.items := by
  cases m; simp [MenuModel.subtree, MenuModel.items]

theorem MenuModel.size_eq (m : MenuModel) : m.size = 1 + sizeItems m.items := by
  cases m; simp [MenuModel.size, MenuModel.items]

theorem drop_of_getElem? {α : Type} (l : List α) (i : Nat) (x : α) (h : l[i]? = some x) :
    l.drop i = x :: l.drop (i + 1) := by
  obtain ⟨hl, hx⟩ := List.getElem?_eq_some.1 h
  rw [List.drop_eq_getElem_cons hl, hx]

theorem sizeItems_drop_succ_le (l : List (ItemData × Option MenuModel)) (i : Nat) :
    sizeItems (l.drop (i + 1)) ≤ sizeItems (l.drop i) := by
  by_cases h : i < l.length
  · rw [List.drop_eq_getElem_cons h]
    obtain ⟨d, sub⟩ := l[i]
    cases sub <;> simp [sizeItems]
  · rw [List.drop_of_length_le (by omega), List.drop_of_length_le (by omega)]

theorem sizeItems_drop_add_le (l : List (ItemData × Option MenuModel)) (i k : Nat) :
    sizeItems (l.drop (i + k)) ≤ sizeItems (l.drop i) := by
  induction k with
  | zero => simp
  | succ k ih => exact le_trans (sizeItems_drop_succ_le l (i + k)) ih

theorem subtreeItems_drop_succ (l : List (ItemData × Option MenuModel)) (i : Nat)
    (x : MenuModel) (h : x ∈ subtreeItems (l.drop (i + 1))) : x ∈ subtreeItems (l.drop i) := by
  by_cases hi : i < l.length
  · rw [List.drop_eq_getElem_cons hi]
    obtain ⟨d, sub⟩ := l[i]
    cases sub with
    | none => simpa [subtreeItems] using h
    | some s => simp [subtreeItems, h]
  · rw [List.drop_of_length_le (by omega)] at h
    simp [subtreeItems] at h

theorem subtreeItems_drop_add (l : List (ItemData × Option MenuModel)) (i k : Nat)
    (x : MenuModel) (h : x ∈ subtreeItems (l.drop (i + k))) : x ∈ subtreeItems (l.drop i) := by
  induction k with
  | zero => simpa using h
  | succ k ih => exact ih (subtreeItems_drop_succ l (i + k) x h)

theorem subtreeItems_sub (l : List (ItemData × Option MenuModel)) (i : Nat) (d : ItemData)
    (s x : MenuModel) (h : l[i]? = some (d, some s)) (hx : x ∈ s.subtree) :
    x ∈ subtreeItems (l.drop i) := by
  rw [drop_of_getElem? l i _ h]
  simp [subtreeItems, hx]

theorem countIn_cons (c : Int) (d : ItemData) (sub : Option MenuModel)
    (rest : List (ItemData × Option MenuModel)) :
    countIn c ((d, sub) :: rest) =
      (if d.command_id = c then 1 else 0) + countInSub c sub + countIn c rest := by
  cases sub with
  | none =>
    by_cases hc : d.command_id = c <;>
      simp [countIn, countInSub, subtreeItems, List.filter, hc] <;> omega
  | some s =>
    have hs : (s.subtree.map (MenuModel.countCommand c)).sum = countIn c s.items := by
      rw [MenuModel.subtree_eq]; simp [countIn, MenuModel.countCommand]
    by_cases hc : d.command_id = c <;>
      simp [countIn, countInSub, subtreeItems, List.filter, hc, hs] <;> omega

theorem countIn_drop_succ_le (c : Int) (l : List (ItemData × Option MenuModel)) (i : Nat) :
    countIn c (l.drop (i + 1)) ≤ countIn c (l.drop i) := by
  by_cases h : i < l.length
  · rw [List.drop_eq_getElem_cons h]
    obtain ⟨d, sub⟩ := l[i]
    rw [countIn_cons]; omega
  · rw [List.drop_of_length_le (by omega), List.drop_of_length_le (by omega)]

theorem countIn_drop_add_le (c : Int) (l : List (ItemData × Option MenuModel)) (i k : Nat) :
    countIn c (l.drop (i + k)) ≤ countIn c (l.drop i) := by
  induction k with
  | zero => simp
  | succ k ih => exact le_trans (countIn_drop_succ_le c l (i + k)) ih

theorem countIn_root (c : Int) (m : MenuModel) :
    countIn c m.items = (m.subtree.map (MenuModel.countCommand c)).sum := by
  rw [MenuModel.subtree_eq]; simp [countIn, MenuModel.countCommand]

theorem MenuModel.GetCommandIdAt_nat (m : MenuModel) (j : Nat) (d : ItemData)
    (sub : Option MenuModel) (h : m.items[j]? = some (d, sub)) :
    m.GetCommandIdAt ((j : Int) + m.GetFirstItemIndex) = some d.command_id := by
  simp [MenuModel.GetCommandIdAt, MenuModel.itemAt_nat, h]

theorem MenuModel.GetTypeAt_nat (m : MenuModel) (j : Nat) (d : ItemData)
    (sub : Option MenuModel) (h : m.items[j]? = some (d, sub)) :
    m.GetTypeAt ((j : Int) + m.GetFirstItemIndex) = some d.type := by
  simp [MenuModel.GetTypeAt, MenuModel.itemAt_nat, h]

theorem MenuModel.GetSubmenuModelAt_nat (m : MenuModel) (j : Nat) (d : ItemData)
    (sub : Option MenuModel) (h : m.items[j]? = some (d, sub)) :
    m.GetSubmenuModelAt ((j : Int) + m.GetFirstItemIndex) = some sub := by
  simp [MenuModel.GetSubmenuModelAt, MenuModel.itemAt_nat, h]

theorem MenuModel.itemAt_of_command (m : MenuModel) (index c : Int)
    (h : m.GetCommandIdAt index = some c) : (m.itemAt index).isSome = true := by
  unfold MenuModel.GetCommandIdAt at h
  cases hx : m.itemAt index with
  | none => simp [hx] at h
  | some x => rfl

namespace WrenchMenu

theorem dcheck_ok (b cond : Bool) (h : cond = true) : dcheck b cond = .ok () := by
  simp [dcheck, h]

theorem dcheckTypeAt_ok (b : Bool) (t : ItemType) (m : MenuModel) (index : Int)
    (h : m.GetTypeAt index = some t) : dcheckTypeAt b t m index = .ok () := by
  cases b <;> simp [dcheckTypeAt, h, query, bind, Except.bind, pure, Except.pure]

theorem dcheckCommandIdAt_ok (b : Bool) (c : Int) (m : MenuModel) (index : Int)
    (h : m.GetCommandIdAt index = some c) : dcheckCommandIdAt b c m index = .ok () := by
  cases b <;> simp [dcheckCommandIdAt, h, query, bind, Except.bind, pure, Except.pure]

theorem SetTitle_bookmark (w : WrenchMenu) (item : Int) (t : StringId) :
    (w.SetTitle item t).bookmark_menu_ = w.bookmark_menu_ ∧
      (w.SetTitle item t).feedback_menu_item_ = w.feedback_menu_item_ := ⟨rfl, rfl⟩

theorem AddChildView_bookmark (w : WrenchMenu) (item : Int) (v : ChildView) :
    (w.AddChildView item v).bookmark_menu_ = w.bookmark_menu_ ∧
      (w.AddChildView item v).feedback_menu_item_ = w.feedback_menu_item_ := ⟨rfl, rfl⟩

theorem populateSwitch_total (cfg : Config) (K : CommandIds) (fuel : Nat) (w : WrenchMenu)
    (m : MenuModel) (i : Nat) (item : Int) (d : ItemData) (sub : Option MenuModel)
    (hx : m.items[i]? = some (d, sub)) (hok : m.LocalOk K)
    (hz : d.command_id = K.IDC_ZOOM_MINUS → cfg.ZoomRangeOk) (hf : 21 ≤ fuel)
    (hb : (if d.command_id = K.IDC_BOOKMARKS_MENU then 1 else 0) ≤ budget w.bookmark_menu_)
    (hfb : (if d.command_id = K.IDC_FEEDBACK then 1 else 0) ≤ budget w.feedback_menu_item_) :
    ∃ r, populateSwitch cfg K fuel w m i m.GetItemCount (i + m.GetFirstItemIndex) item = .ok r ∧
      (r.1 = i ∨ r.1 = i + 2) ∧
      budget w.bookmark_menu_ ≤ budget r.2.bookmark_menu_ +
        (if d.command_id = K.IDC_BOOKMARKS_MENU then 1 else 0) ∧
      budget w.feedback_menu_item_ ≤ budget r.2.feedback_menu_item_ +
        (if d.command_id = K.IDC_FEEDBACK then 1 else 0) := by
  have hi : i < m.GetItemCount := (List.getElem?_eq_some.1 hx).1
  have hc := MenuModel.GetCommandIdAt_nat m i d sub hx
  obtain ⟨hcut, hzoom, _⟩ := hok i hi
  unfold populateSwitch
  simp only [hc, query, bind, Except.bind]
  by_cases h1 : d.command_id = K.IDC_CUT
  · obtain ⟨ht, hlt, hcopy, hpaste⟩ := hcut (by rw [hc, h1])
    obtain ⟨view, hview⟩ := CutCopyPasteView_create_total cfg m _ _ _
      (MenuModel.itemAt_of_command m _ _ hc) (MenuModel.itemAt_of_command m _ _ hcopy)
      (MenuModel.itemAt_of_command m _ _ hpaste)
    simp only [if_pos h1, dcheckTypeAt_ok _ _ _ _ ht, dcheck_ok _ _ (decide_eq_true hlt),
      dcheckCommandIdAt_ok _ _ _ _ hcopy, dcheckCommandIdAt_ok _ _ _ _ hpaste, hview,
      pure, Except.pure]
    refine ⟨_, rfl, Or.inr rfl, ?_, ?_⟩
    · simp only [(AddChildView_bookmark _ _ _).1, (SetTitle_bookmark _ _ _).1]; omega
    · simp only [(AddChildView_bookmark _ _ _).2, (SetTitle_bookmark _ _ _).2]; omega
  · by_cases h2 : d.command_id = K.IDC_ZOOM_MINUS
    · obtain ⟨ht, hlt, hplus, hfull⟩ := hzoom (by rw [hc, h2])
      obtain ⟨view, hview⟩ := ZoomView_create_total cfg fuel m _ _ _ (hz h2) hf
        (MenuModel.itemAt_of_command m _ _ hc) (MenuModel.itemAt_of_command m _ _ hplus)
        (MenuModel.itemAt_of_command m _ _ hfull)
      simp only [if_neg h1, if_pos h2, dcheckTypeAt_ok _ _ _ _ ht,
        dcheckCommandIdAt_ok _ _ _ _ hplus, dcheckCommandIdAt_ok _ _ _ _ hfull, hview,
        pure, Except.pure]
      refine ⟨_, rfl, Or.inr rfl, ?_, ?_⟩
      · simp only [(AddChildView_bookmark _ _ _).1, (SetTitle_bookmark _ _ _).1]; omega
      · simp only [(AddChildView_bookmark _ _ _).2, (SetTitle_bookmark _ _ _).2]; omega
    · by_cases h3 : d.command_id = K.IDC_BOOKMARKS_MENU
      · have hnone : w.bookmark_menu_.isNone = true := by
          rw [if_pos h3] at hb
          cases hbm : w.bookmark_menu_ with
          | none => rfl
          | some x => rw [hbm] at hb; simp [budget] at hb
        simp only [if_neg h1, if_neg h2, if_pos h3, dcheck_ok _ _ hnone, pure, Except.pure]
        refine ⟨_, rfl, Or.inl rfl, ?_, ?_⟩
        · simp only [budget]; split <;> omega
        · simp only [budget]; omega
      · by_cases h4 : d.command_id = K.IDC_FEEDBACK
        · have hnone : w.feedback_menu_item_.isNone = true := by
            rw [if_pos h4] at hfb
            cases hbm : w.feedback_menu_item_ with
            | none => rfl
            | some x => rw [hbm] at hfb; simp [budget] at hfb
          simp only [if_neg h1, if_neg h2, if_neg h3, if_pos h4, dcheck_ok _ _ hnone, pure,
            Except.pure]
          refine ⟨_, rfl, Or.inl rfl, ?_, ?_⟩
          · simp only [budget]; omega
          · simp only [budget]; split <;> omega
        · simp only [if_neg h1, if_neg h2, if_neg h3, if_neg h4, pure, Except.pure]
          exact ⟨_, rfl, Or.inl rfl, Nat.le_add_right _ _, Nat.le_add_right _ _⟩

end WrenchMenu

namespace WrenchMenu

theorem PopulateMenuFrom_succ_intro (cfg : Config) (K : CommandIds) (fuel : Nat)
    (w : WrenchMenu) (parent : Int) (m : MenuModel) (i : Nat) (n : Int)
    (d : ItemData) (sub : Option MenuModel) (wa w1 w2 : WrenchMenu) (n1 : Int) (i2 : Nat)
    (r : Int × WrenchMenu)
    (hx : m.items[i]? = some (d, sub))
    (ha : AppendMenuItem cfg w parent m (i + m.GetFirstItemIndex) d.type n
      (if cfg.is_touch && (decide (d.command_id = K.IDC_CUT) ||
          decide (d.command_id = K.IDC_ZOOM_MINUS)) then kTouchItemHeight else 0)
      = .ok (n, n + 1, wa))
    (hsub : (if d.type = .TYPE_SUBMENU then
        (match sub with
          | none => .error .UNDEFINED
          | some s => PopulateMenuFrom cfg K fuel wa n s 0 (n + 1))
        else pure (n + 1, wa)) = Except.ok (n1, w1))
    (hsw : populateSwitch cfg K fuel w1 m i m.GetItemCount (i + m.GetFirstItemIndex) n
      = .ok (i2, w2))
    (hrest : PopulateMenuFrom cfg K fuel w2 parent m (i2 + 1) n1 = .ok r) :
    PopulateMenuFrom cfg K (fuel + 1) w parent m i n = .ok r := by
  have hi : i < m.GetItemCount := (List.getElem?_eq_some.1 hx).1
  have hc := MenuModel.GetCommandIdAt_nat m i d sub hx
  have ht := MenuModel.GetTypeAt_nat m i d sub hx
  have hs := MenuModel.GetSubmenuModelAt_nat m i d sub hx
  unfold PopulateMenuFrom
  simp only [if_pos hi, hc, ht, query, bind, Except.bind, ha]
  by_cases hty : d.type = .TYPE_SUBMENU
  · rw [if_pos hty] at hsub
    simp only [if_pos hty, hs]
    cases sub with
    | none => simp at hsub
    | some s =>
      simp only at hsub
      simp only [hsub, hsw, hrest]
  · rw [if_neg hty] at hsub
    simp only [pure, Except.pure, Except.ok.injEq, Prod.mk.injEq] at hsub
    obtain ⟨rfl, rfl⟩ := hsub
    simp only [if_neg hty, pure, Except.pure, hsw, hrest]

theorem AppendMenuItem_wa (cfg : Config) (w : WrenchMenu) (parent : Int) (model : MenuModel)
    (index : Int) (t : ItemType) (n height : Int)
    (x : ItemData × Option MenuModel) (hx : model.itemAt index = some x) :
    ∃ wa, AppendMenuItem cfg w parent model index t n height = .ok (n, n + 1, wa) ∧
      wa.bookmark_menu_ = w.bookmark_menu_ ∧ wa.feedback_menu_item_ = w.feedback_menu_item_ := by
  obtain ⟨r, hr⟩ := AppendMenuItem_total cfg w parent model index t n height x hx
  obtain ⟨v, _, _, _, _, _, _, hveq⟩ := AppendMenuItem_ok _ _ _ _ _ _ _ _ _ hr
  subst hveq
  exact ⟨_, hr, rfl, rfl⟩

end WrenchMenu

namespace WrenchMenu

theorem countCommand_zero_ne (c : Int) (m : MenuModel) (i : Nat) (d : ItemData)
    (sub : Option MenuModel) (hx : m.items[i]? = some (d, sub)) (h0 : m.countCommand c = 0) :
    d.command_id ≠ c := by
  unfold MenuModel.countCommand at h0
  have hnil := List.length_eq_zero.1 h0
  rw [List.filter_eq_nil_iff] at hnil
  have hmem : (d, sub) ∈ m.items := by
    obtain ⟨hl, he⟩ := List.getElem?_eq_some.1 hx
    rw [← he]
    exact List.getElem_mem hl
  have := hnil (d, sub) hmem
  simpa using this

theorem PopulateMenuFrom_total (cfg : Config) (K : CommandIds) :
    ∀ (fuel : Nat) (w : WrenchMenu) (parent : Int) (m : MenuModel) (i : Nat) (n : Int),
      (cfg.ZoomRangeOk ∨ (m.countCommand K.IDC_ZOOM_MINUS = 0 ∧
        ∀ x ∈ subtreeItems (m.items.drop i), x.countCommand K.IDC_ZOOM_MINUS = 0)) →
      sizeItems (m.items.drop i) + 22 ≤ fuel →
      m.LocalOk K → (∀ x ∈ subtreeItems (m.items.drop i), x.LocalOk K) →
      countIn K.IDC_BOOKMARKS_MENU (m.items.drop i) ≤ budget w.bookmark_menu_ →
      countIn K.IDC_FEEDBACK (m.items.drop i) ≤ budget w.feedback_menu_item_ →
      ∃ r, PopulateMenuFrom cfg K fuel w parent m i n = .ok r ∧
        budget w.bookmark_menu_ ≤
          budget r.2.bookmark_menu_ + countIn K.IDC_BOOKMARKS_MENU (m.items.drop i) ∧
        budget w.feedback_menu_item_ ≤
          budget r.2.feedback_menu_item_ + countIn K.IDC_FEEDBACK (m.items.drop i) := by
  intro fuel
  induction fuel with
  | zero => intro w parent m i n _ h; omega
  | succ fuel ih =>
    intro w parent m i n hz hfuel hok hsubs hb hf
    by_cases hi : i < m.GetItemCount
    · obtain ⟨x, hx⟩ : ∃ x, m.items[i]? = some x := ⟨_, List.getElem?_eq_getElem hi⟩
      obtain ⟨d, sub⟩ := x
      have hdrop := drop_of_getElem? m.items i _ hx
      have hitem : m.itemAt ((i : Int) + m.GetFirstItemIndex) = some (d, sub) := by
        rw [MenuModel.itemAt_nat, hx]
      obtain ⟨wa, ha, hab, haf⟩ := AppendMenuItem_wa cfg w parent m _ d.type n
        (if cfg.is_touch && (decide (d.command_id = K.IDC_CUT) ||
          decide (d.command_id = K.IDC_ZOOM_MINUS)) then kTouchItemHeight else 0) _ hitem
      have hcb := countIn_cons K.IDC_BOOKMARKS_MENU d sub (m.items.drop (i + 1))
      have hcf := countIn_cons K.IDC_FEEDBACK d sub (m.items.drop (i + 1))
      rw [← hdrop] at hcb hcf
      -- the recursive call on the submenu model
      have hsubrun : ∃ n1 w1, (if d.type = .TYPE_SUBMENU then
            (match sub with
              | none => .error .UNDEFINED
              | some s => PopulateMenuFrom cfg K fuel wa n s 0 (n + 1))
            else pure (n + 1, wa)) = Except.ok (n1, w1) ∧
          (if d.command_id = K.IDC_BOOKMARKS_MENU then 1 else 0) +
            countIn K.IDC_BOOKMARKS_MENU (m.items.drop (i + 1)) ≤ budget w1.bookmark_menu_ ∧
          (if d.command_id = K.IDC_FEEDBACK then 1 else 0) +
            countIn K.IDC_FEEDBACK (m.items.drop (i + 1)) ≤ budget w1.feedback_menu_item_ ∧
          budget w.bookmark_menu_ ≤ budget w1.bookmark_menu_ +
            countInSub K.IDC_BOOKMARKS_MENU sub ∧
          budget w.feedback_menu_item_ ≤ budget w1.feedback_menu_item_ +
            countInSub K.IDC_FEEDBACK sub := by
        by_cases hty : d.type = .TYPE_SUBMENU
        · have h3 := (hok i hi).2.2 (by rw [MenuModel.GetTypeAt_nat m i d sub hx, hty])
          rw [MenuModel.GetSubmenuModelAt_nat m i d sub hx] at h3
          cases sub with
          | none => simp at h3
          | some s =>
            have hsz : sizeItems (m.items.drop i) =
                1 + s.size + sizeItems (m.items.drop (i + 1)) := by
              rw [hdrop]; simp [sizeItems]
            have hss := MenuModel.size_eq s
            have hmem : ∀ x ∈ s.subtree, x.LocalOk K := fun x hx' =>
              hsubs x (subtreeItems_sub m.items i d s x hx hx')
            rw [MenuModel.subtree_eq] at hmem
            simp only [countInSub] at hcb hcf
            have hzs : cfg.ZoomRangeOk ∨ (s.countCommand K.IDC_ZOOM_MINUS = 0 ∧
                ∀ x ∈ subtreeItems (s.items.drop 0), x.countCommand K.IDC_ZOOM_MINUS = 0) := by
              rcases hz with hz | ⟨_, hz⟩
              · exact Or.inl hz
              · have hz' : ∀ x ∈ s.subtree, x.countCommand K.IDC_ZOOM_MINUS = 0 := fun x hx' =>
                  hz x (subtreeItems_sub m.items i d s x hx hx')
                rw [MenuModel.subtree_eq] at hz'
                exact Or.inr ⟨hz' s (List.mem_cons_self _ _),
                  fun x hx' => hz' x (List.mem_cons_of_mem _ (by simpa using hx'))⟩
            obtain ⟨r, hr, hrb, hrf⟩ := ih wa n s 0 (n + 1) hzs
              (by simp only [List.drop_zero]; omega)
              (hmem s (List.mem_cons_self _ _))
              (fun x hx' => hmem x (List.mem_cons_of_mem _ (by simpa using hx')))
              (by rw [hab]; simp only [List.drop_zero]; omega)
              (by rw [haf]; simp only [List.drop_zero]; omega)
            simp only [List.drop_zero] at hrb hrf
            rw [hab] at hrb
            rw [haf] at hrf
            refine ⟨r.1, r.2, ?_, ?_, ?_, ?_, ?_⟩
            · simp only [if_pos hty, hr]
            · omega
            · omega
            · simp only [countInSub]; omega
            · simp only [countInSub]; omega
        · refine ⟨n + 1, wa, by simp only [if_neg hty]; rfl, ?_, ?_, ?_, ?_⟩
          · rw [hab]; omega
          · rw [haf]; omega
          · rw [hab]; omega
          · rw [haf]; omega
      obtain ⟨n1, w1, hsr, hb1, hf1, hb1', hf1'⟩ := hsubrun
      have hzd : d.command_id = K.IDC_ZOOM_MINUS → cfg.ZoomRangeOk := by
        intro hdz
        rcases hz with hz | ⟨hz0, _⟩
        · exact hz
        · exact absurd hdz (countCommand_zero_ne _ m i d sub hx hz0)
      obtain ⟨rs, hsw, hrs, hb2, hf2⟩ := populateSwitch_total cfg K fuel w1 m i n d sub hx hok hzd
        (by omega) (by omega) (by omega)
      obtain ⟨i2, w2⟩ := rs
      simp only at hrs hb2 hf2
      have hi2 : i2 + 1 = (i + 1) + (i2 - i) := by omega
      have hsz2 : sizeItems (m.items.drop (i2 + 1)) ≤ sizeItems (m.items.drop (i + 1)) := by
        rw [hi2]; exact sizeItems_drop_add_le _ _ _
      have hsz1 : sizeItems (m.items.drop (i + 1)) + 1 ≤ sizeItems (m.items.drop i) := by
        rw [hdrop]; cases sub <;> simp [sizeItems] <;> omega
      have hcb2 : countIn K.IDC_BOOKMARKS_MENU (m.items.drop (i2 + 1)) ≤
          countIn K.IDC_BOOKMARKS_MENU (m.items.drop (i + 1)) := by
        rw [hi2]; exact countIn_drop_add_le _ _ _ _
      have hcf2 : countIn K.IDC_FEEDBACK (m.items.drop (i2 + 1)) ≤
          countIn K.IDC_FEEDBACK (m.items.drop (i + 1)) := by
        rw [hi2]; exact countIn_drop_add_le _ _ _ _
      have hzr : cfg.ZoomRangeOk ∨ (m.countCommand K.IDC_ZOOM_MINUS = 0 ∧
          ∀ x ∈ subtreeItems (m.items.drop (i2 + 1)), x.countCommand K.IDC_ZOOM_MINUS = 0) := by
        rcases hz with hz | ⟨hz0, hz⟩
        · exact Or.inl hz
        · refine Or.inr ⟨hz0, fun x hx' => hz x ?_⟩
          rw [hi2] at hx'
          exact subtreeItems_drop_succ _ _ _ (subtreeItems_drop_add _ _ _ _ hx')
      obtain ⟨r, hr, hrb, hrf⟩ := ih w2 parent m (i2 + 1) n1 hzr (by omega) hok
        (fun x hx' => hsubs x (by
          rw [hi2] at hx'
          exact subtreeItems_drop_succ _ _ _ (subtreeItems_drop_add _ _ _ _ hx')))
        (by omega) (by omega)
      refine ⟨r, PopulateMenuFrom_succ_intro cfg K fuel w parent m i n d sub wa w1 w2 n1 i2 r hx ha
        hsr hsw hr, ?_, ?_⟩
      · omega
      · omega
    · refine ⟨(n, w), ?_, Nat.le_add_right _ _, Nat.le_add_right _ _⟩
      unfold PopulateMenuFrom
      simp only [if_neg hi]

end WrenchMenu

namespace WrenchMenu

theorem WalkEffect.new_bounds {n n' : Int} {w w' : WrenchMenu} (h : WalkEffect n w n' w') :
    ∃ new : List MenuItemView, w'.menu_items = w.menu_items ++ new ∧
      (∀ v ∈ new, n ≤ v.command ∧ v.command < n') ∧
      (∀ v ∈ new, IDToEntry.find w'.id_to_entry_ v.command = some (v.model, v.index)) ∧
      (new.map fun v => v.command).Nodup ∧
      ∀ id, n ≤ id → id < n' → ∃ v ∈ new, v.command = id := by
  obtain ⟨new, hi, hn, hc, ht⟩ := h.items
  refine ⟨new, hi, ?_, ht, consecutiveFrom_nodup _ _ hc, ?_⟩
  · intro v hv
    have hmem : v.command ∈ new.map (fun v => v.command) := List.mem_map.2 ⟨v, hv, rfl⟩
    have hr := (consecutiveFrom_mem _ _ hc _).1 hmem
    simp only [List.length_map] at hr
    omega
  · intro id h1 h2
    have : id ∈ new.map (fun v => v.command) := by
      rw [consecutiveFrom_mem _ _ hc]
      simp only [List.length_map]
      omega
    obtain ⟨v, hv, hvc⟩ := List.mem_map.1 this
    exact ⟨v, hv, hvc⟩

theorem map_update_decomp (old new : List MenuItemView) (v0 : MenuItemView) (item : Int)
    (f : MenuItemView → MenuItemView) (hold : ∀ v ∈ old, v.command ≠ item)
    (hnew : ∀ v ∈ new, v.command ≠ item) (hv0 : v0.command = item) :
    (old ++ [v0] ++ new).map (fun v => if v.command = item then f v else v)
      = old ++ [f v0] ++ new := by
  have h1 : old.map (fun v => if v.command = item then f v else v) = old := by
    conv_rhs => rw [← List.map_id old]
    apply List.map_congr_left
    intro v hv
    simp [hold v hv]
  have h2 : new.map (fun v => if v.command = item then f v else v) = new := by
    conv_rhs => rw [← List.map_id new]
    apply List.map_congr_left
    intro v hv
    simp [hnew v hv]
  simp only [List.map_append, h1, h2, List.map_cons, List.map_nil, hv0, if_true]

/-- What one iteration of the loop of `PopulateMenu` does to the view list. -/
theorem PopulateMenuFrom_step (cfg : Config) (K : CommandIds) (fuel : Nat)
    (w : WrenchMenu) (parent : Int) (m : MenuModel) (i : Nat) (n : Int)
    (r : Int × WrenchMenu) (hf : w.Fresh n) (hi : i < m.GetItemCount)
    (h : PopulateMenuFrom cfg K (fuel + 1) w parent m i n = .ok r) :
    ∃ (d : ItemData) (sub : Option MenuModel) (v0 v0' : MenuItemView) (wa w1 w2 : WrenchMenu)
      (n1 : Int) (i2 : Nat) (new_sub new_rest : List MenuItemView),
      m.items[i]? = some (d, sub) ∧
      (v0.command = n ∧ v0.model = m ∧ v0.index = i + m.GetFirstItemIndex ∧
        v0.child_views = []) ∧
      (v0'.command = n ∧ v0'.model = m ∧ v0'.index = i + m.GetFirstItemIndex) ∧
      ((d.command_id = K.IDC_CUT ∧ i2 = i + 2 ∧
          ∃ view, CutCopyPasteView.create cfg m (i + m.GetFirstItemIndex)
              (i + m.GetFirstItemIndex + 1) (i + m.GetFirstItemIndex + 2) = .ok view ∧
            v0'.child_views = [.cut_copy_paste view]) ∨
       (d.command_id ≠ K.IDC_CUT ∧ d.command_id = K.IDC_ZOOM_MINUS ∧ i2 = i + 2 ∧
          ∃ view, ZoomView.create cfg fuel m (i + m.GetFirstItemIndex)
              (i + m.GetFirstItemIndex + 1) (i + m.GetFirstItemIndex + 2) = .ok view ∧
            v0'.child_views = [.zoom view]) ∨
       (d.command_id ≠ K.IDC_CUT ∧ d.command_id ≠ K.IDC_ZOOM_MINUS ∧ i2 = i ∧
          v0'.child_views = [])) ∧
      wa.Fresh (n + 1) ∧ wa.menu_items = w.menu_items ++ [v0] ∧
      ((d.type = .TYPE_SUBMENU ∧ ∃ s, sub = some s ∧
          PopulateMenuFrom cfg K fuel wa n s 0 (n + 1) = .ok (n1, w1)) ∨
       (d.type ≠ .TYPE_SUBMENU ∧ n1 = n + 1 ∧ w1 = wa)) ∧
      w1.menu_items = wa.menu_items ++ new_sub ∧
      (∀ v ∈ new_sub, n + 1 ≤ v.command ∧ v.command < n1) ∧ n + 1 ≤ n1 ∧
      w2.Fresh n1 ∧ w2.menu_items = w.menu_items ++ [v0'] ++ new_sub ∧
      PopulateMenuFrom cfg K fuel w2 parent m (i2 + 1) n1 = .ok r ∧
      r.2.menu_items = w2.menu_items ++ new_rest ∧
      (∀ v ∈ new_rest, n1 ≤ v.command ∧ v.command < r.1) ∧ n1 ≤ r.1 := by
  rcases PopulateMenuFrom_succ_ok _ _ _ _ _ _ _ _ _ h with ⟨hge, _⟩ |
    ⟨_, d, sub, height, wa, n1, w1, i2, w2, hx, ha, hsub, hsw, hrest⟩
  · omega
  · have hc := MenuModel.GetCommandIdAt_nat m i d sub hx
    have e1 : WalkEffect n w (n + 1) wa := WalkEffect.append _ _ _ _ _ _ _ _ _ ha
    have f1 : wa.Fresh (n + 1) := e1.keeps_fresh hf
    obtain ⟨v0, hv1, _, hv3, hv4, hv5, _, hveq⟩ := AppendMenuItem_ok _ _ _ _ _ _ _ _ _ ha
    have hwa : wa.menu_items = w.menu_items ++ [v0] := by
      have := congrArg (fun p => p.2.2.menu_items) hveq
      exact this
    have e2 : WalkEffect (n + 1) wa n1 w1 := by
      rcases hsub with ⟨_, s, _, hrun⟩ | ⟨_, hn1, hw1⟩
      · exact PopulateMenuFrom_effect cfg K _ _ _ _ _ _ _ f1 hrun
      · rw [hn1, hw1]; exact WalkEffect.walk_refl _ _
    have f2 : w1.Fresh n1 := e2.keeps_fresh f1
    obtain ⟨new_sub, hns, hnsb, _, _, _⟩ := e2.new_bounds
    have hw1 : w1.menu_items = w.menu_items ++ [v0] ++ new_sub := by rw [hns, hwa]
    have hold : ∀ v ∈ w.menu_items, v.command ≠ n := fun v hv => by
      have := hf.1 v hv; omega
    have hnew : ∀ v ∈ new_sub, v.command ≠ n := fun v hv => by
      have := (hnsb v hv).1; omega
    have e3 : WalkEffect n w n1 w2 :=
      WalkEffect.switch cfg K fuel (e1.walk_trans e2) hf m i _ _ n (le_refl n) _ hsw
    have f3 : w2.Fresh n1 := e3.keeps_fresh hf
    have e4 : WalkEffect n1 w2 r.1 r.2 := PopulateMenuFrom_effect cfg K _ _ _ _ _ _ _ f3 hrest
    obtain ⟨new_rest, hnr, hnrb, _, _, _⟩ := e4.new_bounds
    obtain ⟨c, hc', hcase⟩ := populateSwitch_ok _ _ _ _ _ _ _ _ _ _ hsw
    rw [hc] at hc'
    have hcd : c = d.command_id := by simpa using hc'.symm
    subst hcd
    simp only at hcase
    rcases hcase with ⟨h1, hi2, view, hview, hr⟩ | ⟨h1, h2, hi2, view, hview, hr⟩ |
      ⟨h1, h2, hi2, hr⟩
    · refine ⟨d, sub, v0, { v0 with title := some StringId.IDS_EDIT2, child_views := v0.child_views ++ [ChildView.cut_copy_paste view] }, wa, w1, w2, n1, i2,
        new_sub, new_rest, hx, ⟨hv1, hv3, hv4, hv5⟩, ⟨hv1, hv3, hv4⟩,
        Or.inl ⟨h1, hi2, view, hview, by simp [hv5]⟩, f1, hwa, hsub, hns, hnsb, e2.le, f3, ?_,
        hrest, hnr, hnrb, e4.le⟩
      rw [hr]
      simp only [AddChildView, SetTitle, updateItem, hw1]
      rw [map_update_decomp _ _ _ _ _ hold hnew hv1,
        map_update_decomp _ _ { v0 with title := some StringId.IDS_EDIT2 } _ _ hold hnew hv1]
    · refine ⟨d, sub, v0, { v0 with title := some StringId.IDS_ZOOM_MENU2, child_views := v0.child_views ++ [ChildView.zoom view] }, wa, w1, w2, n1, i2,
        new_sub, new_rest, hx, ⟨hv1, hv3, hv4, hv5⟩, ⟨hv1, hv3, hv4⟩,
        Or.inr (Or.inl ⟨h1, h2, hi2, view, hview, by simp [hv5]⟩), f1, hwa, hsub, hns, hnsb,
        e2.le, f3, ?_, hrest, hnr, hnrb, e4.le⟩
      rw [hr]
      simp only [AddChildView, SetTitle, updateItem, hw1]
      rw [map_update_decomp _ _ _ _ _ hold hnew hv1,
        map_update_decomp _ _ { v0 with title := some StringId.IDS_ZOOM_MENU2 } _ _ hold hnew hv1]
    · refine ⟨d, sub, v0, v0, wa, w1, w2, n1, i2, new_sub, new_rest, hx,
        ⟨hv1, hv3, hv4, hv5⟩, ⟨hv1, hv3, hv4⟩, Or.inr (Or.inr ⟨h1, h2, hi2, hv5⟩), f1, hwa, hsub,
        hns, hnsb, e2.le, f3, ?_, hrest, hnr, hnrb, e4.le⟩
      rcases hr with hr | hr | hr <;> rw [hr] <;> exact hw1

end WrenchMenu

theorem InRegion.mono (m : MenuModel) (i k : Nat) (v : MenuItemView)
    (h : InRegion m (i + k) v) : InRegion m i v := by
  rcases h with ⟨hm, j, hj, hjc, hidx⟩ | h
  · exact Or.inl ⟨hm, j, by omega, hjc, hidx⟩
  · exact Or.inr (subtreeItems_drop_add _ _ _ _ h)

theorem InRegion.of_sub (m : MenuModel) (i : Nat) (d : ItemData) (s : MenuModel)
    (v : MenuItemView) (hx : m.items[i]? = some (d, some s)) (h : InRegion s 0 v) :
    v.model ∈ s.subtree ∧ InRegion m i v := by
  have hmem : v.model ∈ s.subtree := by
    rw [MenuModel.subtree_eq]
    rcases h with ⟨hm, _⟩ | h
    · rw [hm]; exact List.mem_cons_self _ _
    · exact List.mem_cons_of_mem _ (by simpa using h)
  exact ⟨hmem, Or.inr (subtreeItems_sub _ _ _ _ _ hx hmem)⟩

namespace WrenchMenu

theorem PopulateMenuFrom_items (cfg : Config) (K : CommandIds) :
    ∀ (fuel : Nat) (w : WrenchMenu) (parent : Int) (m : MenuModel) (i : Nat) (n : Int)
      (r : Int × WrenchMenu), w.Fresh n →
      PopulateMenuFrom cfg K fuel w parent m i n = .ok r →
      ∀ v ∈ r.2.menu_items, v ∈ w.menu_items ∨ (n ≤ v.command ∧ ItemOk K v ∧ InRegion m i v) := by
  intro fuel
  induction fuel with
  | zero => intro w parent m i n r _ h; simp [PopulateMenuFrom] at h
  | succ fuel ih =>
    intro w parent m i n r hf h v hv
    by_cases hi : i < m.GetItemCount
    · obtain ⟨d, sub, v0, v0', wa, w1, w2, n1, i2, new_sub, new_rest, hx, ⟨hv1, hv3, hv4, hv5⟩,
        ⟨hv1', hv3', hv4'⟩, hcase, f1, hwa, hsub, hw1, hnsb, hn1, f3, hw2, hrest, hr, hnrb, hn'⟩ :=
        PopulateMenuFrom_step cfg K fuel w parent m i n r hf hi h
      have hc := MenuModel.GetCommandIdAt_nat m i d sub hx
      have hi2 : i2 + 1 = i + (i2 + 1 - i) := by
        rcases hcase with ⟨_, h2, _⟩ | ⟨_, _, h2, _⟩ | ⟨_, _, h2, _⟩ <;> omega
      rcases ih w2 parent m (i2 + 1) n1 r f3 hrest v hv with hv2 | ⟨hge, hok, hreg⟩
      · rw [hw2] at hv2
        rcases List.mem_append.1 hv2 with hv2 | hv2
        · rcases List.mem_append.1 hv2 with hv2 | hv2
          · exact Or.inl hv2
          · right
            simp only [List.mem_singleton] at hv2
            subst hv2
            refine ⟨by omega, ⟨?_, ?_, ?_, ?_⟩, Or.inl ⟨hv3', i, le_refl _, hi, hv4'⟩⟩
            · rw [hv3', hv4', MenuModel.itemAt_nat, hx]; rfl
            · intro hcut
              rw [hv3', hv4', hc] at hcut
              rcases hcase with ⟨_, _, view, hview, hcv⟩ | ⟨hne, _⟩ | ⟨hne, _⟩
              · obtain ⟨hm, ht⟩ := CutCopyPasteView_create_ok _ _ _ _ _ _ hview
                exact ⟨view, hcv, by rw [hm, hv3'], by rw [ht, hv4']⟩
              · exact absurd (Option.some.inj hcut) hne
              · exact absurd (Option.some.inj hcut) hne
            · intro hncut hzoom
              rw [hv3', hv4', hc] at hzoom
              rcases hcase with ⟨heq, _⟩ | ⟨_, _, _, view, hview, hcv⟩ | ⟨_, hne, _⟩
              · exact absurd (by rw [hv3', hv4', hc, heq]) hncut
              · obtain ⟨hm, hfi, ht⟩ := ZoomView_create_ok _ _ _ _ _ _ _ hview
                exact ⟨view, hcv, by rw [hm, hv3'], by rw [hfi, hv4'], by rw [ht, hv4']⟩
              · exact absurd (Option.some.inj hzoom) hne
            · intro hncut hnzoom
              rcases hcase with ⟨heq, _⟩ | ⟨_, heq, _⟩ | ⟨_, _, _, hcv⟩
              · exact absurd (by rw [hv3', hv4', hc, heq]) hncut
              · exact absurd (by rw [hv3', hv4', hc, heq]) hnzoom
              · exact hcv
        · -- a view made by the recursive call
          rcases hsub with ⟨_, s, hs, hrun⟩ | ⟨_, _, hw1eq⟩
          · subst hs
            have hvw1 : v ∈ w1.menu_items := by rw [hw1]; exact List.mem_append_right _ hv2
            rcases ih wa n s 0 (n + 1) (n1, w1) f1 hrun v hvw1 with hva | ⟨hge, hok, hreg⟩
            · have := f1.1 v hva
              have := (hnsb v hv2).1
              omega
            · exact Or.inr ⟨by omega, hok, (InRegion.of_sub m i d s v hx hreg).2⟩
          · rw [hw1eq] at hw1
            have : new_sub = [] := by
              have := congrArg List.length hw1
              simp only [List.length_append] at this
              exact List.length_eq_zero.1 (by omega)
            rw [this] at hv2
            simp at hv2
      · right
        rw [hi2] at hreg
        exact ⟨by omega, hok, InRegion.mono _ _ _ _ hreg⟩
    · unfold PopulateMenuFrom at h
      simp only [if_neg hi, Except.ok.injEq] at h
      subst h
      exact Or.inl hv

end WrenchMenu

theorem CommandIds.Distinct.facts {K : CommandIds} (h : K.Distinct) :
    K.IDC_COPY ≠ K.IDC_CUT ∧ K.IDC_COPY ≠ K.IDC_ZOOM_MINUS ∧
    K.IDC_PASTE ≠ K.IDC_CUT ∧ K.IDC_PASTE ≠ K.IDC_ZOOM_MINUS ∧
    K.IDC_ZOOM_PLUS ≠ K.IDC_CUT ∧ K.IDC_ZOOM_PLUS ≠ K.IDC_ZOOM_MINUS ∧
    K.IDC_FULLSCREEN ≠ K.IDC_CUT ∧ K.IDC_FULLSCREEN ≠ K.IDC_ZOOM_MINUS ∧
    K.IDC_CUT ≠ K.IDC_ZOOM_MINUS := by
  unfold CommandIds.Distinct CommandIds.all at h
  simp only [List.nodup_cons, List.mem_cons, List.mem_singleton, not_or, List.not_mem_nil,
    not_false_eq_true, List.nodup_nil, and_true] at h
  obtain ⟨⟨h1, h2, h3, h8, h9, _⟩, ⟨_, h4, _⟩, ⟨h5, _⟩, ⟨h6, h7, _⟩, _⟩ := h
  exact ⟨Ne.symm h1, h4, Ne.symm h2, h5, Ne.symm h8, Ne.symm h6, Ne.symm h9, Ne.symm h7, h3⟩

theorem IsTripleHead.of_command {K : CommandIds} {m : MenuModel} {index c : Int}
    (hc : m.GetCommandIdAt index = some c) (h1 : c ≠ K.IDC_CUT) (h2 : c ≠ K.IDC_ZOOM_MINUS) :
    ¬ IsTripleHead K m index := by
  unfold IsTripleHead
  rw [hc]
  simp [h1, h2]

theorem not_consumed_first (K : CommandIds) (m : MenuModel) :
    ¬ Consumed K m (((0 : Nat) : Int) + m.GetFirstItemIndex) := by
  have h : ∀ k : Int, k < m.GetFirstItemIndex → m.GetCommandIdAt k = none := by
    intro k hk
    simp [MenuModel.GetCommandIdAt, MenuModel.itemAt, hk]
  unfold Consumed IsTripleHead
  rw [h _ (by push_cast; omega), h _ (by push_cast; omega)]
  simp

/-- The loop invariant "the current position is not inside a triple" is kept
by an iteration on a well-formed model. -/
theorem not_consumed_next (K : CommandIds) (hK : K.Distinct) (m : MenuModel) (hok : m.LocalOk K)
    (i i2 : Nat) (d : ItemData) (sub : Option MenuModel) (hx : m.items[i]? = some (d, sub))
    (hinv : ¬ Consumed K m ((i : Int) + m.GetFirstItemIndex))
    (hcase : ((d.command_id = K.IDC_CUT ∨ d.command_id = K.IDC_ZOOM_MINUS) ∧ i2 = i + 2) ∨
      (d.command_id ≠ K.IDC_CUT ∧ d.command_id ≠ K.IDC_ZOOM_MINUS ∧ i2 = i)) :
    ¬ Consumed K m (((i2 + 1 : Nat) : Int) + m.GetFirstItemIndex) := by
  have hi : i < m.GetItemCount := (List.getElem?_eq_some.1 hx).1
  have hc := MenuModel.GetCommandIdAt_nat m i d sub hx
  obtain ⟨f1, f2, f3, f4, f5, f6, f7, f8, _⟩ := hK.facts
  obtain ⟨hcut, hzoom, _⟩ := hok i hi
  unfold Consumed at hinv ⊢
  rcases hcase with ⟨hhead, hi2⟩ | ⟨h1, h2, hi2⟩ <;> rw [hi2]
  · have e1 : ((i + 2 + 1 : Nat) : Int) + m.GetFirstItemIndex - 1
        = (i : Int) + m.GetFirstItemIndex + 2 := by push_cast; ring
    have e2 : ((i + 2 + 1 : Nat) : Int) + m.GetFirstItemIndex - 2
        = (i : Int) + m.GetFirstItemIndex + 1 := by push_cast; ring
    rw [e1, e2]
    rcases hhead with hh | hh
    · obtain ⟨_, _, hcopy, hpaste⟩ := hcut (by rw [hc, hh])
      exact not_or.2 ⟨IsTripleHead.of_command hpaste f3 f4, IsTripleHead.of_command hcopy f1 f2⟩
    · obtain ⟨_, _, hplus, hfull⟩ := hzoom (by rw [hc, hh])
      exact not_or.2 ⟨IsTripleHead.of_command hfull f7 f8, IsTripleHead.of_command hplus f5 f6⟩
  · have e1 : ((i + 1 : Nat) : Int) + m.GetFirstItemIndex - 1
        = (i : Int) + m.GetFirstItemIndex := by push_cast; ring
    have e2 : ((i + 1 : Nat) : Int) + m.GetFirstItemIndex - 2
        = (i : Int) + m.GetFirstItemIndex - 1 := by push_cast; ring
    rw [e1, e2]
    exact not_or.2 ⟨IsTripleHead.of_command hc h1 h2, (not_or.1 hinv).1⟩

/-- A position right after a triple head, or two after it, is consumed. -/
theorem consumed_after_head (K : CommandIds) (m : MenuModel) (i j : Nat) (d : ItemData)
    (sub : Option MenuModel) (hx : m.items[i]? = some (d, sub))
    (hhead : d.command_id = K.IDC_CUT ∨ d.command_id = K.IDC_ZOOM_MINUS)
    (hj : j = i + 1 ∨ j = i + 2) : Consumed K m ((j : Int) + m.GetFirstItemIndex) := by
  have hc := MenuModel.GetCommandIdAt_nat m i d sub hx
  have hh : IsTripleHead K m ((i : Int) + m.GetFirstItemIndex) := by
    unfold IsTripleHead
    rw [hc]
    rcases hhead with h | h
    · exact Or.inl (by rw [h])
    · exact Or.inr (by rw [h])
  unfold Consumed
  rcases hj with rfl | rfl
  · left
    have : ((i + 1 : Nat) : Int) + m.GetFirstItemIndex - 1 = (i : Int) + m.GetFirstItemIndex := by
      push_cast; ring
    rw [this]; exact hh
  · right
    have : ((i + 2 : Nat) : Int) + m.GetFirstItemIndex - 2 = (i : Int) + m.GetFirstItemIndex := by
      push_cast; ring
    rw [this]; exact hh

namespace WrenchMenu

theorem step_case_simple {K : CommandIds} {d : ItemData} {i i2 : Nat} {P Q R : Prop}
    (hcase : (d.command_id = K.IDC_CUT ∧ i2 = i + 2 ∧ P) ∨
      (d.command_id ≠ K.IDC_CUT ∧ d.command_id = K.IDC_ZOOM_MINUS ∧ i2 = i + 2 ∧ Q) ∨
      (d.command_id ≠ K.IDC_CUT ∧ d.command_id ≠ K.IDC_ZOOM_MINUS ∧ i2 = i ∧ R)) :
    ((d.command_id = K.IDC_CUT ∨ d.command_id = K.IDC_ZOOM_MINUS) ∧ i2 = i + 2) ∨
      (d.command_id ≠ K.IDC_CUT ∧ d.command_id ≠ K.IDC_ZOOM_MINUS ∧ i2 = i) := by
  rcases hcase with ⟨h1, h2, _⟩ | ⟨_, h1, h2, _⟩ | ⟨h1, h2, h3, _⟩
  · exact Or.inl ⟨Or.inl h1, h2⟩
  · exact Or.inl ⟨Or.inr h1, h2⟩
  · exact Or.inr ⟨h1, h2, h3⟩

theorem new_sub_nil {wa w1 : WrenchMenu} {new_sub : List MenuItemView} (h : w1 = wa)
    (hw1 : w1.menu_items = wa.menu_items ++ new_sub) : new_sub = [] := by
  rw [h] at hw1
  have := congrArg List.length hw1
  simp only [List.length_append] at this
  exact List.length_eq_zero.1 (by omega)

theorem PopulateMenuFrom_visited (cfg : Config) (K : CommandIds) (hK : K.Distinct) :
    ∀ (fuel : Nat) (w : WrenchMenu) (parent : Int) (m : MenuModel) (i : Nat) (n : Int)
      (r : Int × WrenchMenu), w.Fresh n → m.LocalOk K →
      (∀ x ∈ subtreeItems (m.items.drop i), x.LocalOk K) →
      ¬ Consumed K m ((i : Int) + m.GetFirstItemIndex) →
      PopulateMenuFrom cfg K fuel w parent m i n = .ok r →
      ∀ v ∈ r.2.menu_items, v ∈ w.menu_items ∨ ¬ Consumed K v.model v.index := by
  intro fuel
  induction fuel with
  | zero => intro w parent m i n r _ _ _ _ h; simp [PopulateMenuFrom] at h
  | succ fuel ih =>
    intro w parent m i n r hf hok hsubs hinv h v hv
    by_cases hi : i < m.GetItemCount
    · obtain ⟨d, sub, v0, v0', wa, w1, w2, n1, i2, new_sub, new_rest, hx, ⟨hv1, hv3, hv4, hv5⟩,
        ⟨hv1', hv3', hv4'⟩, hcase, f1, hwa, hsub, hw1, hnsb, hn1, f3, hw2, hrest, hr, hnrb, hn'⟩ :=
        PopulateMenuFrom_step cfg K fuel w parent m i n r hf hi h
      have hcs := step_case_simple hcase
      have hi2 : i2 + 1 = i + (i2 + 1 - i) := by
        rcases hcs with ⟨_, h2⟩ | ⟨_, _, h2⟩ <;> omega
      have hinv' := not_consumed_next K hK m hok i i2 d sub hx hinv hcs
      have hsubs' : ∀ x ∈ subtreeItems (m.items.drop (i2 + 1)), x.LocalOk K := fun x hx' =>
        hsubs x (by rw [hi2] at hx'; exact subtreeItems_drop_add _ _ _ _ hx')
      rcases ih w2 parent m (i2 + 1) n1 r f3 hok hsubs' hinv' hrest v hv with hv2 | hnc
      · rw [hw2] at hv2
        rcases List.mem_append.1 hv2 with hv2 | hv2
        · rcases List.mem_append.1 hv2 with hv2 | hv2
          · exact Or.inl hv2
          · right
            simp only [List.mem_singleton] at hv2
            subst hv2
            rw [hv3', hv4']
            exact hinv
        · rcases hsub with ⟨_, s, hs, hrun⟩ | ⟨_, _, hw1eq⟩
          · subst hs
            have hvw1 : v ∈ w1.menu_items := by rw [hw1]; exact List.mem_append_right _ hv2
            have hmem : ∀ x ∈ s.subtree, x.LocalOk K := fun x hx' =>
              hsubs x (subtreeItems_sub m.items i d s x hx hx')
            rw [MenuModel.subtree_eq] at hmem
            rcases ih wa n s 0 (n + 1) (n1, w1) f1 (hmem s (List.mem_cons_self _ _))
              (fun x hx' => hmem x (List.mem_cons_of_mem _ (by simpa using hx')))
              (not_consumed_first K s) hrun v hvw1 with hva | hnc
            · have := f1.1 v hva
              have := (hnsb v hv2).1
              omega
            · exact Or.inr hnc
          · rw [new_sub_nil hw1eq hw1] at hv2
            simp at hv2
      · exact Or.inr hnc
    · unfold PopulateMenuFrom at h
      simp only [if_neg hi, Except.ok.injEq] at h
      subst h
      exact Or.inl hv

/-- Coverage: every position of the walked part that is not inside a triple
has a view, and so has every such position of every model reached from it. -/
theorem PopulateMenuFrom_covers (cfg : Config) (K : CommandIds) (hK : K.Distinct) :
    ∀ (fuel : Nat) (w : WrenchMenu) (parent : Int) (m : MenuModel) (i : Nat) (n : Int)
      (r : Int × WrenchMenu), w.Fresh n → m.LocalOk K →
      ¬ Consumed K m ((i : Int) + m.GetFirstItemIndex) →
      PopulateMenuFrom cfg K fuel w parent m i n = .ok r →
      (∀ j : Nat, i ≤ j → j < m.GetItemCount →
        ¬ Consumed K m ((j : Int) + m.GetFirstItemIndex) →
        ∃ v ∈ r.2.menu_items, n ≤ v.command ∧ v.model = m ∧
          v.index = (j : Int) + m.GetFirstItemIndex) ∧
      (∀ (j : Nat) (d : ItemData) (s m' : MenuModel) (idx : Int), i ≤ j →
        m.items[j]? = some (d, some s) → d.type = .TYPE_SUBMENU →
        ¬ Consumed K m ((j : Int) + m.GetFirstItemIndex) → Reached K s m' →
        (∀ x, Reached K s x → x.LocalOk K) →
        (m'.itemAt idx).isSome = true → ¬ Consumed K m' idx →
        ∃ v ∈ r.2.menu_items, n ≤ v.command ∧ v.model = m' ∧ v.index = idx) := by
  intro fuel
  induction fuel with
  | zero => intro w parent m i n r _ _ _ h; simp [PopulateMenuFrom] at h
  | succ fuel ih =>
    intro w parent m i n r hf hok hinv h
    by_cases hi : i < m.GetItemCount
    · obtain ⟨d, sub, v0, v0', wa, w1, w2, n1, i2, new_sub, new_rest, hx, ⟨hv1, hv3, hv4, hv5⟩,
        ⟨hv1', hv3', hv4'⟩, hcase, f1, hwa, hsub, hw1, hnsb, hn1, f3, hw2, hrest, hr, hnrb, hn'⟩ :=
        PopulateMenuFrom_step cfg K fuel w parent m i n r hf hi h
      have hcs := step_case_simple hcase
      have hinv' := not_consumed_next K hK m hok i i2 d sub hx hinv hcs
      obtain ⟨ihr1, ihr2⟩ := ih w2 parent m (i2 + 1) n1 r f3 hok hinv' hrest
      -- positions after `i` that are not inside a triple are at least `i2 + 1`
      have hskip : ∀ j : Nat, i < j → ¬ Consumed K m ((j : Int) + m.GetFirstItemIndex) →
          i2 + 1 ≤ j := by
        intro j hj hnc
        rcases hcs with ⟨hhead, h2⟩ | ⟨_, _, h2⟩
        · by_contra hlt
          exact hnc (consumed_after_head K m i j d sub hx hhead (by omega))
        · omega
      have hv0mem : v0' ∈ r.2.menu_items := by rw [hr, hw2]; simp
      have hsubmem : ∀ v ∈ w1.menu_items, n + 1 ≤ v.command → v ∈ r.2.menu_items := by
        intro v hv hge
        rw [hw1] at hv
        rcases List.mem_append.1 hv with hv | hv
        · have := f1.1 v hv; omega
        · rw [hr, hw2]; simp [hv]
      constructor
      · intro j hij hjc hnc
        by_cases hji : j = i
        · subst hji
          exact ⟨v0', hv0mem, by omega, hv3', hv4'⟩
        · obtain ⟨v, hv, hge, hvm, hvi⟩ := ihr1 j (hskip j (by omega) hnc) hjc hnc
          exact ⟨v, hv, by omega, hvm, hvi⟩
      · intro j dj s m' idx hij hxj hty hnc hreach hreachok hin hnc'
        by_cases hji : j = i
        · subst hji
          rw [hx] at hxj
          simp only [Option.some.injEq, Prod.mk.injEq] at hxj
          obtain ⟨hdd, hss⟩ := hxj
          subst hdd hss
          rcases hsub with ⟨_, s', hs', hrun⟩ | ⟨hnty, _⟩
          · simp only [Option.some.injEq] at hs'
            subst hs'
            obtain ⟨ihs1, ihs2⟩ := ih wa n s 0 (n + 1) (n1, w1) f1
              (hreachok s (Reached.root s)) (not_consumed_first K s) hrun
            cases hreach with
            | root =>
              obtain ⟨x, hxs⟩ := Option.isSome_iff_exists.1 hin
              obtain ⟨j', hj', hidx, _⟩ := MenuModel.itemAt_some s idx x hxs
              subst hidx
              obtain ⟨v, hv, hge, hvm, hvi⟩ := ihs1 j' (Nat.zero_le _) hj' hnc'
              exact ⟨v, hsubmem v hv hge, by omega, hvm, hvi⟩
            | submenu _ s2 _ index hnc2 hty2 hsub2 hreach2 =>
              have hin2 : ∃ x, s.itemAt index = some x := by
                unfold MenuModel.GetTypeAt at hty2
                cases hxx : s.itemAt index with
                | none => simp [hxx] at hty2
                | some x => exact ⟨x, rfl⟩
              obtain ⟨x, hxs⟩ := hin2
              obtain ⟨j', hj', hidx, hxj'⟩ := MenuModel.itemAt_some s index x hxs
              subst hidx
              obtain ⟨d2, sub2⟩ := x
              have hd2 : d2.type = .TYPE_SUBMENU := by
                rw [MenuModel.GetTypeAt_nat s j' d2 sub2 hxj'] at hty2
                exact Option.some.inj hty2
              have hs2 : sub2 = some s2 := by
                rw [MenuModel.GetSubmenuModelAt_nat s j' d2 sub2 hxj'] at hsub2
                exact Option.some.inj hsub2
              subst hs2
              obtain ⟨v, hv, hge, hvm, hvi⟩ := ihs2 j' d2 s2 m' idx (Nat.zero_le _) hxj' hd2 hnc2
                hreach2 (fun x hx' => hreachok x (Reached.submenu s s2 x _ hnc2 hty2 hsub2 hx'))
                hin hnc'
              exact ⟨v, hsubmem v hv hge, by omega, hvm, hvi⟩
          · exact absurd hty hnty
        · obtain ⟨v, hv, hge, hvm, hvi⟩ := ihr2 j dj s m' idx (hskip j (by omega) hnc) hxj hty hnc
            hreach hreachok hin hnc'
          exact ⟨v, hv, by omega, hvm, hvi⟩
    · unfold PopulateMenuFrom at h
      simp only [if_neg hi, Except.ok.injEq] at h
      subst h
      constructor
      · intro j hij hjc; omega
      · intro j dj s m' idx hij hxj
        have := (List.getElem?_eq_some.1 hxj).1
        have : j < m.GetItemCount := this
        omega

end WrenchMenu

theorem subtreeItems_drop_succ_sublist (l : List (ItemData × Option MenuModel)) (i : Nat) :
    (subtreeItems (l.drop (i + 1))).Sublist (subtreeItems (l.drop i)) := by
  by_cases hi : i < l.length
  · rw [List.drop_eq_getElem_cons hi]
    obtain ⟨d, sub⟩ := l[i]
    cases sub with
    | none => simp [subtreeItems]
    | some s => simp only [subtreeItems]; exact List.sublist_append_right _ _
  · rw [List.drop_of_length_le (by omega), List.drop_of_length_le (by omega)]

theorem subtreeItems_drop_add_sublist (l : List (ItemData × Option MenuModel)) (i k : Nat) :
    (subtreeItems (l.drop (i + k))).Sublist (subtreeItems (l.drop i)) := by
  induction k with
  | zero => simp
  | succ k ih => exact (subtreeItems_drop_succ_sublist l (i + k)).trans ih

theorem Reached.mem_subtree {K : CommandIds} {m m' : MenuModel} (h : Reached K m m') :
    m' ∈ m.subtree := by
  induction h with
  | root m => rw [MenuModel.subtree_eq]; exact List.mem_cons_self _ _
  | submenu m s m' index _ hty hsub _ ih =>
    have hin : ∃ x, m.itemAt index = some x := by
      unfold MenuModel.GetTypeAt at hty
      cases hxx : m.itemAt index with
      | none => simp [hxx] at hty
      | some x => exact ⟨x, rfl⟩
    obtain ⟨x, hx⟩ := hin
    obtain ⟨j, _, hidx, hxj⟩ := MenuModel.itemAt_some m index x hx
    subst hidx
    obtain ⟨d, sub⟩ := x
    rw [MenuModel.GetSubmenuModelAt_nat m j d sub hxj] at hsub
    have hs : sub = some s := Option.some.inj hsub
    subst hs
    rw [MenuModel.subtree_eq]
    refine List.mem_cons_of_mem _ ?_
    have := subtreeItems_sub m.items j d s m' hxj ih
    have h0 := subtreeItems_drop_add m.items 0 j m' (by simpa using this)
    simpa using h0

namespace WrenchMenu

/-- Distinct views made by the walk of a tree of distinct model objects
were made for distinct (model, index) pairs. -/
theorem PopulateMenuFrom_injective (cfg : Config) (K : CommandIds) :
    ∀ (fuel : Nat) (w : WrenchMenu) (parent : Int) (m : MenuModel) (i : Nat) (n : Int)
      (r : Int × WrenchMenu), w.Fresh n →
      ((m :: subtreeItems (m.items.drop i)).map MenuModel.addr).Nodup →
      PopulateMenuFrom cfg K fuel w parent m i n = .ok r →
      ∀ v1 ∈ r.2.menu_items, ∀ v2 ∈ r.2.menu_items, n ≤ v1.command → n ≤ v2.command →
        v1.model = v2.model → v1.index = v2.index → v1.command = v2.command := by
  intro fuel
  induction fuel with
  | zero => intro w parent m i n r _ _ h; simp [PopulateMenuFrom] at h
  | succ fuel ih =>
    intro w parent m i n r hf hnd h
    by_cases hi : i < m.GetItemCount
    · obtain ⟨d, sub, v0, v0', wa, w1, w2, n1, i2, new_sub, new_rest, hx, ⟨hv1, hv3, hv4, hv5⟩,
        ⟨hv1', hv3', hv4'⟩, hcase, f1, hwa, hsub, hw1, hnsb, hn1, f3, hw2, hrest, hr, hnrb, hn'⟩ :=
        PopulateMenuFrom_step cfg K fuel w parent m i n r hf hi h
      have hcs := step_case_simple hcase
      have hi2 : i2 + 1 = i + (i2 + 1 - i) := by
        rcases hcs with ⟨_, h2⟩ | ⟨_, _, h2⟩ <;> omega
      have hi2' : i2 + 1 = (i + 1) + (i2 - i) := by omega
      have hdrop := drop_of_getElem? m.items i _ hx
      -- the model itself is not below its items
      have hm_notin : ∀ x ∈ subtreeItems (m.items.drop i), x.addr ≠ m.addr := by
        intro x hx' heq
        simp only [List.map_cons, List.nodup_cons, List.mem_map] at hnd
        exact hnd.1 ⟨x, hx', heq⟩
      have hnd_rest : ((m :: subtreeItems (m.items.drop (i2 + 1))).map MenuModel.addr).Nodup := by
        refine List.Nodup.sublist ?_ hnd
        refine List.Sublist.map _ (List.Sublist.cons₂ _ ?_)
        rw [hi2]; exact subtreeItems_drop_add_sublist _ _ _
      -- classification of the views made from `n` on
      have hclass : ∀ v ∈ r.2.menu_items, n ≤ v.command →
          (v.command = n ∧ v.model = m ∧ v.index = (i : Int) + m.GetFirstItemIndex) ∨
          (v ∈ new_sub) ∨ (v ∈ new_rest) := by
        intro v hv hge
        rw [hr, hw2] at hv
        rcases List.mem_append.1 hv with hv | hv
        · rcases List.mem_append.1 hv with hv | hv
          · rcases List.mem_append.1 hv with hv | hv
            · have := hf.1 v hv; omega
            · simp only [List.mem_singleton] at hv
              subst hv
              exact Or.inl ⟨hv1', hv3', hv4'⟩
          · exact Or.inr (Or.inl hv)
        · exact Or.inr (Or.inr hv)
      have hrest_reg : ∀ v ∈ new_rest, v ∈ r.2.menu_items ∧ n1 ≤ v.command ∧
          InRegion m (i2 + 1) v := by
        intro v hv
        have hmem : v ∈ r.2.menu_items := by rw [hr]; exact List.mem_append_right _ hv
        rcases PopulateMenuFrom_items cfg K fuel w2 parent m (i2 + 1) n1 r f3 hrest v hmem with
          hold | ⟨hge, _, hreg⟩
        · have := f3.1 v hold
          have := (hnrb v hv).1
          omega
        · exact ⟨hmem, hge, hreg⟩
      have hsub_reg : ∀ v ∈ new_sub, ∃ s, sub = some s ∧
          PopulateMenuFrom cfg K fuel wa n s 0 (n + 1) = .ok (n1, w1) ∧
          v ∈ w1.menu_items ∧ n + 1 ≤ v.command ∧ v.model ∈ s.subtree := by
        intro v hv
        rcases hsub with ⟨_, s, hs, hrun⟩ | ⟨_, _, hw1eq⟩
        · subst hs
          have hmem : v ∈ w1.menu_items := by rw [hw1]; exact List.mem_append_right _ hv
          rcases PopulateMenuFrom_items cfg K fuel wa n s 0 (n + 1) (n1, w1) f1 hrun v hmem with
            hold | ⟨hge, _, hreg⟩
          · have := f1.1 v hold
            have := (hnsb v hv).1
            omega
          · exact ⟨s, rfl, hrun, hmem, hge, (InRegion.of_sub m i d s v hx hreg).1⟩
        · rw [new_sub_nil hw1eq hw1] at hv
          simp at hv
      -- views of different parts were made for different pairs
      have sep_self_sub : ∀ v ∈ new_sub, v.model ≠ m := by
        intro v hv heq
        obtain ⟨s, hs, _, _, _, hms⟩ := hsub_reg v hv
        subst hs
        rw [heq] at hms
        exact hm_notin m (subtreeItems_sub m.items i d s m hx hms) rfl
      have sep_self_rest : ∀ v ∈ new_rest,
          ¬ (v.model = m ∧ v.index = (i : Int) + m.GetFirstItemIndex) := by
        intro v hv ⟨heq, hidx⟩
        obtain ⟨_, _, hreg⟩ := hrest_reg v hv
        rcases hreg with ⟨_, j, hj, _, hjidx⟩ | hmem
        · rw [hjidx] at hidx
          have : (j : Int) = i := by omega
          have : j = i := by exact_mod_cast this
          omega
        · rw [heq, hi2] at hmem
          exact hm_notin m (subtreeItems_drop_add _ _ _ _ hmem) rfl
      have sep_sub_rest : ∀ v1 ∈ new_sub, ∀ v2 ∈ new_rest, v1.model ≠ v2.model := by
        intro v1 hv1m v2 hv2m heq
        obtain ⟨s, hs, _, _, _, hms⟩ := hsub_reg v1 hv1m
        subst hs
        obtain ⟨_, _, hreg⟩ := hrest_reg v2 hv2m
        rcases hreg with ⟨hm2, _⟩ | hmem
        · rw [heq, hm2] at hms
          exact hm_notin m (subtreeItems_sub m.items i d s m hx hms) rfl
        · rw [hi2'] at hmem
          have hmem' := subtreeItems_drop_add _ _ _ _ hmem
          rw [hdrop] at hnd
          simp only [subtreeItems, List.map_cons, List.map_append, List.nodup_cons] at hnd
          have hdisj := (List.nodup_append.1 hnd.2).2.2
          rw [heq] at hms
          exact hdisj (List.mem_map.2 ⟨_, hms, rfl⟩) (List.mem_map.2 ⟨_, hmem', rfl⟩)
      intro v1 hm1 v2 hm2 hge1 hge2 hmodel hindex
      rcases hclass v1 hm1 hge1 with ⟨hc1, hmd1, hid1⟩ | hs1 | hr1 <;>
        rcases hclass v2 hm2 hge2 with ⟨hc2, hmd2, hid2⟩ | hs2 | hr2
      · rw [hc1, hc2]
      · exact absurd (hmodel.symm.trans hmd1) (sep_self_sub v2 hs2)
      · exact absurd ⟨hmodel.symm.trans hmd1, hindex.symm.trans hid1⟩ (sep_self_rest v2 hr2)
      · exact absurd (hmodel.trans hmd2) (sep_self_sub v1 hs1)
      · obtain ⟨s, hs, hrun, hw1m1, hg1, _⟩ := hsub_reg v1 hs1
        obtain ⟨_, _, _, hw1m2, hg2, _⟩ := hsub_reg v2 hs2
        subst hs
        have hnd_sub : ((s :: subtreeItems (s.items.drop 0)).map MenuModel.addr).Nodup := by
          rw [hdrop] at hnd
          simp only [subtreeItems, List.map_cons, List.map_append, List.nodup_cons] at hnd
          have := (List.nodup_append.1 hnd.2).1
          rw [MenuModel.subtree_eq] at this
          simpa using this
        exact ih wa n s 0 (n + 1) (n1, w1) f1 hnd_sub hrun v1 hw1m1 v2 hw1m2 hg1 hg2 hmodel
          hindex
      · exact absurd hmodel (sep_sub_rest v1 hs1 v2 hr2)
      · exact absurd ⟨hmodel.trans hmd2, hindex.trans hid2⟩ (sep_self_rest v1 hr1)
      · exact absurd hmodel.symm (sep_sub_rest v2 hs2 v1 hr1)
      · obtain ⟨hmem1, hg1, _⟩ := hrest_reg v1 hr1
        obtain ⟨hmem2, hg2, _⟩ := hrest_reg v2 hr2
        exact ih w2 parent m (i2 + 1) n1 r f3 hnd_rest hrest v1 hmem1 v2 hmem2 hg1 hg2 hmodel
          hindex
    · unfold PopulateMenuFrom at h
      simp only [if_neg hi, Except.ok.injEq] at h
      subst h
      intro v1 hm1 v2 hm2 hge1
      have := hf.1 v1 hm1
      omega

end WrenchMenu

namespace WrenchMenu

theorem Init_ok (cfg : Config) (K : CommandIds) (fuel : Nat) (w : WrenchMenu)
    (model : MenuModel) (w' : WrenchMenu) (h : Init cfg K fuel w model = .ok w') :
    ∃ n' w1, PopulateMenu cfg K fuel
        { w with root_ := some { has_icons := true, cancel_calls := 0 }, menu_items := [] }
        0 model 1 = .ok (n', w1) ∧
      w' = { w1 with first_bookmark_command_id_ := n' + 1, menu_runner_ := true } := by
  unfold Init at h
  obtain ⟨_, _, h1⟩ := (bind_ok _ _ _).1 h
  obtain ⟨⟨n', w1⟩, hp, h2⟩ := (bind_ok _ _ _).1 h1
  simp only [pure, Except.pure, Except.ok.injEq] at h2
  exact ⟨n', w1, hp, h2.symm⟩

theorem Init_intro (cfg : Config) (K : CommandIds) (fuel : Nat) (w : WrenchMenu)
    (model : MenuModel) (n' : Int) (w1 : WrenchMenu) (hroot : w.root_ = none)
    (hp : PopulateMenu cfg K fuel
        { w with root_ := some { has_icons := true, cancel_calls := 0 }, menu_items := [] }
        0 model 1 = .ok (n', w1)) :
    Init cfg K fuel w model =
      .ok { w1 with first_bookmark_command_id_ := n' + 1, menu_runner_ := true } := by
  unfold Init
  simp only [dcheck_ok _ _ (by rw [hroot]; rfl : w.root_.isNone = true), hp, bind, Except.bind,
    pure, Except.pure]

theorem Unpopulated.fresh_one {w : WrenchMenu} (hw : w.Unpopulated) :
    Fresh 1 { w with root_ := some { has_icons := true, cancel_calls := 0 }, menu_items := [] } := by
  obtain ⟨_, _, ht, _, _⟩ := hw
  constructor
  · intro v hv; simp at hv
  · intro id e he
    simp only [ht, IDToEntry.find] at he
    cases he

/-- The walk `Init` makes on a well-formed tree returns. -/
theorem PopulateMenu_total (cfg : Config) (K : CommandIds) (fuel : Nat) (w : WrenchMenu)
    (parent : Int) (model : MenuModel) (n : Int) (hwf : model.WellFormed K)
    (hz : cfg.ZoomRangeOk ∨ model.NoZoomRow K) (hfuel : model.fuelBound ≤ fuel)
    (hb : w.bookmark_menu_ = none)
    (hf : w.feedback_menu_item_ = none) :
    ∃ r, PopulateMenu cfg K fuel w parent model n = .ok r := by
  obtain ⟨hlocal, hcb, hcf⟩ := hwf
  rw [MenuModel.subtree_eq] at hlocal
  rw [← countIn_root] at hcb hcf
  have hsz := MenuModel.size_eq model
  unfold MenuModel.fuelBound at hfuel
  have hz' : cfg.ZoomRangeOk ∨ (model.countCommand K.IDC_ZOOM_MINUS = 0 ∧
      ∀ x ∈ subtreeItems (model.items.drop 0), x.countCommand K.IDC_ZOOM_MINUS = 0) := by
    rcases hz with hz | hz
    · exact Or.inl hz
    · unfold MenuModel.NoZoomRow at hz
      rw [MenuModel.subtree_eq] at hz
      exact Or.inr ⟨hz model (List.mem_cons_self _ _),
        fun x hx => hz x (List.mem_cons_of_mem _ (by simpa using hx))⟩
  obtain ⟨r, hr, _⟩ := PopulateMenuFrom_total cfg K fuel w parent model 0 n hz'
    (by simp only [List.drop_zero]; omega) (hlocal model (List.mem_cons_self _ _))
    (fun x hx => hlocal x (List.mem_cons_of_mem _ (by simpa using hx)))
    (by simp only [List.drop_zero, hb, budget]; exact hcb)
    (by simp only [List.drop_zero, hf, budget]; exact hcf)
  exact ⟨r, hr⟩

/-- The state after a successful `Init` of an unpopulated menu. -/
theorem Init_effect (cfg : Config) (K : CommandIds) (fuel : Nat) (w : WrenchMenu)
    (model : MenuModel) (w' : WrenchMenu) (hw : w.Unpopulated)
    (h : Init cfg K fuel w model = .ok w') :
    consecutiveFrom 1 (w'.menu_items.map fun v => v.command) ∧
    w'.first_bookmark_command_id_ = (w'.menu_items.length : Int) + 1 + 1 ∧
    (∀ v ∈ w'.menu_items, IDToEntry.find w'.id_to_entry_ v.command = some (v.model, v.index)) ∧
    (∀ id e, IDToEntry.find w'.id_to_entry_ id = some e →
      1 ≤ id ∧ id ≤ (w'.menu_items.length : Int)) ∧
    (∀ v ∈ w'.menu_items, ItemOk K v) ∧
    w'.bookmark_menu_delegate_ = w.bookmark_menu_delegate_ ∧ w'.activated = w.activated ∧
    ∃ w1, PopulateMenu cfg K fuel
        { w with root_ := some { has_icons := true, cancel_calls := 0 }, menu_items := [] }
        0 model 1 = .ok ((w'.menu_items.length : Int) + 1, w1) ∧
      w' = { w1 with first_bookmark_command_id_ := (w'.menu_items.length : Int) + 1 + 1,
                     menu_runner_ := true } := by
  obtain ⟨n', w1, hp, hw'⟩ := Init_ok _ _ _ _ _ _ h
  have hfresh := hw.fresh_one
  have eff := PopulateMenuFrom_effect cfg K fuel _ 0 model 0 1 (n', w1) hfresh hp
  have hitems := PopulateMenuFrom_items cfg K fuel _ 0 model 0 1 (n', w1) hfresh hp
  obtain ⟨new, hi, hn, hc, ht⟩ := eff.items
  simp only [List.nil_append] at hi
  have hlen : n' = (w'.menu_items.length : Int) + 1 := by
    rw [hw']; simp only; rw [hi]; omega
  have hfresh' := eff.keeps_fresh hfresh
  subst hw'
  simp only at hlen ⊢
  refine ⟨by rw [hi]; exact hc, by rw [hlen], ?_, ?_, ?_, ?_, ?_, w1, by rw [← hlen]; exact hp,
    by rw [← hlen]⟩
  · intro v hv; rw [hi] at hv; exact ht v hv
  · intro id e he
    have h1 := hfresh'.2 id e he
    simp only at h1
    refine ⟨?_, by omega⟩
    by_contra hlt
    rw [eff.old id (Or.inl (by omega))] at he
    simp only [hw.2.2.1, IDToEntry.find] at he
    cases he
  · intro v hv
    rcases hitems v hv with hold | ⟨_, hok, _⟩
    · simp at hold
    · exact hok
  · exact eff.outside.2.2.2.2.1
  · exact eff.outside.2.2.2.2.2.2.1

end WrenchMenu

theorem IsTripleHead.in_model {K : CommandIds} {m : MenuModel} {index : Int}
    (h : IsTripleHead K m index) :
    ∃ (j : Nat) (d : ItemData) (sub : Option MenuModel), j < m.GetItemCount ∧
      index = (j : Int) + m.GetFirstItemIndex ∧ m.items[j]? = some (d, sub) := by
  have hs : (m.itemAt index).isSome = true := by
    rcases h with h | h <;> exact MenuModel.itemAt_of_command m _ _ h
  obtain ⟨x, hx⟩ := Option.isSome_iff_exists.1 hs
  obtain ⟨j, hj, hidx, hxj⟩ := MenuModel.itemAt_some m index x hx
  exact ⟨j, x.1, x.2, hj, hidx, hxj⟩

/-- In a well-formed model the first element of a triple is not the second
or third element of another one. -/
theorem head_not_consumed (K : CommandIds) (hK : K.Distinct) (m : MenuModel)
    (hok : m.LocalOk K) (k : Int) (hh : IsTripleHead K m k) : ¬ Consumed K m k := by
  obtain ⟨f1, f2, f3, f4, f5, f6, f7, f8, _⟩ := hK.facts
  have hnot : ∀ c : Int, m.GetCommandIdAt k = some c → c ≠ K.IDC_CUT → c ≠ K.IDC_ZOOM_MINUS →
      False := by
    intro c hc h1 h2
    exact IsTripleHead.of_command hc h1 h2 hh
  intro hcons
  rcases hcons with hprev | hprev
  · obtain ⟨j, d, sub, hj, hidx, _⟩ := hprev.in_model
    obtain ⟨hcut, hzoom, _⟩ := hok j hj
    rw [← hidx] at hcut hzoom
    have e : k - 1 + 1 = k := by ring
    rcases hprev with hp | hp
    · have := (hcut hp).2.2.1
      rw [e] at this
      exact hnot _ this f1 f2
    · have := (hzoom hp).2.2.1
      rw [e] at this
      exact hnot _ this f5 f6
  · obtain ⟨j, d, sub, hj, hidx, _⟩ := hprev.in_model
    obtain ⟨hcut, hzoom, _⟩ := hok j hj
    rw [← hidx] at hcut hzoom
    have e : k - 2 + 2 = k := by ring
    rcases hprev with hp | hp
    · have := (hcut hp).2.2.2
      rw [e] at this
      exact hnot _ this f3 f4
    · have := (hzoom hp).2.2.2
      rw [e] at this
      exact hnot _ this f7 f8

theorem consumed_of_head (K : CommandIds) (m : MenuModel) (k : Int)
    (hh : IsTripleHead K m k) : Consumed K m (k + 1) ∧ Consumed K m (k + 2) := by
  unfold Consumed
  have e1 : k + 1 - 1 = k := by ring
  have e2 : k + 2 - 2 = k := by ring
  rw [e1, e2]
  exact ⟨Or.inl hh, Or.inr hh⟩

namespace WrenchMenu

/-- Coverage, visited positions and injectivity for the walk `Init` makes on a
well-formed tree of distinct model objects. -/
theorem Init_coverage (cfg : Config) (K : CommandIds) (fuel : Nat) (w : WrenchMenu)
    (root : MenuModel) (w' : WrenchMenu) (hK : K.Distinct) (hw : w.Unpopulated)
    (hwf : root.WellFormed K) (hna : root.NoAlias) (h : Init cfg K fuel w root = .ok w') :
    (∀ v ∈ w'.menu_items, ¬ Consumed K v.model v.index) ∧
    (∀ v1 ∈ w'.menu_items, ∀ v2 ∈ w'.menu_items, v1.model = v2.model → v1.index = v2.index →
      v1.command = v2.command) ∧
    (∀ m, Reached K root m → ∀ idx, (m.itemAt idx).isSome = true → ¬ Consumed K m idx →
      ∃ v ∈ w'.menu_items, v.model = m ∧ v.index = idx) := by
  obtain ⟨n', w1, hp, hw'⟩ := Init_ok _ _ _ _ _ _ h
  have hfresh := hw.fresh_one
  have hitems : w'.menu_items = w1.menu_items := by rw [hw']
  obtain ⟨hlocal, _, _⟩ := hwf
  have hroot : root.LocalOk K := hlocal root (by
    rw [MenuModel.subtree_eq]; exact List.mem_cons_self _ _)
  have hsubs : ∀ x ∈ subtreeItems (root.items.drop 0), x.LocalOk K := fun x hx =>
    hlocal x (by rw [MenuModel.subtree_eq]; exact List.mem_cons_of_mem _ (by simpa using hx))
  have hge : ∀ v ∈ w1.menu_items, (1 : Int) ≤ v.command := by
    intro v hv
    rcases PopulateMenuFrom_items cfg K fuel _ 0 root 0 1 (n', w1) hfresh hp v hv with hold | hnew
    · simp at hold
    · exact hnew.1
  refine ⟨?_, ?_, ?_⟩
  · intro v hv
    rw [hitems] at hv
    rcases PopulateMenuFrom_visited cfg K hK fuel _ 0 root 0 1 (n', w1) hfresh hroot hsubs
      (not_consumed_first K root) hp v hv with hold | hnc
    · simp at hold
    · exact hnc
  · intro v1 hv1 v2 hv2 hm hi
    rw [hitems] at hv1 hv2
    have hnd : ((root :: subtreeItems (root.items.drop 0)).map MenuModel.addr).Nodup := by
      unfold MenuModel.NoAlias at hna
      rw [MenuModel.subtree_eq] at hna
      simpa using hna
    exact PopulateMenuFrom_injective cfg K fuel _ 0 root 0 1 (n', w1) hfresh hnd hp v1 hv1 v2 hv2
      (hge v1 hv1) (hge v2 hv2) hm hi
  · obtain ⟨hc1, hc2⟩ := PopulateMenuFrom_covers cfg K hK fuel _ 0 root 0 1 (n', w1) hfresh hroot
      (not_consumed_first K root) hp
    intro m hreach idx hin hnc
    rw [hitems]
    cases hreach with
    | root =>
      obtain ⟨x, hxs⟩ := Option.isSome_iff_exists.1 hin
      obtain ⟨j, hj, hidx, _⟩ := MenuModel.itemAt_some root idx x hxs
      subst hidx
      obtain ⟨v, hv, _, hvm, hvi⟩ := hc1 j (Nat.zero_le _) hj hnc
      exact ⟨v, hv, hvm, hvi⟩
    | submenu _ s _ index hnc2 hty2 hsub2 hreach2 =>
      have hin2 : ∃ x, root.itemAt index = some x := by
        unfold MenuModel.GetTypeAt at hty2
        cases hxx : root.itemAt index with
        | none => simp [hxx] at hty2
        | some x => exact ⟨x, rfl⟩
      obtain ⟨x, hxs⟩ := hin2
      obtain ⟨j, hj, hidx, hxj⟩ := MenuModel.itemAt_some root index x hxs
      subst hidx
      obtain ⟨d2, sub2⟩ := x
      have hd2 : d2.type = .TYPE_SUBMENU := by
        rw [MenuModel.GetTypeAt_nat root j d2 sub2 hxj] at hty2
        exact Option.some.inj hty2
      have hs2 : sub2 = some s := by
        rw [MenuModel.GetSubmenuModelAt_nat root j d2 sub2 hxj] at hsub2
        exact Option.some.inj hsub2
      subst hs2
      obtain ⟨v, hv, _, hvm, hvi⟩ := hc2 j d2 s m idx (Nat.zero_le _) hxj hd2 hnc2 hreach2
        (fun x hx' => hlocal x
          (Reached.mem_subtree (Reached.submenu root s x _ hnc2 hty2 hsub2 hx')))
        hin hnc
      exact ⟨v, hv, hvm, hvi⟩

/-- `Init` of an unpopulated menu on a well-formed tree returns. -/
theorem Init_total (cfg : Config) (K : CommandIds) (fuel : Nat) (w : WrenchMenu)
    (root : MenuModel) (hw : w.Unpopulated) (hwf : root.WellFormed K)
    (hz : cfg.ZoomRangeOk ∨ root.NoZoomRow K) (hfuel : root.fuelBound ≤ fuel) :
    ∃ w', Init cfg K fuel w root = .ok w' := by
  obtain ⟨⟨n', w1⟩, hp⟩ := PopulateMenu_total cfg K fuel
    { w with root_ := some { has_icons := true, cancel_calls := 0 }, menu_items := [] }
    0 root 1 hwf hz hfuel hw.2.2.2.1 hw.2.2.2.2
  exact ⟨_, Init_intro cfg K fuel w root n' w1 hw.1 hp⟩

/-- From a view with a given source to the identifiers of that source. -/
theorem Init_entry_iff (cfg : Config) (K : CommandIds) (fuel : Nat) (w : WrenchMenu)
    (root : MenuModel) (w' : WrenchMenu) (hK : K.Distinct) (hw : w.Unpopulated)
    (hwf : root.WellFormed K) (hna : root.NoAlias) (h : Init cfg K fuel w root = .ok w')
    (v : MenuItemView) (hv : v ∈ w'.menu_items) (id : Int) :
    IDToEntry.find w'.id_to_entry_ id = some (v.model, v.index) ↔ id = v.command := by
  obtain ⟨hc, _, htab, hkeys, _⟩ := Init_effect cfg K fuel w root w' hw h
  obtain ⟨_, hinj, _⟩ := Init_coverage cfg K fuel w root w' hK hw hwf hna h
  constructor
  · intro he
    obtain ⟨h1, h2⟩ := hkeys id _ he
    have hmem : id ∈ w'.menu_items.map (fun v => v.command) := by
      rw [consecutiveFrom_mem _ _ hc]
      simp only [List.length_map]
      omega
    obtain ⟨v', hv', hvc⟩ := List.mem_map.1 hmem
    have := htab v' hv'
    rw [hvc, he] at this
    have hsrc := Option.some.inj this
    simp only [Prod.mk.injEq] at hsrc
    rw [← hvc]
    exact hinj v' hv' v hv hsrc.1.symm hsrc.2.symm
  · intro hid
    rw [hid]
    exact htab v hv

/-- No identifier maps to a consumed index. -/
theorem Init_no_entry_of_consumed (cfg : Config) (K : CommandIds) (fuel : Nat)
    (w : WrenchMenu) (root : MenuModel) (w' : WrenchMenu) (hK : K.Distinct)
    (hw : w.Unpopulated) (hwf : root.WellFormed K) (hna : root.NoAlias)
    (h : Init cfg K fuel w root = .ok w') (m : MenuModel) (idx : Int)
    (hcons : Consumed K m idx) (id : Int) :
    IDToEntry.find w'.id_to_entry_ id ≠ some (m, idx) := by
  obtain ⟨hc, _, htab, hkeys, _⟩ := Init_effect cfg K fuel w root w' hw h
  obtain ⟨hvis, _, _⟩ := Init_coverage cfg K fuel w root w' hK hw hwf hna h
  intro he
  obtain ⟨h1, h2⟩ := hkeys id _ he
  have hmem : id ∈ w'.menu_items.map (fun v => v.command) := by
    rw [consecutiveFrom_mem _ _ hc]
    simp only [List.length_map]
    omega
  obtain ⟨v', hv', hvc⟩ := List.mem_map.1 hmem
  have := htab v' hv'
  rw [hvc, he] at this
  have hsrc := Option.some.inj this
  simp only [Prod.mk.injEq] at hsrc
  have hnc := hvis v' hv'
  rw [← hsrc.1, ← hsrc.2] at hnc
  exact hnc hcons

end WrenchMenu

namespace WrenchMenu

/-- The view of the first element of a triple, after `Init` on a well-formed
tree of distinct model objects. -/
theorem Init_triple_head (cfg : Config) (K : CommandIds) (fuel : Nat) (w : WrenchMenu)
    (root : MenuModel) (w' : WrenchMenu) (hK : K.Distinct) (hw : w.Unpopulated)
    (hwf : root.WellFormed K) (hna : root.NoAlias) (h : Init cfg K fuel w root = .ok w')
    (m : MenuModel) (hreach : Reached K root m) (k : Int) (hh : IsTripleHead K m k) :
    ∃ v ∈ w'.menu_items, v.model = m ∧ v.index = k ∧ ItemOk K v ∧
      (∀ v' ∈ w'.menu_items, v'.model = m → v'.index = k → v'.command = v.command) ∧
      (∀ id : Int, IDToEntry.find w'.id_to_entry_ id = some (m, k) ↔ id = v.command) ∧
      (∀ v' ∈ w'.menu_items, v'.model = m → v'.index ≠ k + 1 ∧ v'.index ≠ k + 2) ∧
      (∀ id : Int, IDToEntry.find w'.id_to_entry_ id ≠ some (m, k + 1) ∧
        IDToEntry.find w'.id_to_entry_ id ≠ some (m, k + 2)) := by
  obtain ⟨hvis, hinj, hcov⟩ := Init_coverage cfg K fuel w root w' hK hw hwf hna h
  obtain ⟨_, _, _, _, hok, _⟩ := Init_effect cfg K fuel w root w' hw h
  have hlocal : m.LocalOk K := hwf.1 m (Reached.mem_subtree hreach)
  have hin : (m.itemAt k).isSome = true := by
    rcases hh with h1 | h1 <;> exact MenuModel.itemAt_of_command m _ _ h1
  obtain ⟨v, hv, hvm, hvi⟩ := hcov m hreach k hin (head_not_consumed K hK m hlocal k hh)
  have hiff := Init_entry_iff cfg K fuel w root w' hK hw hwf hna h v hv
  rw [hvm, hvi] at hiff
  obtain ⟨hc1, hc2⟩ := consumed_of_head K m k hh
  refine ⟨v, hv, hvm, hvi, hok v hv, ?_, hiff, ?_, ?_⟩
  · intro v' hv' hm' hi'
    exact hinj v' hv' v hv (hm'.trans hvm.symm) (hi'.trans hvi.symm)
  · intro v' hv' hm'
    have hnc := hvis v' hv'
    rw [hm'] at hnc
    constructor
    · intro hi'; rw [hi'] at hnc; exact hnc hc1
    · intro hi'; rw [hi'] at hnc; exact hnc hc2
  · intro id
    exact ⟨Init_no_entry_of_consumed cfg K fuel w root w' hK hw hwf hna h m _ hc1 id,
      Init_no_entry_of_consumed cfg K fuel w root w' hK hw hwf hna h m _ hc2 id⟩

end WrenchMenu

namespace WrenchMenu

/-- After `Init`, no key of the table is a bookmark command, in any later
state that kept `first_bookmark_command_id_`. -/
theorem Init_entry_not_bookmark (cfg : Config) (K : CommandIds) (fuel : Nat) (w : WrenchMenu)
    (root : MenuModel) (w' : WrenchMenu) (hw : w.Unpopulated)
    (h : Init cfg K fuel w root = .ok w') (u : WrenchMenu)
    (hu : u.first_bookmark_command_id_ = w'.first_bookmark_command_id_) (id : Int) (e : Entry)
    (hfind : IDToEntry.find w'.id_to_entry_ id = some e) :
    u.is_bookmark_command id = false := by
  obtain ⟨_, hfb, _, hkeys, _⟩ := Init_effect cfg K fuel w root w' hw h
  obtain ⟨_, h2⟩ := hkeys id e hfind
  unfold is_bookmark_command
  rw [hu, hfb]
  have : ¬ ((w'.menu_items.length : Int) + 1 + 1 ≤ id) := by omega
  simp [this]

end WrenchMenu

namespace WrenchMenu

theorem dcheck_inv (cond : Bool) (h : dcheck true cond = .ok ()) : cond = true := by
  cases cond
  · simp [dcheck] at h
  · rfl

theorem dcheckTypeAt_inv (t : ItemType) (m : MenuModel) (index : Int)
    (h : dcheckTypeAt true t m index = .ok ()) : m.GetTypeAt index = some t := by
  unfold dcheckTypeAt at h
  simp only [if_true] at h
  obtain ⟨a, ha, h2⟩ := (bind_ok _ _ _).1 h
  rw [query_ok] at ha
  by_cases hta : t = a
  · rw [ha, hta]
  · rw [if_neg hta] at h2
    cases h2

theorem dcheckCommandIdAt_inv (c : Int) (m : MenuModel) (index : Int)
    (h : dcheckCommandIdAt true c m index = .ok ()) : m.GetCommandIdAt index = some c := by
  unfold dcheckCommandIdAt at h
  simp only [if_true] at h
  obtain ⟨a, ha, h2⟩ := (bind_ok _ _ _).1 h
  rw [query_ok] at ha
  by_cases hca : c = a
  · rw [ha, hca]
  · rw [if_neg hca] at h2
    cases h2

/-- With DCHECKs on, the switch statement returns only if the companions of a
triple head are in place. -/
theorem populateSwitch_checked (cfg : Config) (K : CommandIds) (fuel : Nat) (w : WrenchMenu)
    (m : MenuModel) (i max : Nat) (index item : Int) (r : Nat × WrenchMenu)
    (hd : cfg.dcheck_is_on = true)
    (h : populateSwitch cfg K fuel w m i max index item = .ok r) :
    (m.GetCommandIdAt index = some K.IDC_CUT →
      m.GetTypeAt index = some .TYPE_COMMAND ∧ i + 2 < max ∧
      m.GetCommandIdAt (index + 1) = some K.IDC_COPY ∧
      m.GetCommandIdAt (index + 2) = some K.IDC_PASTE) ∧
    (m.GetCommandIdAt index ≠ some K.IDC_CUT →
      m.GetCommandIdAt index = some K.IDC_ZOOM_MINUS →
      m.GetTypeAt index = some .TYPE_COMMAND ∧
      m.GetCommandIdAt (index + 1) = some K.IDC_ZOOM_PLUS ∧
      m.GetCommandIdAt (index + 2) = some K.IDC_FULLSCREEN) := by
  unfold populateSwitch at h
  rw [hd] at h
  obtain ⟨c, hc, h⟩ := (bind_ok _ _ _).1 h
  rw [query_ok] at hc
  rw [hc]
  constructor
  · intro hcut
    have h1 : c = K.IDC_CUT := Option.some.inj hcut
    rw [if_pos h1] at h
    obtain ⟨_, ht, h⟩ := (bind_ok _ _ _).1 h
    obtain ⟨_, hl, h⟩ := (bind_ok _ _ _).1 h
    obtain ⟨_, hc1, h⟩ := (bind_ok _ _ _).1 h
    obtain ⟨_, hc2, h⟩ := (bind_ok _ _ _).1 h
    exact ⟨dcheckTypeAt_inv _ _ _ ht, of_decide_eq_true (dcheck_inv _ hl),
      dcheckCommandIdAt_inv _ _ _ hc1, dcheckCommandIdAt_inv _ _ _ hc2⟩
  · intro hncut hzoom
    have h1 : c ≠ K.IDC_CUT := fun hh => hncut (by rw [hh])
    have h2 : c = K.IDC_ZOOM_MINUS := Option.some.inj hzoom
    rw [if_neg h1, if_pos h2] at h
    obtain ⟨_, ht, h⟩ := (bind_ok _ _ _).1 h
    obtain ⟨_, hc1, h⟩ := (bind_ok _ _ _).1 h
    obtain ⟨_, hc2, h⟩ := (bind_ok _ _ _).1 h
    exact ⟨dcheckTypeAt_inv _ _ _ ht, dcheckCommandIdAt_inv _ _ _ hc1,
      dcheckCommandIdAt_inv _ _ _ hc2⟩

/-- With DCHECKs on, the switch statement stops with a DCHECK failure at an
`IDC_CUT` item whose companions are not in place. -/
theorem populateSwitch_cut_malformed (cfg : Config) (K : CommandIds) (fuel : Nat)
    (w : WrenchMenu) (m : MenuModel) (i : Nat) (item : Int) (d : ItemData)
    (sub : Option MenuModel) (hd : cfg.dcheck_is_on = true)
    (hx : m.items[i]? = some (d, sub)) (hcut : d.command_id = K.IDC_CUT)
    (hbad : ¬ (i + 2 < m.GetItemCount ∧
      m.GetCommandIdAt ((i : Int) + m.GetFirstItemIndex + 1) = some K.IDC_COPY ∧
      m.GetCommandIdAt ((i : Int) + m.GetFirstItemIndex + 2) = some K.IDC_PASTE)) :
    populateSwitch cfg K fuel w m i m.GetItemCount ((i : Int) + m.GetFirstItemIndex) item
      = .error .DCHECK := by
  have hc := MenuModel.GetCommandIdAt_nat m i d sub hx
  have ht := MenuModel.GetTypeAt_nat m i d sub hx
  unfold populateSwitch
  simp only [hc, query, bind, Except.bind, if_pos hcut, hd, dcheckTypeAt, ht, if_true]
  by_cases hty : ItemType.TYPE_COMMAND = d.type
  · simp only [if_pos hty, pure, Except.pure]
    by_cases hlt : i + 2 < m.GetItemCount
    · simp only [dcheck, hlt, decide_True, Bool.not_true, Bool.and_false, Bool.false_eq_true,
        if_false, dcheckCommandIdAt, if_true]
      have e1 : (i : Int) + m.GetFirstItemIndex + 1 = ((i + 1 : Nat) : Int) + m.GetFirstItemIndex := by
        push_cast; ring
      have e2 : (i : Int) + m.GetFirstItemIndex + 2 = ((i + 2 : Nat) : Int) + m.GetFirstItemIndex := by
        push_cast; ring
      obtain ⟨x1, hx1⟩ : ∃ x, m.items[i + 1]? = some x :=
        ⟨_, List.getElem?_eq_getElem (by unfold MenuModel.GetItemCount at hlt; omega)⟩
      obtain ⟨x2, hx2⟩ : ∃ x, m.items[i + 2]? = some x :=
        ⟨_, List.getElem?_eq_getElem (by unfold MenuModel.GetItemCount at hlt; omega)⟩
      have hc1 := MenuModel.GetCommandIdAt_nat m (i + 1) x1.1 x1.2 hx1
      have hc2 := MenuModel.GetCommandIdAt_nat m (i + 2) x2.1 x2.2 hx2
      rw [← e1] at hc1
      rw [← e2] at hc2
      rw [hc1, hc2] at hbad
      simp only [hc1, hc2, query, bind, Except.bind, pure, Except.pure]
      by_cases h1 : K.IDC_COPY = x1.1.command_id
      · simp only [if_pos h1]
        by_cases h2 : K.IDC_PASTE = x2.1.command_id
        · exact absurd ⟨hlt, by rw [h1], by rw [h2]⟩ hbad
        · simp only [if_neg h2]
      · simp only [if_neg h1]
    · simp [dcheck, hlt]
  · simp only [if_neg hty]

/-- With DCHECKs on, a walk that starts at or before an `IDC_CUT` item whose
companions are not in place does not return. -/
theorem PopulateMenuFrom_cut_malformed (cfg : Config) (K : CommandIds) (hK : K.Distinct)
    (hd : cfg.dcheck_is_on = true) (m : MenuModel) (i : Nat)
    (hcut : m.GetCommandIdAt ((i : Int) + m.GetFirstItemIndex) = some K.IDC_CUT)
    (hbad : ¬ (i + 2 < m.GetItemCount ∧
      m.GetCommandIdAt ((i : Int) + m.GetFirstItemIndex + 1) = some K.IDC_COPY ∧
      m.GetCommandIdAt ((i : Int) + m.GetFirstItemIndex + 2) = some K.IDC_PASTE)) :
    ∀ (fuel : Nat) (w : WrenchMenu) (parent : Int) (i0 : Nat) (n : Int) (r : Int × WrenchMenu),
      i0 ≤ i → PopulateMenuFrom cfg K fuel w parent m i0 n ≠ .ok r := by
  obtain ⟨f1, _, f3, _, f5, _, f7, _, _⟩ := hK.facts
  intro fuel
  induction fuel with
  | zero => intro w parent i0 n r _ h; simp [PopulateMenuFrom] at h
  | succ fuel ih =>
    intro w parent i0 n r hle h
    rcases PopulateMenuFrom_succ_ok _ _ _ _ _ _ _ _ _ h with ⟨hge, _⟩ |
      ⟨hlt, d, sub, height, wa, n1, w1, i2, w2, hx, ha, hsub, hsw, hrest⟩
    · have hs := MenuModel.itemAt_of_command m _ _ hcut
      rw [MenuModel.itemAt_nat] at hs
      obtain ⟨x, hxx⟩ := Option.isSome_iff_exists.1 hs
      have : i < m.GetItemCount := (List.getElem?_eq_some.1 hxx).1
      omega
    · have hc := MenuModel.GetCommandIdAt_nat m i0 d sub hx
      obtain ⟨hck1, hck2⟩ := populateSwitch_checked cfg K fuel w1 m i0 _ _ n _ hd hsw
      by_cases heq : i0 = i
      · subst heq
        obtain ⟨_, h2, h3, h4⟩ := hck1 hcut
        exact hbad ⟨h2, h3, h4⟩
      · -- the loop goes on at a position that is still at or before `i`
        have hnext : i2 + 1 ≤ i := by
          obtain ⟨c, hc', hcase⟩ := populateSwitch_ok _ _ _ _ _ _ _ _ _ _ hsw
          simp only at hcase
          have e1 : (i0 : Int) + m.GetFirstItemIndex + 1 =
              ((i0 + 1 : Nat) : Int) + m.GetFirstItemIndex := by push_cast; ring
          have e2 : (i0 : Int) + m.GetFirstItemIndex + 2 =
              ((i0 + 2 : Nat) : Int) + m.GetFirstItemIndex := by push_cast; ring
          rcases hcase with ⟨hc1, hi2, _⟩ | ⟨hc1, hc2, hi2, _⟩ | ⟨_, _, hi2, _⟩
          · obtain ⟨_, _, h3, h4⟩ := hck1 (by rw [hc', hc1])
            by_contra hgt
            have hcases : i = i0 + 1 ∨ i = i0 + 2 := by omega
            rcases hcases with hi | hi
            · rw [hi, ← e1, h3] at hcut
              exact f1 (Option.some.inj hcut)
            · rw [hi, ← e2, h4] at hcut
              exact f3 (Option.some.inj hcut)
          · obtain ⟨_, h3, h4⟩ := hck2 (by rw [hc']; intro hh; exact hc1 (Option.some.inj hh))
              (by rw [hc', hc2])
            by_contra hgt
            have hcases : i = i0 + 1 ∨ i = i0 + 2 := by omega
            rcases hcases with hi | hi
            · rw [hi, ← e1, h3] at hcut
              exact f5 (Option.some.inj hcut)
            · rw [hi, ← e2, h4] at hcut
              exact f7 (Option.some.inj hcut)
          · omega
        exact ih w2 parent (i2 + 1) n1 r hnext hrest

end WrenchMenu

namespace WrenchMenu

/-- With DCHECKs on, the iteration at an `IDC_CUT` item that is not a submenu
and whose companions are not in place stops with the DCHECK failure. -/
theorem PopulateMenuFrom_cut_malformed_here (cfg : Config) (K : CommandIds)
    (hd : cfg.dcheck_is_on = true) (m : MenuModel) (i : Nat)
    (hcut : m.GetCommandIdAt ((i : Int) + m.GetFirstItemIndex) = some K.IDC_CUT)
    (hty : m.GetTypeAt ((i : Int) + m.GetFirstItemIndex) ≠ some .TYPE_SUBMENU)
    (hbad : ¬ (i + 2 < m.GetItemCount ∧
      m.GetCommandIdAt ((i : Int) + m.GetFirstItemIndex + 1) = some K.IDC_COPY ∧
      m.GetCommandIdAt ((i : Int) + m.GetFirstItemIndex + 2) = some K.IDC_PASTE))
    (fuel : Nat) (w : WrenchMenu) (parent n : Int) :
    PopulateMenuFrom cfg K (fuel + 1) w parent m i n = .error .DCHECK := by
  have hs := MenuModel.itemAt_of_command m _ _ hcut
  obtain ⟨x, hitem⟩ := Option.isSome_iff_exists.1 hs
  have hx : m.items[i]? = some x := by rw [← MenuModel.itemAt_nat]; exact hitem
  obtain ⟨d, sub⟩ := x
  have hi : i < m.GetItemCount := (List.getElem?_eq_some.1 hx).1
  have hc := MenuModel.GetCommandIdAt_nat m i d sub hx
  have ht := MenuModel.GetTypeAt_nat m i d sub hx
  have hdc : d.command_id = K.IDC_CUT := by
    rw [hc] at hcut; exact Option.some.inj hcut
  have hdt : d.type ≠ .TYPE_SUBMENU := by
    rw [ht] at hty; exact fun hh => hty (by rw [hh])
  obtain ⟨wa, ha, _, _⟩ := AppendMenuItem_wa cfg w parent m _ d.type n
    (if cfg.is_touch && (decide (d.command_id = K.IDC_CUT) ||
      decide (d.command_id = K.IDC_ZOOM_MINUS)) then kTouchItemHeight else 0) _ hitem
  have hsw := populateSwitch_cut_malformed cfg K fuel wa m i n d sub hd hx hdc hbad
  unfold PopulateMenuFrom
  simp only [if_pos hi, hc, ht, query, bind, Except.bind, ha, if_neg hdt, pure, Except.pure, hsw]

end WrenchMenu

namespace WrenchMenu

theorem PopulateMenuFrom_end (cfg : Config) (K : CommandIds) (fuel : Nat) (u : WrenchMenu)
    (parent : Int) (m : MenuModel) (i : Nat) (n : Int) (r : Int × WrenchMenu)
    (hi : m.GetItemCount ≤ i) (h : PopulateMenuFrom cfg K fuel u parent m i n = .ok r) :
    r = (n, u) := by
  cases fuel with
  | zero => simp [PopulateMenuFrom] at h
  | succ fuel =>
    unfold PopulateMenuFrom at h
    simp only [if_neg (by omega : ¬ i < m.GetItemCount), Except.ok.injEq] at h
    exact h.symm

/-- One iteration of the loop of `PopulateMenu` at an item that is not a
submenu: it takes one identifier, appends one view, and goes on three
positions further at a triple head and one position further otherwise. -/
theorem PopulateMenuFrom_flat_step (cfg : Config) (K : CommandIds) (fuel : Nat)
    (u : WrenchMenu) (parent : Int) (m : MenuModel) (i : Nat) (n : Int)
    (r : Int × WrenchMenu) (hf : u.Fresh n) (d : ItemData) (sub : Option MenuModel)
    (hx : m.items[i]? = some (d, sub)) (hty : d.type ≠ .TYPE_SUBMENU)
    (h : PopulateMenuFrom cfg K fuel u parent m i n = .ok r) :
    ∃ (fuel0 : Nat) (v : MenuItemView) (u2 : WrenchMenu) (i2 : Nat), fuel = fuel0 + 1 ∧
      v.command = n ∧ v.model = m ∧ v.index = (i : Int) + m.GetFirstItemIndex ∧
      (d.command_id = K.IDC_CUT →
        ∃ view : CutCopyPasteView, v.child_views = [.cut_copy_paste view] ∧
          view.menu_model_ = m ∧
          (view.children.map fun b => b.tag) =
            [(i : Int) + m.GetFirstItemIndex, (i : Int) + m.GetFirstItemIndex + 1,
              (i : Int) + m.GetFirstItemIndex + 2]) ∧
      (d.command_id ≠ K.IDC_CUT → d.command_id ≠ K.IDC_ZOOM_MINUS → v.child_views = []) ∧
      ((d.command_id = K.IDC_CUT ∨ d.command_id = K.IDC_ZOOM_MINUS) → i2 = i + 3) ∧
      (d.command_id ≠ K.IDC_CUT → d.command_id ≠ K.IDC_ZOOM_MINUS → i2 = i + 1) ∧
      u2.Fresh (n + 1) ∧ u2.menu_items = u.menu_items ++ [v] ∧
      PopulateMenuFrom cfg K fuel0 u2 parent m i2 (n + 1) = .ok r := by
  have hi : i < m.GetItemCount := (List.getElem?_eq_some.1 hx).1
  cases fuel with
  | zero => simp [PopulateMenuFrom] at h
  | succ fuel =>
    obtain ⟨d', sub', v0, v0', wa, w1, w2, n1, i2, new_sub, new_rest, hx', _,
      ⟨hv1', hv3', hv4'⟩, hcase, _, _, hsub, hw1, _, _, f3, hw2, hrest, _⟩ :=
      PopulateMenuFrom_step cfg K fuel u parent m i n r hf hi h
    rw [hx] at hx'
    simp only [Option.some.injEq, Prod.mk.injEq] at hx'
    obtain ⟨hd, hs⟩ := hx'
    subst hd hs
    rcases hsub with ⟨hsm, _⟩ | ⟨_, hn1, hw1eq⟩
    · exact absurd hsm hty
    · have hnil := new_sub_nil hw1eq hw1
      rw [hnil, List.append_nil] at hw2
      subst hn1
      refine ⟨fuel, v0', w2, i2 + 1, rfl, hv1', hv3', hv4', ?_, ?_, ?_, ?_, f3, hw2, hrest⟩
      · intro hcut
        rcases hcase with ⟨_, _, view, hview, hcv⟩ | ⟨hne, _⟩ | ⟨hne, _⟩
        · obtain ⟨hm, ht⟩ := CutCopyPasteView_create_ok _ _ _ _ _ _ hview
          exact ⟨view, hcv, hm, ht⟩
        · exact absurd hcut hne
        · exact absurd hcut hne
      · intro h1 h2
        rcases hcase with ⟨heq, _⟩ | ⟨_, heq, _⟩ | ⟨_, _, _, hcv⟩
        · exact absurd heq h1
        · exact absurd heq h2
        · exact hcv
      · intro hhead
        rcases hcase with ⟨_, hi2, _⟩ | ⟨_, _, hi2, _⟩ | ⟨h1, h2, _⟩
        · omega
        · omega
        · rcases hhead with hh | hh
          · exact absurd hh h1
          · exact absurd hh h2
      · intro h1 h2
        rcases hcase with ⟨heq, _⟩ | ⟨_, heq, _⟩ | ⟨_, _, hi2, _⟩
        · exact absurd heq h1
        · exact absurd heq h2
        · omega

theorem scenario_wellFormed (K : CommandIds) (hK : K.Distinct) (h10 : (10 : Int) ∉ K.all)
    (h20 : (20 : Int) ∉ K.all) : (scenarioModel K).WellFormed K := by
  unfold CommandIds.Distinct at hK
  unfold CommandIds.all at hK h10 h20
  simp only [List.nodup_cons, List.mem_cons, List.mem_singleton, not_or, List.not_mem_nil,
    not_false_eq_true, List.nodup_nil, and_true] at hK h10 h20
  obtain ⟨⟨k1, k2, k3, k4, k5, k6, k7⟩, ⟨k8, k9, k10, k11, k12, k13⟩, ⟨k14, k15, k16, k17, k18⟩,
    _⟩ := hK
  obtain ⟨a1, a2, a3, a4, a5, a6, a7, a8⟩ := h10
  obtain ⟨b1, b2, b3, b4, b5, b6, b7, b8⟩ := h20
  refine ⟨?_, ?_, ?_⟩
  · intro m hm
    simp only [scenarioModel, MenuModel.subtree, subtreeItems, commandItem, List.mem_singleton,
      List.mem_cons, List.not_mem_nil, or_false] at hm
    subst hm
    intro j hj
    have hj' : j = 0 ∨ j = 1 ∨ j = 2 ∨ j = 3 ∨ j = 4 := by
      simp only [MenuModel.GetItemCount, MenuModel.items, List.length_cons, List.length_nil] at hj
      omega
    rcases hj' with rfl | rfl | rfl | rfl | rfl <;>
      simp [MenuModel.GetCommandIdAt, MenuModel.GetTypeAt, MenuModel.GetSubmenuModelAt,
        MenuModel.itemAt, MenuModel.GetFirstItemIndex, MenuModel.items, MenuModel.GetItemCount,
        a1, a4, b1, b4, k3, Ne.symm k1, Ne.symm k2, k9, k14]
  · simp [scenarioModel, MenuModel.subtree, subtreeItems, commandItem, MenuModel.countCommand,
      MenuModel.items, List.filter, a7, b7, k6, k12, k17]
  · simp [scenarioModel, MenuModel.subtree, subtreeItems, commandItem, MenuModel.countCommand,
      MenuModel.items, List.filter, a8, b8, k7, k13, k18]

end WrenchMenu

namespace WrenchMenu

theorem scenario_noZoomRow (K : CommandIds) (hK : K.Distinct) (h10 : (10 : Int) ∉ K.all)
    (h20 : (20 : Int) ∉ K.all) : (scenarioModel K).NoZoomRow K := by
  unfold CommandIds.Distinct at hK
  unfold CommandIds.all at hK h10 h20
  simp only [List.nodup_cons, List.mem_cons, List.mem_singleton, not_or, List.not_mem_nil,
    not_false_eq_true, List.nodup_nil, and_true] at hK h10 h20
  obtain ⟨⟨k1, k2, k3, _⟩, ⟨k8, k9, _⟩, ⟨k14, _⟩, _⟩ := hK
  obtain ⟨a1, a2, a3, a4, _⟩ := h10
  obtain ⟨b1, b2, b3, b4, _⟩ := h20
  intro m hm
  simp only [scenarioModel, MenuModel.subtree, subtreeItems, commandItem, List.mem_singleton,
    List.mem_cons, List.not_mem_nil, or_false] at hm
  subst hm
  simp [MenuModel.countCommand, MenuModel.items, List.filter, a4, b4, k3, k9, k14]

/-- The views `Init` makes for the scenario model. -/
theorem scenario_run (cfg : Config) (K : CommandIds) (fuel : Nat) (w w' : WrenchMenu)
    (h10 : (10 : Int) ∉ K.all) (h20 : (20 : Int) ∉ K.all)
    (hw : w.Unpopulated) (h : Init cfg K fuel w (scenarioModel K) = .ok w') :
    ∃ v1 v2 v3 : MenuItemView, w'.menu_items = [v1, v2, v3] ∧
      v1.command = 1 ∧ v1.model = scenarioModel K ∧ v1.index = 0 ∧
      v2.command = 2 ∧ v2.model = scenarioModel K ∧ v2.index = 1 ∧
      (∃ view : CutCopyPasteView, v2.child_views = [.cut_copy_paste view] ∧
        view.menu_model_ = scenarioModel K ∧ (view.children.map fun b => b.tag) = [1, 2, 3]) ∧
      v3.command = 3 ∧ v3.model = scenarioModel K ∧ v3.index = 4 := by
  have a1 : (10 : Int) ≠ K.IDC_CUT := fun hh => h10 (by rw [hh]; simp [CommandIds.all])
  have a4 : (10 : Int) ≠ K.IDC_ZOOM_MINUS := fun hh => h10 (by rw [hh]; simp [CommandIds.all])
  have b1 : (20 : Int) ≠ K.IDC_CUT := fun hh => h20 (by rw [hh]; simp [CommandIds.all])
  have b4 : (20 : Int) ≠ K.IDC_ZOOM_MINUS := fun hh => h20 (by rw [hh]; simp [CommandIds.all])
  obtain ⟨n', w1, hp, hw'⟩ := Init_ok _ _ _ _ _ _ h
  unfold PopulateMenu at hp
  have hcount : (scenarioModel K).GetItemCount = 5 := rfl
  have hfirst : (scenarioModel K).GetFirstItemIndex = 0 := rfl
  obtain ⟨f1, v1, u1, i1, _, hv1c, hv1m, hv1i, _, _, _, hi1, fr1, hu1, hr1⟩ :=
    PopulateMenuFrom_flat_step cfg K fuel _ 0 (scenarioModel K) 0 1 (n', w1) hw.fresh_one
      (commandItem 10).1 (commandItem 10).2 rfl (by simp [commandItem]) hp
  have hi1' : i1 = 1 := by simpa using hi1 a1 a4
  rw [hi1'] at hr1
  obtain ⟨f2, v2, u2, i2, _, hv2c, hv2m, hv2i, hv2v, _, hi2, _, fr2, hu2, hr2⟩ :=
    PopulateMenuFrom_flat_step cfg K f1 u1 0 (scenarioModel K) 1 (1 + 1) (n', w1) fr1
      (commandItem K.IDC_CUT).1 (commandItem K.IDC_CUT).2 rfl (by simp [commandItem]) hr1
  have hi2' : i2 = 4 := by simpa using hi2 (Or.inl rfl)
  rw [hi2'] at hr2
  obtain ⟨f3, v3, u3, i3, _, hv3c, hv3m, hv3i, _, _, _, hi3, fr3, hu3, hr3⟩ :=
    PopulateMenuFrom_flat_step cfg K f2 u2 0 (scenarioModel K) 4 (1 + 1 + 1) (n', w1) fr2
      (commandItem 20).1 (commandItem 20).2 rfl (by simp [commandItem]) hr2
  have hi3' : i3 = 5 := by simpa using hi3 b1 b4
  rw [hi3'] at hr3
  have hend := PopulateMenuFrom_end cfg K f3 u3 0 (scenarioModel K) 5 _ _ (by rw [hcount]) hr3
  simp only [Prod.mk.injEq] at hend
  obtain ⟨view, hcv, hvm, htags⟩ := hv2v rfl
  rw [hfirst] at hv1i hv2i hv3i htags
  refine ⟨v1, v2, v3, ?_, hv1c, hv1m, by simpa using hv1i, by rw [hv2c]; rfl, hv2m,
    by simpa using hv2i, ⟨view, hcv, hvm, by simpa using htags⟩, by rw [hv3c]; rfl, hv3m,
    by simpa using hv3i⟩
  rw [hw']
  simp only
  rw [hend.2, hu3, hu2, hu1]
  rfl

end WrenchMenu

namespace WrenchMenu

theorem MenuModel.GetCommandIdAt_past_end (m : MenuModel) (j : Nat) (h : m.GetItemCount ≤ j) :
    m.GetCommandIdAt ((j : Int) + m.GetFirstItemIndex) = none := by
  unfold MenuModel.GetItemCount at h
  simp [MenuModel.GetCommandIdAt, MenuModel.itemAt_nat, List.getElem?_eq_none h]

/-- With DCHECKs on, the switch statement at an `IDC_ZOOM_MINUS` item of type
command that is the last item of its model, or the item before the last and
followed by `IDC_ZOOM_PLUS`, asks the model for the command identifier of an
index past its end. -/
theorem populateSwitch_zoom_short (cfg : Config) (K : CommandIds) (fuel : Nat)
    (w : WrenchMenu) (m : MenuModel) (i : Nat) (item : Int) (d : ItemData)
    (sub : Option MenuModel) (hd : cfg.dcheck_is_on = true)
    (hx : m.items[i]? = some (d, sub)) (hz : d.command_id = K.IDC_ZOOM_MINUS)
    (hne : K.IDC_ZOOM_MINUS ≠ K.IDC_CUT) (hty : d.type = .TYPE_COMMAND)
    (hshort : i + 1 = m.GetItemCount ∨ (i + 2 = m.GetItemCount ∧
      m.GetCommandIdAt ((i : Int) + m.GetFirstItemIndex + 1) = some K.IDC_ZOOM_PLUS)) :
    populateSwitch cfg K fuel w m i m.GetItemCount ((i : Int) + m.GetFirstItemIndex) item
      = .error .OUT_OF_RANGE := by
  have hc := MenuModel.GetCommandIdAt_nat m i d sub hx
  have ht := MenuModel.GetTypeAt_nat m i d sub hx
  have hnc : ¬ d.command_id = K.IDC_CUT := by rw [hz]; exact hne
  have e1 : (i : Int) + m.GetFirstItemIndex + 1 = ((i + 1 : Nat) : Int) + m.GetFirstItemIndex := by
    push_cast; ring
  have e2 : (i : Int) + m.GetFirstItemIndex + 2 = ((i + 2 : Nat) : Int) + m.GetFirstItemIndex := by
    push_cast; ring
  unfold populateSwitch
  simp only [hc, query, bind, Except.bind, if_neg hnc, if_pos hz, hd, dcheckTypeAt, ht, if_true,
    hty, pure, Except.pure, dcheckCommandIdAt]
  rcases hshort with h1 | ⟨h2, hplus⟩
  · have hnone : m.GetCommandIdAt ((i : Int) + m.GetFirstItemIndex + 1) = none := by
      rw [e1]; exact MenuModel.GetCommandIdAt_past_end m (i + 1) (by omega)
    simp only [hnone]
  · have hnone : m.GetCommandIdAt ((i : Int) + m.GetFirstItemIndex + 2) = none := by
      rw [e2]; exact MenuModel.GetCommandIdAt_past_end m (i + 2) (by omega)
    simp only [hplus, hnone, if_true]

/-- With DCHECKs on, the iteration at such an `IDC_ZOOM_MINUS` item stops with
the model queried past its end. -/
theorem PopulateMenuFrom_zoom_short_here (cfg : Config) (K : CommandIds)
    (hd : cfg.dcheck_is_on = true) (hne : K.IDC_ZOOM_MINUS ≠ K.IDC_CUT) (m : MenuModel) (i : Nat)
    (hzoom : m.GetCommandIdAt ((i : Int) + m.GetFirstItemIndex) = some K.IDC_ZOOM_MINUS)
    (hty : m.GetTypeAt ((i : Int) + m.GetFirstItemIndex) = some .TYPE_COMMAND)
    (hshort : i + 1 = m.GetItemCount ∨ (i + 2 = m.GetItemCount ∧
      m.GetCommandIdAt ((i : Int) + m.GetFirstItemIndex + 1) = some K.IDC_ZOOM_PLUS))
    (fuel : Nat) (w : WrenchMenu) (parent n : Int) :
    PopulateMenuFrom cfg K (fuel + 1) w parent m i n = .error .OUT_OF_RANGE := by
  have hs := MenuModel.itemAt_of_command m _ _ hzoom
  obtain ⟨x, hitem⟩ := Option.isSome_iff_exists.1 hs
  have hx : m.items[i]? = some x := by rw [← MenuModel.itemAt_nat]; exact hitem
  obtain ⟨d, sub⟩ := x
  have hi : i < m.GetItemCount := (List.getElem?_eq_some.1 hx).1
  have hc := MenuModel.GetCommandIdAt_nat m i d sub hx
  have ht := MenuModel.GetTypeAt_nat m i d sub hx
  have hdc : d.command_id = K.IDC_ZOOM_MINUS := by
    rw [hc] at hzoom; exact Option.some.inj hzoom
  have hdt : d.type = .TYPE_COMMAND := by
    rw [ht] at hty; exact Option.some.inj hty
  have hdt2 : d.type ≠ .TYPE_SUBMENU := by rw [hdt]; decide
  obtain ⟨wa, ha, _, _⟩ := AppendMenuItem_wa cfg w parent m _ d.type n
    (if cfg.is_touch && (decide (d.command_id = K.IDC_CUT) ||
      decide (d.command_id = K.IDC_ZOOM_MINUS)) then kTouchItemHeight else 0) _ hitem
  have hsw := populateSwitch_zoom_short cfg K fuel wa m i n d sub hd hx hdc hne hdt hshort
  unfold PopulateMenuFrom
  simp only [if_pos hi, hc, ht, query, bind, Except.bind, ha, if_neg hdt2, pure, Except.pure, hsw]

end WrenchMenu

namespace WrenchMenu

/-- An entry of the table `Init` builds names an item of its model. -/
theorem Init_entry_in_model (cfg : Config) (K : CommandIds) (fuel : Nat) (w : WrenchMenu)
    (root : MenuModel) (w' : WrenchMenu) (hw : w.Unpopulated)
    (h : Init cfg K fuel w root = .ok w') (id : Int) (model : MenuModel) (index : Int)
    (hfind : IDToEntry.find w'.id_to_entry_ id = some (model, index)) :
    (model.itemAt index).isSome = true := by
  obtain ⟨hc, _, htab, hkeys, hok, _⟩ := Init_effect cfg K fuel w root w' hw h
  obtain ⟨hk1, hk2⟩ := hkeys id _ hfind
  have hmem : id ∈ w'.menu_items.map (fun v => v.command) := by
    rw [consecutiveFrom_mem _ _ hc]
    simp only [List.length_map]
    omega
  obtain ⟨v, hv, hvc⟩ := List.mem_map.1 hmem
  have hsrc := htab v hv
  rw [hvc, hfind] at hsrc
  have hsrc' := Option.some.inj hsrc
  simp only [Prod.mk.injEq] at hsrc'
  have hin := (hok v hv).1
  rw [← hsrc'.1, ← hsrc'.2] at hin
  exact hin

/-- What `GetAccelerator` returns for an identifier that is not a bookmark
command and whose entry names an item of its model. -/
theorem GetAccelerator_entry (K : CommandIds) (w : WrenchMenu) (id : Int) (model : MenuModel)
    (index : Int) (x : ItemData × Option MenuModel) (out : Accelerator)
    (hb : w.is_bookmark_command id = false)
    (hfind : IDToEntry.find w.id_to_entry_ id = some (model, index))
    (hx : model.itemAt index = some x) :
    GetAccelerator K w id out = .ok
      (if x.1.command_id = K.IDC_CUT ∨ x.1.command_id = K.IDC_ZOOM_MINUS then (false, out, w)
       else
        match x.1.accelerator with
        | none => (false, out, w)
        | some a => (true, { key_code := a.key_code, modifiers := a.modifiers }, w)) := by
  unfold GetAccelerator
  simp only [hb, Bool.false_eq_true, if_false, hfind, MenuModel.GetCommandIdAt,
    MenuModel.GetAcceleratorAt, hx, Option.map]
  by_cases h1 : x.1.command_id = K.IDC_CUT
  · simp [h1]
  · by_cases h2 : x.1.command_id = K.IDC_ZOOM_MINUS
    · simp [h2]
    · cases ha : x.1.accelerator <;> simp [h1, h2]

end WrenchMenu

namespace WrenchMenu

theorem CancelAndEvaluate_ok (w : WrenchMenu) (model : MenuModel) (index : Int)
    (root : RootView) (hroot : w.root_ = some root) :
    CancelAndEvaluate w model index = .ok
      { w with selected_menu_model_ := some model, selected_index_ := index,
               root_ := some { root with cancel_calls := root.cancel_calls + 1 } } := by
  unfold CancelAndEvaluate
  simp only [hroot]

theorem CancelAndEvaluate_inv (w : WrenchMenu) (model : MenuModel) (index : Int)
    (w1 : WrenchMenu) (h : CancelAndEvaluate w model index = .ok w1) :
    ∃ root, w.root_ = some root ∧ w1 =
      { w with selected_menu_model_ := some model, selected_index_ := index,
               root_ := some { root with cancel_calls := root.cancel_calls + 1 } } := by
  cases hroot : w.root_ with
  | none =>
    unfold CancelAndEvaluate at h
    simp only [hroot] at h
    cases h
  | some root =>
    rw [CancelAndEvaluate_ok w model index root hroot] at h
    exact ⟨root, rfl, (Except.ok.inj h).symm⟩

theorem CancelAndEvaluate_selection (w : WrenchMenu) (model : MenuModel) (index : Int)
    (w1 : WrenchMenu) (h : CancelAndEvaluate w model index = .ok w1) :
    w1.selection = some (model, index) := by
  obtain ⟨root, _, hw1⟩ := CancelAndEvaluate_inv w model index w1 h
  rw [hw1]
  rfl

theorem ExecuteCommand_selection (K : CommandIds) (w : WrenchMenu) (id flags : Int)
    (w1 : WrenchMenu) (h : ExecuteCommand K w id flags = .ok w1) :
    w1.selection = w.selection := by
  unfold ExecuteCommand at h
  by_cases hb : w.is_bookmark_command id = true
  · rw [if_pos hb] at h
    rw [← Except.ok.inj h]
    rfl
  · rw [if_neg hb] at h
    cases hfind : IDToEntry.find w.id_to_entry_ id with
    | none => rw [hfind] at h; cases h
    | some entry =>
      rw [hfind] at h
      simp only at h
      obtain ⟨c, _, h2⟩ := (bind_ok _ _ _).1 h
      by_cases hc : (decide (c = K.IDC_CUT) || decide (c = K.IDC_ZOOM_MINUS)) = true
      · rw [if_pos hc] at h2
        rw [← Except.ok.inj h2]
      · rw [if_neg hc] at h2
        rw [← Except.ok.inj h2]
        rfl

theorem Observe_selection (cfg : Config) (w : WrenchMenu) (type : NotificationType)
    (w1 : WrenchMenu) (h : Observe cfg w type = .ok w1) : w1.selection = w.selection := by
  unfold Observe at h
  cases type with
  | NOTIFICATION_GLOBAL_ERRORS_CHANGED =>
    simp only at h
    cases hroot : w.root_ with
    | none => rw [hroot] at h; cases h
    | some root =>
      rw [hroot] at h
      rw [← Except.ok.inj h]
      rfl
  | OTHER =>
    simp only at h
    cases hd : dcheck cfg.dcheck_is_on false with
    | error e => rw [hd] at h; cases h
    | ok u =>
      rw [hd] at h
      rw [← Except.ok.inj h]

theorem CreateBookmarkMenu_selection (w : WrenchMenu) (bookmark_model : Option Bool)
    (r : WrenchMenu × Option Int) (h : CreateBookmarkMenu w bookmark_model = .ok r) :
    r.1.selection = w.selection := by
  unfold CreateBookmarkMenu at h
  by_cases hb : w.bookmark_menu_delegate_ = true
  · rw [if_pos hb] at h
    rw [← Except.ok.inj h]
  · rw [if_neg hb] at h
    match bookmark_model, h with
    | none, h => cases h
    | some false, h => rw [← Except.ok.inj h]
    | some true, h => rw [← Except.ok.inj h]; rfl

end WrenchMenu

/-- A toolkit call leaves the selection alone unless it leads to
`CancelAndEvaluate`, which sets it to the arguments of that call. -/
theorem Callback.deliver_selection (cfg : Config) (K : CommandIds) (w w1 : WrenchMenu)
    (c : Callback) (h : c.deliver cfg K w = .ok w1) :
    w1.selection = (match c.cancelRequest with | some e => some e | none => w.selection) := by
  cases c with
  | ExecuteCommand id flags =>
    exact WrenchMenu.ExecuteCommand_selection K w id flags w1 h
  | CutCopyPasteButtonPressed view tag =>
    exact WrenchMenu.CancelAndEvaluate_selection w view.menu_model_ tag w1 h
  | ZoomButtonPressed view tag =>
    simp only [Callback.deliver, ZoomView.ButtonPressed] at h
    simp only [Callback.cancelRequest]
    by_cases ht : tag = view.fullscreen_index_
    · rw [if_pos ht] at h
      rw [if_pos ht]
      exact WrenchMenu.CancelAndEvaluate_selection w view.menu_model_ tag w1 h
    · rw [if_neg ht] at h
      rw [if_neg ht, ← Except.ok.inj h]
      rfl
  | Observe type =>
    exact WrenchMenu.Observe_selection cfg w type w1 h
  | WillShowBookmarkMenu bookmark_model =>
    simp only [Callback.deliver] at h
    cases hc : w.CreateBookmarkMenu bookmark_model with
    | error e => rw [hc] at h; cases h
    | ok r =>
      rw [hc] at h
      rw [← Except.ok.inj h]
      exact WrenchMenu.CreateBookmarkMenu_selection w bookmark_model r hc

/-- After a sequence of toolkit calls the selection is the pair of the last
call of `CancelAndEvaluate`. -/
theorem Callback.deliverAll_selection (cfg : Config) (K : CommandIds) :
    ∀ (during : List Callback) (w w1 : WrenchMenu),
      Callback.deliverAll cfg K w during = .ok w1 →
      w1.selection = lastCancelRequest w.selection during := by
  intro during
  induction during with
  | nil =>
    intro w w1 h
    simp only [Callback.deliverAll] at h
    rw [← Except.ok.inj h]
    rfl
  | cons c rest ih =>
    intro w w1 h
    simp only [Callback.deliverAll] at h
    cases hc : c.deliver cfg K w with
    | error e => rw [hc] at h; cases h
    | ok w2 =>
      rw [hc] at h
      simp only at h
      have h2 := ih w2 w1 h
      rw [h2, Callback.deliver_selection cfg K w w2 c hc]
      rfl

theorem lastCancelRequest_none (before : Option (MenuModel × Int)) :
    ∀ during : List Callback, (∀ c ∈ during, c.cancelRequest = none) →
      lastCancelRequest before during = before := by
  intro during
  induction during with
  | nil => intro _; rfl
  | cons c rest ih =>
    intro h
    have hc := h c (List.mem_cons_self _ _)
    simp only [lastCancelRequest, hc]
    exact ih fun c' hc' => h c' (List.mem_cons_of_mem _ hc')

theorem Except.isOk_iff {α : Type} (x : Except Fault α) :
    x.isOk = true ↔ ∃ a, x = .ok a := by
  cases x <;> simp [Except.isOk, Except.toBool]

theorem IDToEntry.find_of_mem (t : IDToEntry) (p : Int × Entry) (h : p ∈ t) :
    ∃ e, IDToEntry.find t p.1 = some e := by
  induction t with
  | nil => cases h
  | cons q rest ih =>
    obtain ⟨k, e⟩ := q
    by_cases hk : k = p.1
    · exact ⟨e, by simp [IDToEntry.find, hk]⟩
    · rcases List.mem_cons.1 h with hp | hp
      · rw [hp] at hk
        exact absurd rfl hk
      · obtain ⟨e', he'⟩ := ih hp
        exact ⟨e', by simp [IDToEntry.find, hk, he']⟩

namespace WrenchMenu

theorem Observe_ok (cfg : Config) (w : WrenchMenu) (root : RootView) (hroot : w.root_ = some root) :
    Observe cfg w .NOTIFICATION_GLOBAL_ERRORS_CHANGED =
      .ok { w with root_ := some { root with cancel_calls := root.cancel_calls + 1 } } := by
  unfold Observe
  simp only [hroot]

theorem Observe_null_root (cfg : Config) (w : WrenchMenu) (hroot : w.root_ = none) :
    Observe cfg w .NOTIFICATION_GLOBAL_ERRORS_CHANGED = .error .UNDEFINED := by
  unfold Observe
  simp only [hroot]

/-- With DCHECKs on, `Init` on a menu that has a root view stops at
`DCHECK(!root_)`. -/
theorem Init_populated_dcheck (cfg : Config) (K : CommandIds) (fuel : Nat) (w : WrenchMenu)
    (model : MenuModel) (root : RootView) (hd : cfg.dcheck_is_on = true)
    (hroot : w.root_ = some root) : Init cfg K fuel w model = .error .DCHECK := by
  unfold Init
  simp [dcheck, hd, hroot, bind, Except.bind]

end WrenchMenu

namespace WrenchMenu

/-- What `IsCommandEnabled` returns for an identifier that is not 0, is not a
bookmark command and whose entry names an item of its model. -/
theorem IsCommandEnabled_entry (K : CommandIds) (w : WrenchMenu) (id : Int) (model : MenuModel)
    (index : Int) (x : ItemData × Option MenuModel)
    (hb : w.is_bookmark_command id = false) (h0 : id ≠ 0)
    (hfind : IDToEntry.find w.id_to_entry_ id = some (model, index))
    (hx : model.itemAt index = some x) :
    IsCommandEnabled K w id = .ok (if x.1.command_id = K.IDC_CUT then true else x.1.enabled) := by
  unfold IsCommandEnabled
  simp only [hb, Bool.false_eq_true, if_false, if_neg h0, hfind, MenuModel.GetCommandIdAt,
    MenuModel.IsEnabledAt, hx, Option.map, query]
  by_cases h1 : x.1.command_id = K.IDC_CUT
  · simp [h1]
  · simp [h1]

end WrenchMenu

/-- With step 0 the sampling loop never leaves a position at or below the
maximum. -/
theorem zoomLabelLoop_step_zero (width : Int → Int) (max_percent : Int) :
    ∀ (fuel : Nat) (i max_w : Int), i ≤ max_percent →
      zoomLabelLoop width max_percent 0 fuel i max_w = .error .OUT_OF_FUEL := by
  intro fuel
  induction fuel with
  | zero => intro i max_w _; rfl
  | succ fuel ih =>
    intro i max_w hi
    unfold zoomLabelLoop
    rw [if_pos hi, Int.add_zero]
    exact ih i _ hi

/-- With a positive step, the loop that has exactly `j` positions left at or
below the maximum returns after `j + 1` tests of its condition and not after
`j`. -/
theorem zoomLabelLoop_exact (width : Int → Int) (max_percent step : Int) (hs : 0 < step) :
    ∀ (j : Nat) (i max_w : Int), max_percent < i + j * step →
      (j = 0 ∨ i + ((j : Int) - 1) * step ≤ max_percent) →
      (∃ r, zoomLabelLoop width max_percent step (j + 1) i max_w = .ok r) ∧
        zoomLabelLoop width max_percent step j i max_w = .error .OUT_OF_FUEL := by
  intro j
  induction j with
  | zero =>
    intro i max_w h1 _
    have : ¬ i ≤ max_percent := by simp at h1; omega
    exact ⟨⟨max_w, by simp [zoomLabelLoop, this]⟩, rfl⟩
  | succ j ih =>
    intro i max_w h1 h2
    have e1 : ((j + 1 : Nat) : Int) * step = j * step + step := by push_cast; ring
    have e2 : (((j + 1 : Nat) : Int) - 1) * step = j * step := by push_cast; ring
    rw [e1] at h1
    have h2' : i + (j : Int) * step ≤ max_percent := by
      rcases h2 with h | h
      · omega
      · rw [e2] at h; exact h
    have hjs : 0 ≤ (j : Int) * step := Int.mul_nonneg (Int.ofNat_nonneg j) (le_of_lt hs)
    have hi : i ≤ max_percent := by omega
    have hih := ih (i + step) (max (width i) max_w) (by omega) (by
      by_cases hj : j = 0
      · exact Or.inl hj
      · right
        have e3 : i + step + ((j : Int) - 1) * step = i + (j : Int) * step := by ring
        rw [e3]; exact h2')
    constructor
    · obtain ⟨r, hr⟩ := hih.1
      refine ⟨r, ?_⟩
      rw [← hr]
      conv_lhs => unfold zoomLabelLoop
      rw [if_pos hi]
    · conv_lhs => unfold zoomLabelLoop
      rw [if_pos hi]
      exact hih.2

/-- With a positive step the result of the loop is the largest of the start
value and the widths at the positions `i, i + step, ...` at or below the
maximum. -/
theorem zoomLabelLoop_max (width : Int → Int) (max_percent step : Int) (hs : 0 < step) :
    ∀ (fuel : Nat) (i max_w r : Int),
      zoomLabelLoop width max_percent step fuel i max_w = .ok r →
      max_w ≤ r ∧
      (∀ t : Nat, i + t * step ≤ max_percent → width (i + t * step) ≤ r) ∧
      (r = max_w ∨ ∃ t : Nat, i + t * step ≤ max_percent ∧ r = width (i + t * step)) := by
  intro fuel
  induction fuel with
  | zero => intro i max_w r h; cases h
  | succ fuel ih =>
    intro i max_w r h
    unfold zoomLabelLoop at h
    by_cases hi : i ≤ max_percent
    · rw [if_pos hi] at h
      obtain ⟨h1, h2, h3⟩ := ih _ _ _ h
      refine ⟨le_trans (le_max_right _ _) h1, ?_, ?_⟩
      · intro t ht
        cases t with
        | zero =>
          simp only [Nat.cast_zero, zero_mul, add_zero]
          exact le_trans (le_max_left _ _) h1
        | succ t =>
          have e : i + ((t + 1 : Nat) : Int) * step = i + step + t * step := by push_cast; ring
          rw [e] at ht ⊢
          exact h2 t ht
      · rcases h3 with h3 | ⟨t, ht, hr⟩
        · rcases max_choice (width i) max_w with hm | hm
          · right
            refine ⟨0, by simpa using hi, ?_⟩
            rw [h3, hm]; simp
          · left; rw [h3, hm]
        · right
          have e : i + ((t + 1 : Nat) : Int) * step = i + step + t * step := by push_cast; ring
          exact ⟨t + 1, by rw [e]; exact ht, by rw [e]; exact hr⟩
    · rw [if_neg hi] at h
      have hr : r = max_w := (Except.ok.inj h).symm
      refine ⟨by rw [hr], ?_, Or.inl hr⟩
      intro t ht
      have : 0 ≤ (t : Int) * step := Int.mul_nonneg (Int.ofNat_nonneg t) (le_of_lt hs)
      omega

/-- With a selected tab, `MaxWidthForZoomLabel` is the sampling loop plus the
width of the insets. -/
theorem MaxWidthForZoomLabel_tab (cfg : Config) (tab : WebContents)
    (htab : cfg.selected_tab = some tab) (fuel : Nat) :
    MaxWidthForZoomLabel cfg fuel =
      match zoomLabelLoop cfg.string_width tab.maximum_zoom_percent
          (Int.tdiv (tab.maximum_zoom_percent - tab.minimum_zoom_percent) 10) fuel
          tab.minimum_zoom_percent 0 with
      | .ok r => .ok (r + 2 * (if cfg.is_touch then kHorizontalTouchPadding else kHorizontalPadding))
      | .error e => .error e := by
  unfold MaxWidthForZoomLabel
  simp only [htab, bind, Except.bind, pure, Except.pure]
  cases zoomLabelLoop cfg.string_width tab.maximum_zoom_percent
    (Int.tdiv (tab.maximum_zoom_percent - tab.minimum_zoom_percent) 10) fuel
    tab.minimum_zoom_percent 0 <;> rfl

/-- For a range at least 10 wide the step is positive and the number of
positions of the loop is between 11 and 20. -/
theorem zoom_step_facts (lo hi : Int) (h : lo + 10 ≤ hi) :
    0 < Int.tdiv (hi - lo) 10 ∧
    ∃ k : Nat, 11 ≤ k ∧ k ≤ 20 ∧ hi < lo + k * Int.tdiv (hi - lo) 10 ∧
      lo + ((k : Int) - 1) * Int.tdiv (hi - lo) 10 ≤ hi := by
  have hd : 0 ≤ hi - lo := by omega
  have he : Int.tdiv (hi - lo) 10 = (hi - lo) / 10 := Int.tdiv_eq_ediv hd (by decide)
  rw [he]
  have hs : 0 < (hi - lo) / 10 := by omega
  refine ⟨hs, ?_⟩
  set s := (hi - lo) / 10 with hsdef
  have hq1 : 10 ≤ (hi - lo) / s := Int.le_ediv_of_mul_le hs (by omega)
  have hq2 : (hi - lo) / s < 20 := Int.ediv_lt_of_lt_mul hs (by omega)
  have hdm := Int.ediv_add_emod (hi - lo) s
  have hm1 := Int.emod_nonneg (hi - lo) (ne_of_gt hs)
  have hm2 := Int.emod_lt_of_pos (hi - lo) hs
  refine ⟨((hi - lo) / s).toNat + 1, by omega, by omega, ?_, ?_⟩
  · have hc : (((hi - lo) / s).toNat : Int) = (hi - lo) / s := Int.toNat_of_nonneg (by omega)
    push_cast
    rw [hc]
    nlinarith
  · have hc : (((hi - lo) / s).toNat : Int) = (hi - lo) / s := Int.toNat_of_nonneg (by omega)
    push_cast
    rw [hc]
    nlinarith

theorem tripleHeads_drop (K : CommandIds) (l : List (ItemData × Option MenuModel)) (i : Nat)
    (d : ItemData) (sub : Option MenuModel) (hx : l[i]? = some (d, sub)) :
    tripleHeads K (l.drop i) =
      (if d.command_id = K.IDC_CUT ∨ d.command_id = K.IDC_ZOOM_MINUS then 1 else 0) +
        tripleHeads K (l.drop (i + 1)) := by
  rw [drop_of_getElem? l i (d, sub) hx]
  unfold tripleHeads
  by_cases h : d.command_id = K.IDC_CUT ∨ d.command_id = K.IDC_ZOOM_MINUS
  · rw [List.filter_cons_of_pos (by simpa using h), if_pos h, List.length_cons]
    omega
  · rw [List.filter_cons_of_neg (by simpa using h), if_neg h]
    omega

theorem tripleHeads_drop_length (K : CommandIds) (l : List (ItemData × Option MenuModel))
    (i : Nat) (h : l.length ≤ i) : tripleHeads K (l.drop i) = 0 := by
  rw [List.drop_eq_nil_of_le h]
  rfl

namespace WrenchMenu

/-- On a flat model that meets the asserted conditions, the walk from loop
position `i` takes one identifier for each of the remaining items but the two
companions of every triple. -/
theorem PopulateMenuFrom_flat_count (cfg : Config) (K : CommandIds) (hK : K.Distinct)
    (m : MenuModel) (hflat : m.Flat) (hok : m.LocalOk K) :
    ∀ (fuel : Nat) (u : WrenchMenu) (parent : Int) (i : Nat) (n : Int) (r : Int × WrenchMenu),
      u.Fresh n → i ≤ m.GetItemCount →
      PopulateMenuFrom cfg K fuel u parent m i n = .ok r →
      r.1 + 2 * (tripleHeads K (m.items.drop i) : Int) + i = n + m.GetItemCount ∧
      (r.2.menu_items.length : Int) + 2 * (tripleHeads K (m.items.drop i) : Int) + i
        = u.menu_items.length + m.GetItemCount := by
  obtain ⟨f1, f2, f3, f4, f5, f6, f7, f8, _⟩ := hK.facts
  intro fuel
  induction fuel with
  | zero => intro u parent i n r _ _ h; simp [PopulateMenuFrom] at h
  | succ fuel ih =>
    intro u parent i n r hf hile h
    by_cases hi : i < m.GetItemCount
    · obtain ⟨x, hx⟩ : ∃ x, m.items[i]? = some x := ⟨_, List.getElem?_eq_getElem hi⟩
      obtain ⟨d, sub⟩ := x
      have hmem : (d, sub) ∈ m.items := by
        obtain ⟨hl, he⟩ := List.getElem?_eq_some.1 hx
        rw [← he]; exact List.getElem_mem _
      have hty : d.type ≠ .TYPE_SUBMENU := hflat _ hmem
      obtain ⟨fuel0, v, u2, i2, hfuel0, _, _, _, _, _, hhead, hplain, hf2, hitems, hrest⟩ :=
        PopulateMenuFrom_flat_step cfg K (fuel + 1) u parent m i n r hf d sub hx hty h
      have hfe : fuel0 = fuel := by omega
      subst hfe
      have hc := MenuModel.GetCommandIdAt_nat m i d sub hx
      obtain ⟨hcutok, hzoomok, _⟩ := hok i hi
      have e1 : (i : Int) + m.GetFirstItemIndex + 1 = ((i + 1 : Nat) : Int) + m.GetFirstItemIndex := by
        push_cast; ring
      have e2 : (i : Int) + m.GetFirstItemIndex + 2 = ((i + 2 : Nat) : Int) + m.GetFirstItemIndex := by
        push_cast; ring
      have hlen : (u2.menu_items.length : Int) = u.menu_items.length + 1 := by
        rw [hitems]; simp
      rw [tripleHeads_drop K m.items i d sub hx]
      by_cases hh : d.command_id = K.IDC_CUT ∨ d.command_id = K.IDC_ZOOM_MINUS
      · have hi2 := hhead hh
        subst hi2
        -- the two companions are in the model and are not triple heads
        have hcomp : i + 2 < m.GetItemCount ∧
            (∃ c1, m.GetCommandIdAt ((i : Int) + m.GetFirstItemIndex + 1) = some c1 ∧
              c1 ≠ K.IDC_CUT ∧ c1 ≠ K.IDC_ZOOM_MINUS) ∧
            (∃ c2, m.GetCommandIdAt ((i : Int) + m.GetFirstItemIndex + 2) = some c2 ∧
              c2 ≠ K.IDC_CUT ∧ c2 ≠ K.IDC_ZOOM_MINUS) := by
          rcases hh with hcut | hzoom
          · obtain ⟨_, h2, h3, h4⟩ := hcutok (by rw [hc, hcut])
            exact ⟨h2, ⟨_, h3, f1, f2⟩, ⟨_, h4, f3, f4⟩⟩
          · obtain ⟨_, h2, h3, h4⟩ := hzoomok (by rw [hc, hzoom])
            exact ⟨h2, ⟨_, h3, f5, f6⟩, ⟨_, h4, f7, f8⟩⟩
        obtain ⟨hlt, ⟨c1, hc1, hc1a, hc1b⟩, ⟨c2, hc2, hc2a, hc2b⟩⟩ := hcomp
        obtain ⟨x1, hx1⟩ : ∃ x, m.items[i + 1]? = some x :=
          ⟨_, List.getElem?_eq_getElem (by unfold MenuModel.GetItemCount at hlt; omega)⟩
        obtain ⟨x2, hx2⟩ : ∃ x, m.items[i + 2]? = some x :=
          ⟨_, List.getElem?_eq_getElem (by unfold MenuModel.GetItemCount at hlt; omega)⟩
        have hd1 := MenuModel.GetCommandIdAt_nat m (i + 1) x1.1 x1.2 hx1
        have hd2 := MenuModel.GetCommandIdAt_nat m (i + 2) x2.1 x2.2 hx2
        rw [← e1, hc1] at hd1
        rw [← e2, hc2] at hd2
        have hn1 : ¬ (x1.1.command_id = K.IDC_CUT ∨ x1.1.command_id = K.IDC_ZOOM_MINUS) := by
          rw [← Option.some.inj hd1]; exact fun hh' => hh'.elim hc1a hc1b
        have hn2 : ¬ (x2.1.command_id = K.IDC_CUT ∨ x2.1.command_id = K.IDC_ZOOM_MINUS) := by
          rw [← Option.some.inj hd2]; exact fun hh' => hh'.elim hc2a hc2b
        rw [tripleHeads_drop K m.items (i + 1) x1.1 x1.2 hx1,
          tripleHeads_drop K m.items (i + 2) x2.1 x2.2 hx2, if_pos hh, if_neg hn1, if_neg hn2,
          show i + 2 + 1 = i + 3 from rfl]
        obtain ⟨ih1, ih2⟩ := ih u2 parent (i + 3) (n + 1) r hf2 (by omega) hrest
        push_cast at ih1 ih2 ⊢
        constructor <;> omega
      · have hi2 := hplain (fun hcut => hh (Or.inl hcut)) (fun hz => hh (Or.inr hz))
        subst hi2
        rw [if_neg hh]
        obtain ⟨ih1, ih2⟩ := ih u2 parent (i + 1) (n + 1) r hf2 (by omega) hrest
        push_cast at ih1 ih2 ⊢
        constructor <;> omega
    · have hr := PopulateMenuFrom_end cfg K (fuel + 1) u parent m i n r (by omega) h
      rw [hr, tripleHeads_drop_length K m.items i (by unfold MenuModel.GetItemCount at hi; omega)]
      have : i = m.GetItemCount := by omega
      simp only [Nat.cast_zero, mul_zero, add_zero]
      constructor <;> omega

end WrenchMenu

namespace WrenchMenu

theorem updateItem_skeleton (w : WrenchMenu) (item : Int) (f : MenuItemView → MenuItemView)
    (hf : ∀ v, (f v).skeleton = v.skeleton) :
    (w.updateItem item f).menu_items.map MenuItemView.skeleton
      = w.menu_items.map MenuItemView.skeleton := by
  unfold updateItem
  simp only [List.map_map]
  apply List.map_congr_left
  intro v _
  simp only [Function.comp]
  by_cases hc : v.command = item
  · rw [if_pos hc, hf v]
  · rw [if_neg hc]

theorem SetTitle_skeleton (w : WrenchMenu) (item : Int) (t : StringId) :
    (w.SetTitle item t).menu_items.map MenuItemView.skeleton
      = w.menu_items.map MenuItemView.skeleton :=
  updateItem_skeleton w item _ fun _ => rfl

theorem AddChildView_skeleton (w : WrenchMenu) (item : Int) (c : ChildView) :
    (w.AddChildView item c).menu_items.map MenuItemView.skeleton
      = w.menu_items.map MenuItemView.skeleton :=
  updateItem_skeleton w item _ fun _ => rfl

/-- The switch statement changes neither parent, identifier, model nor index
of a view, and does not move the loop counter back. -/
theorem populateSwitch_skeleton (cfg : Config) (K : CommandIds) (fuel : Nat) (w : WrenchMenu)
    (m : MenuModel) (i max : Nat) (index item : Int) (r : Nat × WrenchMenu)
    (h : populateSwitch cfg K fuel w m i max index item = .ok r) :
    r.2.menu_items.map MenuItemView.skeleton = w.menu_items.map MenuItemView.skeleton ∧
      i ≤ r.1 := by
  obtain ⟨c, _, hcase⟩ := populateSwitch_ok _ _ _ _ _ _ _ _ _ _ h
  rcases hcase with ⟨_, hi, view, _, hr⟩ | ⟨_, _, hi, view, _, hr⟩ | ⟨_, _, hi, hr⟩
  · rw [hr, AddChildView_skeleton, SetTitle_skeleton]
    exact ⟨rfl, by omega⟩
  · rw [hr, AddChildView_skeleton, SetTitle_skeleton]
    exact ⟨rfl, by omega⟩
  · refine ⟨?_, by omega⟩
    rcases hr with hr | hr | hr <;> rw [hr]

/-- The views the walk appends are in pre-order. -/
theorem PopulateMenuFrom_preorder (cfg : Config) (K : CommandIds) :
    ∀ (fuel : Nat) (w : WrenchMenu) (parent : Int) (m : MenuModel) (i : Nat) (n : Int)
      (r : Int × WrenchMenu), PopulateMenuFrom cfg K fuel w parent m i n = .ok r →
      ∃ sk : List Skeleton,
        r.2.menu_items.map MenuItemView.skeleton = w.menu_items.map MenuItemView.skeleton ++ sk ∧
        r.1 = n + sk.length ∧ PreOrder parent m ((i : Int) + m.GetFirstItemIndex) n sk := by
  intro fuel
  induction fuel with
  | zero => intro w parent m i n r h; simp [PopulateMenuFrom] at h
  | succ fuel ih =>
    intro w parent m i n r h
    rcases PopulateMenuFrom_succ_ok _ _ _ _ _ _ _ _ _ h with ⟨_, hr⟩ |
      ⟨_, d, sub, height, wa, n1, w1, i2, w2, _, ha, hsub, hsw, hrest⟩
    · rw [hr]
      exact ⟨[], by simp, by simp, PreOrder.nil _ _ _ _⟩
    · obtain ⟨v, hv1, hv2, hv3, hv4, _, _, hveq⟩ := AppendMenuItem_ok _ _ _ _ _ _ _ _ _ ha
      have hwa : wa.menu_items = w.menu_items ++ [v] := by
        have := congrArg (fun p => p.2.2.menu_items) hveq
        exact this
      obtain ⟨hsk, hi2⟩ := populateSwitch_skeleton _ _ _ _ _ _ _ _ _ _ hsw
      simp only at hsk hi2
      obtain ⟨rest, hrs, hrn, hrp⟩ := ih _ _ _ _ _ _ hrest
      have hsubrun : ∃ (kids : List Skeleton) (s : MenuModel) (lo_s : Int),
          w1.menu_items.map MenuItemView.skeleton
            = wa.menu_items.map MenuItemView.skeleton ++ kids ∧
          n1 = n + 1 + kids.length ∧ PreOrder n s lo_s (n + 1) kids := by
        rcases hsub with ⟨_, s, _, hrun⟩ | ⟨_, hn1, hw1⟩
        · obtain ⟨kids, hks, hkn, hkp⟩ := ih _ _ _ _ _ _ hrun
          exact ⟨kids, s, _, hks, hkn, hkp⟩
        · exact ⟨[], m, 0, by rw [hw1]; simp, by rw [hn1]; simp, PreOrder.nil _ _ _ _⟩
      obtain ⟨kids, s, lo_s, hks, hkn, hkp⟩ := hsubrun
      refine ⟨v.skeleton :: (kids ++ rest), ?_, ?_, ?_⟩
      · rw [hrs, hsk, hks, hwa]
        simp
      · rw [hrn, hkn]
        simp only [List.length_cons, List.length_append]
        push_cast
        ring
      · refine PreOrder.cons parent m _ n v.skeleton s lo_s
          (((i2 + 1 : Nat) : Int) + m.GetFirstItemIndex) kids rest hv2 hv1 hv3 ?_ ?_ hkp ?_
        · show (i : Int) + m.GetFirstItemIndex ≤ v.index
          rw [hv4]
        · show v.index < ((i2 + 1 : Nat) : Int) + m.GetFirstItemIndex
          rw [hv4]
          push_cast
          omega
        · rw [← hkn]
          exact hrp

end WrenchMenu

/-- Identifiers and parents of views in pre-order: the identifiers lie in
the block the walk was given, and the parent of a view is the view the walk
started below or an earlier view of the block. -/
theorem PreOrder.bounds {P : Int} {m : MenuModel} {lo n : Int} {sk : List Skeleton}
    (h : PreOrder P m lo n sk) :
    ∀ a ∈ sk, n ≤ a.command ∧ a.command < n + sk.length ∧
      (a.parent = P ∨ (n ≤ a.parent ∧ a.parent < a.command)) := by
  induction h with
  | nil => intro a ha; cases ha
  | cons P m lo n a0 s lo_s lo_rest kids rest hp hc _ _ _ _ _ ihk ihr =>
    intro a ha
    simp only [List.length_cons, List.length_append]
    push_cast
    rcases List.mem_cons.1 ha with h0 | h0
    · rw [h0]
      exact ⟨by omega, by omega, Or.inl hp⟩
    · rcases List.mem_append.1 h0 with hk | hr
      · obtain ⟨h1, h2, h3⟩ := ihk a hk
        refine ⟨by omega, by omega, Or.inr ?_⟩
        rcases h3 with h3 | h3 <;> omega
      · obtain ⟨h1, h2, h3⟩ := ihr a hr
        refine ⟨by omega, by omega, ?_⟩
        rcases h3 with h3 | h3
        · exact Or.inl h3
        · exact Or.inr (by omega)

/-- The identifiers of views in pre-order are consecutive. -/
theorem PreOrder.consecutive {P : Int} {m : MenuModel} {lo n : Int} {sk : List Skeleton}
    (h : PreOrder P m lo n sk) : consecutiveFrom n (sk.map fun a => a.command) := by
  induction h with
  | nil => exact trivial
  | cons P m lo n a0 s lo_s lo_rest kids rest _ hc _ _ _ _ _ ihk ihr =>
    simp only [List.map_cons, List.map_append]
    refine ⟨hc, ?_⟩
    rw [consecutiveFrom_append]
    refine ⟨ihk, ?_⟩
    simp only [List.length_map]
    exact ihr

/-- Views in pre-order with the same parent were made for the same model,
and among them the identifier grows with the index. -/
theorem PreOrder.siblings {P : Int} {m : MenuModel} {lo n : Int} {sk : List Skeleton}
    (h : PreOrder P m lo n sk) (hP : P < n) :
    (∀ a ∈ sk, a.parent = P → a.model = m ∧ lo ≤ a.index) ∧
    (∀ a ∈ sk, ∀ b ∈ sk, a.parent = b.parent →
      a.model = b.model ∧ (a.index < b.index → a.command < b.command)) := by
  induction h with
  | nil => exact ⟨fun a ha => (by cases ha), fun a ha => (by cases ha)⟩
  | cons P m lo n a0 s lo_s lo_rest kids rest hp hc hm hlo hlt hk hr ihk ihr =>
    obtain ⟨ihk1, ihk2⟩ := ihk (by omega)
    obtain ⟨ihr1, ihr2⟩ := ihr (by omega)
    have bk := hk.bounds
    have br := hr.bounds
    constructor
    · intro a ha hap
      rcases List.mem_cons.1 ha with h0 | h0
      · rw [h0]; exact ⟨hm, hlo⟩
      · rcases List.mem_append.1 h0 with hak | har
        · obtain ⟨_, _, h3⟩ := bk a hak
          rcases h3 with h3 | h3 <;> omega
        · obtain ⟨h1, h2⟩ := ihr1 a har hap
          exact ⟨h1, by omega⟩
    · intro a ha b hb hab
      rcases List.mem_cons.1 ha with ha0 | ha0
      · rcases List.mem_cons.1 hb with hb0 | hb0
        · rw [ha0, hb0]
          exact ⟨rfl, fun hh => absurd hh (lt_irrefl _)⟩
        · rcases List.mem_append.1 hb0 with hbk | hbr
          · obtain ⟨_, _, h3⟩ := bk b hbk
            rw [ha0] at hab
            rcases h3 with h3 | h3 <;> omega
          · rw [ha0] at hab ⊢
            obtain ⟨h1, h2⟩ := ihr1 b hbr (by rw [← hab, hp])
            obtain ⟨h4, _, _⟩ := br b hbr
            exact ⟨by rw [hm, h1], fun _ => by omega⟩
      · rcases List.mem_append.1 ha0 with hak | har
        · rcases List.mem_cons.1 hb with hb0 | hb0
          · obtain ⟨_, _, h3⟩ := bk a hak
            rw [hb0] at hab
            rcases h3 with h3 | h3 <;> omega
          · rcases List.mem_append.1 hb0 with hbk | hbr
            · exact ihk2 a hak b hbk hab
            · obtain ⟨_, ha2, ha3⟩ := bk a hak
              obtain ⟨hb1, _, hb3⟩ := br b hbr
              rcases ha3 with ha3 | ha3 <;> rcases hb3 with hb3 | hb3 <;> omega
        · rcases List.mem_cons.1 hb with hb0 | hb0
          · rw [hb0] at hab ⊢
            obtain ⟨h1, h2⟩ := ihr1 a har (by rw [hab, hp])
            exact ⟨by rw [hm, h1], fun hh => by omega⟩
          · rcases List.mem_append.1 hb0 with hbk | hbr
            · obtain ⟨_, hb2, hb3⟩ := bk b hbk
              obtain ⟨ha1, _, ha3⟩ := br a har
              rcases ha3 with ha3 | ha3 <;> rcases hb3 with hb3 | hb3 <;> omega
            · exact ihr2 a har b hbr hab

/-- Every view in pre-order has a span: the views whose identifiers lie in
the span are those whose parent is the view or lies in the span. -/
theorem PreOrder.spans {P : Int} {m : MenuModel} {lo n : Int} {sk : List Skeleton}
    (h : PreOrder P m lo n sk) (hP : P < n) :
    ∀ t ∈ sk, ∃ d : Nat, t.command + d < n + sk.length ∧
      ∀ x ∈ sk, (t.command < x.command ∧ x.command ≤ t.command + d) ↔
        (t.command ≤ x.parent ∧ x.parent ≤ t.command + d) := by
  induction h with
  | nil => intro t ht; cases ht
  | cons P m lo n a0 s lo_s lo_rest kids rest hp hc hm hlo hlt hk hr ihk ihr =>
    have bk := hk.bounds
    have br := hr.bounds
    have mem_cases : ∀ x ∈ a0 :: (kids ++ rest), x = a0 ∨ x ∈ kids ∨ x ∈ rest := by
      intro x hx
      rcases List.mem_cons.1 hx with h0 | h0
      · exact Or.inl h0
      · exact Or.inr (List.mem_append.1 h0)
    intro t ht
    simp only [List.length_cons, List.length_append]
    push_cast
    rcases mem_cases t ht with ht0 | htk | htr
    · refine ⟨kids.length, by rw [ht0]; omega, ?_⟩
      intro x hx
      rw [ht0]
      rcases mem_cases x hx with hx0 | hxk | hxr
      · rw [hx0]
        constructor <;> intro hh <;> omega
      · obtain ⟨h1, h2, h3⟩ := bk x hxk
        constructor
        · intro _
          rcases h3 with h3 | h3 <;> omega
        · intro _
          omega
      · obtain ⟨h1, h2, h3⟩ := br x hxr
        constructor
        · intro hh; omega
        · intro hh
          rcases h3 with h3 | h3 <;> omega
    · obtain ⟨d, hd, hiff⟩ := ihk (by omega) t htk
      obtain ⟨t1, t2, _⟩ := bk t htk
      refine ⟨d, by omega, ?_⟩
      intro x hx
      rcases mem_cases x hx with hx0 | hxk | hxr
      · rw [hx0]
        constructor <;> intro hh <;> omega
      · exact hiff x hxk
      · obtain ⟨h1, h2, h3⟩ := br x hxr
        constructor
        · intro hh; omega
        · intro hh
          rcases h3 with h3 | h3 <;> omega
    · obtain ⟨d, hd, hiff⟩ := ihr (by omega) t htr
      obtain ⟨t1, t2, _⟩ := br t htr
      refine ⟨d, by omega, ?_⟩
      intro x hx
      rcases mem_cases x hx with hx0 | hxk | hxr
      · rw [hx0]
        constructor <;> intro hh <;> omega
      · obtain ⟨h1, h2, h3⟩ := bk x hxk
        constructor
        · intro hh; omega
        · intro hh
          rcases h3 with h3 | h3 <;> omega
      · exact hiff x hxr

/-- In a list of views in pre-order below the root view, the views below a
view are those whose identifiers lie in its span, every identifier of the span
is taken, and a later view with the same parent comes after the span. -/
theorem preorder_descendants (L : List MenuItemView) (m : MenuModel) (lo : Int)
    (h : PreOrder 0 m lo 1 (L.map MenuItemView.skeleton)) :
    ∀ p ∈ L, ∃ d : Nat, p.command + d ≤ L.length ∧
      (∀ v ∈ L, Descendant L p.command v ↔
        (p.command + 1 ≤ v.command ∧ v.command ≤ p.command + d)) ∧
      (∀ id : Int, p.command + 1 ≤ id → id ≤ p.command + d →
        ∃ v ∈ L, v.command = id ∧ Descendant L p.command v) ∧
      (∀ s ∈ L, s.parent = p.parent → p.command < s.command → p.command + d < s.command) := by
  have hb := h.bounds
  have hcons := h.consecutive
  have hsk : ∀ v ∈ L, v.skeleton ∈ L.map MenuItemView.skeleton :=
    fun v hv => List.mem_map_of_mem _ hv
  have hlen : ((L.map MenuItemView.skeleton).length : Int) = L.length := by simp
  -- every identifier from 1 to the length is the identifier of a view
  have htaken : ∀ id : Int, 1 ≤ id → id ≤ L.length → ∃ v ∈ L, v.command = id := by
    intro id h1 h2
    have hmem : id ∈ (L.map MenuItemView.skeleton).map (fun a => a.command) := by
      rw [consecutiveFrom_mem _ _ hcons]
      simp only [List.length_map]
      omega
    obtain ⟨a, ha, hac⟩ := List.mem_map.1 hmem
    obtain ⟨v, hv, hva⟩ := List.mem_map.1 ha
    exact ⟨v, hv, by rw [← hac, ← hva]; rfl⟩
  intro p hp
  obtain ⟨d, hd, hiff⟩ := h.spans (by decide) p.skeleton (hsk p hp)
  have hpc : p.skeleton.command = p.command := rfl
  rw [hpc, hlen] at hd
  obtain ⟨hp1, _, hp3⟩ := hb p.skeleton (hsk p hp)
  rw [hpc] at hp1
  have hiff' : ∀ x ∈ L, (p.command < x.command ∧ x.command ≤ p.command + d) ↔
      (p.command ≤ x.parent ∧ x.parent ≤ p.command + d) := fun x hx => hiff x.skeleton (hsk x hx)
  have hpar : ∀ x ∈ L, x.parent < x.command := by
    intro x hx
    obtain ⟨h1, _, h3⟩ := hb x.skeleton (hsk x hx)
    have e1 : x.skeleton.command = x.command := rfl
    have e2 : x.skeleton.parent = x.parent := rfl
    rw [e1] at h1
    rw [e1, e2] at h3
    rcases h3 with h3 | h3 <;> omega
  -- from the span to the views below
  have hback : ∀ (k : Nat) (v : MenuItemView), v ∈ L → v.command ≤ p.command + k →
      p.command < v.command → v.command ≤ p.command + d → Descendant L p.command v := by
    intro k
    induction k with
    | zero => intro v _ h1 h2 _; simp at h1; omega
    | succ k ih =>
      intro v hv h1 h2 h3
      obtain ⟨h4, h5⟩ := (hiff' v hv).1 ⟨h2, h3⟩
      have h6 := hpar v hv
      by_cases hpv : v.parent = p.command
      · exact Descendant.child v hv hpv
      · obtain ⟨u, hu, huc⟩ := htaken v.parent (by omega) (by omega)
        have hdu : Descendant L p.command u :=
          ih u hu (by push_cast at h1; omega) (by omega) (by omega)
        exact Descendant.step u v hu hv huc.symm hdu
  have hfwd : ∀ v, Descendant L p.command v →
      v ∈ L ∧ p.command < v.command ∧ v.command ≤ p.command + d := by
    intro v hdesc
    induction hdesc with
    | child v hv hvp =>
      refine ⟨hv, ?_⟩
      exact (hiff' v hv).2 ⟨by omega, by omega⟩
    | step u v hu hv hvu _ ih =>
      refine ⟨hv, ?_⟩
      exact (hiff' v hv).2 ⟨by omega, by omega⟩
  refine ⟨d, by omega, ?_, ?_, ?_⟩
  · intro v hv
    constructor
    · intro hdesc
      obtain ⟨_, h1, h2⟩ := hfwd v hdesc
      exact ⟨by omega, h2⟩
    · intro ⟨h1, h2⟩
      exact hback d v hv h2 (by omega) h2
  · intro id h1 h2
    obtain ⟨v, hv, hvc⟩ := htaken id (by omega) (by omega)
    exact ⟨v, hv, hvc, hback d v hv (by omega) (by omega) (by omega)⟩
  · intro s hs hsp hlt
    by_contra hcon
    have hin := (hiff' s hs).1 ⟨hlt, by omega⟩
    have := hpar p hp
    omega

namespace WrenchMenu

/-- The views `Init` makes are in pre-order below the root view. -/
theorem Init_preorder (cfg : Config) (K : CommandIds) (fuel : Nat) (w : WrenchMenu)
    (model : MenuModel) (w' : WrenchMenu) (h : Init cfg K fuel w model = .ok w') :
    PreOrder 0 model (((0 : Nat) : Int) + model.GetFirstItemIndex) 1
      (w'.menu_items.map MenuItemView.skeleton) := by
  obtain ⟨n', w1, hp, hw'⟩ := Init_ok cfg K fuel w model w' h
  obtain ⟨sk, hsk, _, hpre⟩ := PopulateMenuFrom_preorder cfg K fuel _ 0 model 0 1 _ hp
  have hitems : w'.menu_items = w1.menu_items := by rw [hw']
  rw [hitems]
  simp only [List.map_nil, List.nil_append] at hsk
  rw [hsk]
  exact hpre

end WrenchMenu

theorem zoomLabelLoop_ge_init (width : Int → Int) (max_percent step : Int) :
    ∀ (fuel : Nat) (i max_w r : Int),
      zoomLabelLoop width max_percent step fuel i max_w = .ok r → max_w ≤ r := by
  intro fuel
  induction fuel with
  | zero => intro i max_w r h; cases h
  | succ fuel ih =>
    intro i max_w r h
    unfold zoomLabelLoop at h
    by_cases hi : i ≤ max_percent
    · rw [if_pos hi] at h
      exact le_trans (le_max_right _ _) (ih _ _ _ h)
    · rw [if_neg hi] at h
      rw [Except.ok.inj h]

/-- With a font whose string widths are non-negative, the width
`MaxWidthForZoomLabel` returns is non-negative. -/
theorem MaxWidthForZoomLabel_nonneg (cfg : Config) (fuel : Nat) (r : Int)
    (hfont : ∀ p, 0 ≤ cfg.string_width p) (h : MaxWidthForZoomLabel cfg fuel = .ok r) :
    0 ≤ r := by
  have hins : (0 : Int) ≤
      2 * (if cfg.is_touch then kHorizontalTouchPadding else kHorizontalPadding) := by
    cases cfg.is_touch <;> simp [kHorizontalTouchPadding, kHorizontalPadding]
  cases htab : cfg.selected_tab with
  | none =>
    unfold MaxWidthForZoomLabel at h
    simp only [htab, bind, Except.bind, pure, Except.pure] at h
    have := hfont 100
    rw [← Except.ok.inj h]
    omega
  | some tab =>
    rw [MaxWidthForZoomLabel_tab cfg tab htab fuel] at h
    cases hloop : zoomLabelLoop cfg.string_width tab.maximum_zoom_percent
        (Int.tdiv (tab.maximum_zoom_percent - tab.minimum_zoom_percent) 10) fuel
        tab.minimum_zoom_percent 0 with
    | error e => rw [hloop] at h; cases h
    | ok value =>
      rw [hloop] at h
      have := zoomLabelLoop_ge_init _ _ _ _ _ _ _ hloop
      rw [← Except.ok.inj h]
      omega

/-- The label width of a view `UpdateZoomControls` returns is the value of
`MaxWidthForZoomLabel`. -/
theorem ZoomView_UpdateZoomControls_width (cfg : Config) (fuel : Nat) (v v' : ZoomView)
    (h : ZoomView.UpdateZoomControls cfg fuel v = .ok v') :
    MaxWidthForZoomLabel cfg fuel = .ok v'.zoom_label_width_ := by
  unfold ZoomView.UpdateZoomControls at h
  obtain ⟨wd, hwd, h⟩ := (bind_ok _ _ _).1 h
  simp only [pure, Except.pure, Except.ok.injEq] at h
  subst h
  exact hwd

/-- The label width of a view the constructor builds is the value of
`MaxWidthForZoomLabel`. -/
theorem ZoomView_create_width (cfg : Config) (fuel : Nat) (m : MenuModel) (a b c : Int)
    (view : ZoomView) (h : ZoomView.create cfg fuel m a b c = .ok view) :
    MaxWidthForZoomLabel cfg fuel = .ok view.zoom_label_width_ := by
  unfold ZoomView.create at h
  obtain ⟨b1, _, h⟩ := (bind_ok _ _ _).1 h
  obtain ⟨wd, _, h⟩ := (bind_ok _ _ _).1 h
  obtain ⟨b2, _, h⟩ := (bind_ok _ _ _).1 h
  obtain ⟨name, _, h⟩ := (bind_ok _ _ _).1 h
  exact ZoomView_UpdateZoomControls_width _ _ _ _ h

/-- What `MaxWidthForZoomLabel` computes when a tab is selected whose zoom
range is at least 10 wide: given 21 steps it returns the insets width plus the
largest of 0 and the rendered widths at the measured percents
`min + t * step` up to `max`, where `step = (max - min) / 10`. -/
theorem MaxWidthForZoomLabel_sampled_max (cfg : Config) (tab : WebContents)
    (htab : cfg.selected_tab = some tab)
    (hrange : tab.minimum_zoom_percent + 10 ≤ tab.maximum_zoom_percent)
    (fuel : Nat) (hfuel : 21 ≤ fuel) :
    ∃ value : Int,
      MaxWidthForZoomLabel cfg fuel = .ok
        (value + 2 * (if cfg.is_touch then kHorizontalTouchPadding else kHorizontalPadding)) ∧
      0 ≤ value ∧
      (∀ t : Nat,
        tab.minimum_zoom_percent +
          t * Int.tdiv (tab.maximum_zoom_percent - tab.minimum_zoom_percent) 10
          ≤ tab.maximum_zoom_percent →
        cfg.string_width (tab.minimum_zoom_percent +
          t * Int.tdiv (tab.maximum_zoom_percent - tab.minimum_zoom_percent) 10) ≤ value) ∧
      (value = 0 ∨ ∃ t : Nat,
        tab.minimum_zoom_percent +
          t * Int.tdiv (tab.maximum_zoom_percent - tab.minimum_zoom_percent) 10
          ≤ tab.maximum_zoom_percent ∧
        value = cfg.string_width (tab.minimum_zoom_percent +
          t * Int.tdiv (tab.maximum_zoom_percent - tab.minimum_zoom_percent) 10)) := by
  obtain ⟨hs, _⟩ := zoom_step_facts _ _ hrange
  have hz : cfg.ZoomRangeOk := by
    unfold Config.ZoomRangeOk
    rw [htab]
    exact Or.inr hrange
  obtain ⟨r, hr⟩ := MaxWidthForZoomLabel_total cfg fuel hz hfuel
  have hr' := hr
  rw [MaxWidthForZoomLabel_tab cfg tab htab fuel] at hr'
  cases hloop : zoomLabelLoop cfg.string_width tab.maximum_zoom_percent
      (Int.tdiv (tab.maximum_zoom_percent - tab.minimum_zoom_percent) 10) fuel
      tab.minimum_zoom_percent 0 with
  | error e => rw [hloop] at hr'; cases hr'
  | ok value =>
    rw [hloop] at hr'
    obtain ⟨h1, h2, h3⟩ := zoomLabelLoop_max cfg.string_width _ _ hs fuel _ _ _ hloop
    refine ⟨value, ?_, h1, h2, h3⟩
    rw [MaxWidthForZoomLabel_tab cfg tab htab fuel, hloop]


/-! ## The claims -/

namespace WrenchMenu

/-- C2: uniqueness.  After every successful `Init` of an unpopulated menu, in
a debug or a release build and whatever the model tree: no two views (at any
nesting depth) carry the same identifier, the table entry of the identifier
of a view is the (model, index) that view was appended for, and every key of
the table is the identifier of a view; so no identifier was assigned to a
second (model, index) during the walk. -/
theorem C2_identifiers_unique (cfg : Config) (K : CommandIds) (fuel : Nat)
    (w : WrenchMenu) (model : MenuModel) (w' : WrenchMenu) (hw : w.Unpopulated)
    (h : Init cfg K fuel w model = .ok w') :
    (w'.menu_items.map fun v => v.command).Nodup ∧
    (∀ v ∈ w'.menu_items, IDToEntry.find w'.id_to_entry_ v.command = some (v.model, v.index)) ∧
    (∀ id e, IDToEntry.find w'.id_to_entry_ id = some e →
      ∃ v ∈ w'.menu_items, v.command = id ∧ (v.model, v.index) = e) := by
  obtain ⟨hc, _, htab, hkeys, _⟩ := Init_effect cfg K fuel w model w' hw h
  refine ⟨consecutiveFrom_nodup _ _ hc, htab, ?_⟩
  intro id e he
  obtain ⟨h1, h2⟩ := hkeys id e he
  have hmem : id ∈ w'.menu_items.map (fun v => v.command) := by
    rw [consecutiveFrom_mem _ _ hc]
    simp only [List.length_map]
    omega
  obtain ⟨v, hv, hvc⟩ := List.mem_map.1 hmem
  refine ⟨v, hv, hvc, ?_⟩
  have := htab v hv
  rw [hvc, he] at this
  exact (Option.some.inj this).symm

/-- Witness of C2: the scenario model in a debug build. -/
theorem C2_identifiers_unique_witness :
    (create.Unpopulated ∧
      Init debugConfig sampleIds 27 create (scenarioModel sampleIds)
        = .ok (scenarioMenu debugConfig sampleIds)) ∧
    ((scenarioMenu debugConfig sampleIds).menu_items.map fun v => v.command).Nodup ∧
    (∀ v ∈ (scenarioMenu debugConfig sampleIds).menu_items,
      IDToEntry.find (scenarioMenu debugConfig sampleIds).id_to_entry_ v.command
        = some (v.model, v.index)) ∧
    (∀ id e, IDToEntry.find (scenarioMenu debugConfig sampleIds).id_to_entry_ id = some e →
      ∃ v ∈ (scenarioMenu debugConfig sampleIds).menu_items,
        v.command = id ∧ (v.model, v.index) = e) :=
  ⟨⟨⟨rfl, rfl, rfl, rfl, rfl⟩, rfl⟩,
    C2_identifiers_unique debugConfig sampleIds 27 create (scenarioModel sampleIds)
      (scenarioMenu debugConfig sampleIds) ⟨rfl, rfl, rfl, rfl, rfl⟩ rfl⟩

end WrenchMenu

namespace WrenchMenu

/-- C3: coverage.  On a well-formed tree of distinct model objects, with
pairwise distinct command constants, `Init` of an unpopulated menu returns, and
then for every model reached by the walk (the root and every nested submenu
model) and every loop position `j` of it: if the model index
`j + GetFirstItemIndex` is not the second or third element of a triple, exactly
one identifier has the table entry (model, `j + GetFirstItemIndex`); if it is,
no identifier has that entry. -/
theorem C3_coverage (cfg : Config) (K : CommandIds) (fuel : Nat) (w : WrenchMenu)
    (root : MenuModel) (hK : K.Distinct) (hw : w.Unpopulated) (hwf : root.WellFormed K)
    (hna : root.NoAlias) (hz : cfg.ZoomRangeOk) (hfuel : root.fuelBound ≤ fuel) :
    ∃ w', Init cfg K fuel w root = .ok w' ∧
      ∀ m, Reached K root m → ∀ j : Nat, j < m.GetItemCount →
        (¬ Consumed K m ((j : Int) + m.GetFirstItemIndex) →
          ∃! id : Int, IDToEntry.find w'.id_to_entry_ id
            = some (m, (j : Int) + m.GetFirstItemIndex)) ∧
        (Consumed K m ((j : Int) + m.GetFirstItemIndex) →
          ∀ id : Int, IDToEntry.find w'.id_to_entry_ id
            ≠ some (m, (j : Int) + m.GetFirstItemIndex)) := by
  obtain ⟨w', h⟩ := Init_total cfg K fuel w root hw hwf (Or.inl hz) hfuel
  refine ⟨w', h, ?_⟩
  intro m hreach j hj
  obtain ⟨_, _, hcov⟩ := Init_coverage cfg K fuel w root w' hK hw hwf hna h
  constructor
  · intro hnc
    have hin : (m.itemAt ((j : Int) + m.GetFirstItemIndex)).isSome = true := by
      rw [MenuModel.itemAt_nat, List.getElem?_eq_getElem hj]; rfl
    obtain ⟨v, hv, hvm, hvi⟩ := hcov m hreach _ hin hnc
    have hiff := Init_entry_iff cfg K fuel w root w' hK hw hwf hna h v hv
    rw [hvm, hvi] at hiff
    exact ⟨v.command, (hiff _).2 rfl, fun id hid => (hiff id).1 hid⟩
  · intro hcons id
    exact Init_no_entry_of_consumed cfg K fuel w root w' hK hw hwf hna h m _ hcons id

/-- Witness of C3: the scenario model in a debug build. -/
theorem C3_coverage_witness :
    ∃ w', Init debugConfig sampleIds 27 create (scenarioModel sampleIds) = .ok w' ∧
      ∀ m, Reached sampleIds (scenarioModel sampleIds) m → ∀ j : Nat, j < m.GetItemCount →
        (¬ Consumed sampleIds m ((j : Int) + m.GetFirstItemIndex) →
          ∃! id : Int, IDToEntry.find w'.id_to_entry_ id
            = some (m, (j : Int) + m.GetFirstItemIndex)) ∧
        (Consumed sampleIds m ((j : Int) + m.GetFirstItemIndex) →
          ∀ id : Int, IDToEntry.find w'.id_to_entry_ id
            ≠ some (m, (j : Int) + m.GetFirstItemIndex)) :=
  C3_coverage debugConfig sampleIds 27 create (scenarioModel sampleIds) (by decide)
    ⟨rfl, rfl, rfl, rfl, rfl⟩ (by decide) (by decide) (by decide) (by decide)

end WrenchMenu

namespace WrenchMenu

/-- C4: composite consumption of the cut row.  On a well-formed tree of
distinct model objects, `Init` returns, and for every reached model with
`IDC_CUT`, `IDC_COPY`, `IDC_PASTE` at indices `k`, `k + 1`, `k + 2` there is
exactly one view (one identifier, one table entry) for index `k`, there is no
view and no table entry for `k + 1` and `k + 2`, and the view for `k` has
exactly one child view, a `CutCopyPasteView` of that model whose three
buttons carry the tags `k`, `k + 1`, `k + 2` in that order. -/
theorem C4_cut_copy_paste_consumed (cfg : Config) (K : CommandIds) (fuel : Nat)
    (w : WrenchMenu) (root : MenuModel) (hK : K.Distinct) (hw : w.Unpopulated)
    (hwf : root.WellFormed K) (hna : root.NoAlias) (hz : cfg.ZoomRangeOk)
    (hfuel : root.fuelBound ≤ fuel) :
    ∃ w', Init cfg K fuel w root = .ok w' ∧
      ∀ m, Reached K root m → ∀ k : Int, m.GetCommandIdAt k = some K.IDC_CUT →
        m.GetCommandIdAt (k + 1) = some K.IDC_COPY →
        m.GetCommandIdAt (k + 2) = some K.IDC_PASTE →
        ∃ v ∈ w'.menu_items, v.model = m ∧ v.index = k ∧
          (∀ v' ∈ w'.menu_items, v'.model = m → v'.index = k → v'.command = v.command) ∧
          (∀ id : Int, IDToEntry.find w'.id_to_entry_ id = some (m, k) ↔ id = v.command) ∧
          (∀ v' ∈ w'.menu_items, v'.model = m → v'.index ≠ k + 1 ∧ v'.index ≠ k + 2) ∧
          (∀ id : Int, IDToEntry.find w'.id_to_entry_ id ≠ some (m, k + 1) ∧
            IDToEntry.find w'.id_to_entry_ id ≠ some (m, k + 2)) ∧
          ∃ view : CutCopyPasteView, v.child_views = [.cut_copy_paste view] ∧
            view.menu_model_ = m ∧ (view.children.map fun b => b.tag) = [k, k + 1, k + 2] := by
  obtain ⟨w', h⟩ := Init_total cfg K fuel w root hw hwf (Or.inl hz) hfuel
  refine ⟨w', h, ?_⟩
  intro m hreach k hcut _ _
  obtain ⟨v, hv, hvm, hvi, hok, h1, h2, h3, h4⟩ :=
    Init_triple_head cfg K fuel w root w' hK hw hwf hna h m hreach k (Or.inl hcut)
  refine ⟨v, hv, hvm, hvi, h1, h2, h3, h4, ?_⟩
  obtain ⟨view, hcv, hmm, htags⟩ := hok.2.1 (by rw [hvm, hvi]; exact hcut)
  refine ⟨view, hcv, by rw [hmm, hvm], ?_⟩
  rw [hvi] at htags
  exact htags

/-- Witness of C4: a model with a nested submenu, in a debug build. -/
theorem C4_cut_copy_paste_consumed_witness :
    ∃ w', Init debugConfig sampleIds 40 create (nestedModel sampleIds) = .ok w' ∧
      ∀ m, Reached sampleIds (nestedModel sampleIds) m → ∀ k : Int,
        m.GetCommandIdAt k = some sampleIds.IDC_CUT →
        m.GetCommandIdAt (k + 1) = some sampleIds.IDC_COPY →
        m.GetCommandIdAt (k + 2) = some sampleIds.IDC_PASTE →
        ∃ v ∈ w'.menu_items, v.model = m ∧ v.index = k ∧
          (∀ v' ∈ w'.menu_items, v'.model = m → v'.index = k → v'.command = v.command) ∧
          (∀ id : Int, IDToEntry.find w'.id_to_entry_ id = some (m, k) ↔ id = v.command) ∧
          (∀ v' ∈ w'.menu_items, v'.model = m → v'.index ≠ k + 1 ∧ v'.index ≠ k + 2) ∧
          (∀ id : Int, IDToEntry.find w'.id_to_entry_ id ≠ some (m, k + 1) ∧
            IDToEntry.find w'.id_to_entry_ id ≠ some (m, k + 2)) ∧
          ∃ view : CutCopyPasteView, v.child_views = [.cut_copy_paste view] ∧
            view.menu_model_ = m ∧ (view.children.map fun b => b.tag) = [k, k + 1, k + 2] :=
  C4_cut_copy_paste_consumed debugConfig sampleIds 40 create (nestedModel sampleIds) (by decide)
    ⟨rfl, rfl, rfl, rfl, rfl⟩ (by decide) (by decide) (by decide) (by decide)

/-- C5: composite consumption of the zoom row.  On a well-formed tree of
distinct model objects, `Init` returns, and for every reached model with
`IDC_ZOOM_MINUS`, `IDC_ZOOM_PLUS`, `IDC_FULLSCREEN` at indices `k`, `k + 1`,
`k + 2`: there is exactly one view and one identifier for index `k` and none
for `k + 1` and `k + 2`; the view for `k` has exactly one child view, a
`ZoomView` of that model whose decrement, increment and fullscreen buttons
carry the tags `k`, `k + 1`, `k + 2`; and an iteration of the loop of
`PopulateMenu` at the loop position `j` of `k` takes one identifier `n`,
appends one view for index `k`, and hands over to the loop at position `j + 3`
with counter `n + 1`. -/
theorem C5_zoom_row_consumed (cfg : Config) (K : CommandIds) (fuel : Nat)
    (w : WrenchMenu) (root : MenuModel) (hK : K.Distinct) (hw : w.Unpopulated)
    (hwf : root.WellFormed K) (hna : root.NoAlias) (hz : cfg.ZoomRangeOk)
    (hfuel : root.fuelBound ≤ fuel) :
    ∃ w', Init cfg K fuel w root = .ok w' ∧
      ∀ m, Reached K root m → ∀ k : Int, m.GetCommandIdAt k = some K.IDC_ZOOM_MINUS →
        m.GetCommandIdAt (k + 1) = some K.IDC_ZOOM_PLUS →
        m.GetCommandIdAt (k + 2) = some K.IDC_FULLSCREEN →
        (∃ v ∈ w'.menu_items, v.model = m ∧ v.index = k ∧
          (∀ v' ∈ w'.menu_items, v'.model = m → v'.index = k → v'.command = v.command) ∧
          (∀ id : Int, IDToEntry.find w'.id_to_entry_ id = some (m, k) ↔ id = v.command) ∧
          (∀ v' ∈ w'.menu_items, v'.model = m → v'.index ≠ k + 1 ∧ v'.index ≠ k + 2) ∧
          (∀ id : Int, IDToEntry.find w'.id_to_entry_ id ≠ some (m, k + 1) ∧
            IDToEntry.find w'.id_to_entry_ id ≠ some (m, k + 2)) ∧
          ∃ view : ZoomView, v.child_views = [.zoom view] ∧ view.menu_model_ = m ∧
            view.decrement_button_.tag = k ∧ view.increment_button_.tag = k + 1 ∧
            view.fullscreen_button_.tag = k + 2 ∧ view.fullscreen_index_ = k + 2) ∧
        (∀ (j fuel0 : Nat) (u : WrenchMenu) (parent n : Int) (r : Int × WrenchMenu),
          k = (j : Int) + m.GetFirstItemIndex → u.Fresh n →
          PopulateMenuFrom cfg K (fuel0 + 1) u parent m j n = .ok r →
          ∃ (u2 : WrenchMenu) (v0 : MenuItemView), u2.menu_items = u.menu_items ++ [v0] ∧
            v0.command = n ∧ v0.model = m ∧ v0.index = k ∧
            PopulateMenuFrom cfg K fuel0 u2 parent m (j + 3) (n + 1) = .ok r) := by
  obtain ⟨w', h⟩ := Init_total cfg K fuel w root hw hwf (Or.inl hz) hfuel
  refine ⟨w', h, ?_⟩
  intro m hreach k hzoom _ _
  have hlocal : m.LocalOk K := hwf.1 m (Reached.mem_subtree hreach)
  have hne : K.IDC_ZOOM_MINUS ≠ K.IDC_CUT := Ne.symm hK.facts.2.2.2.2.2.2.2.2
  constructor
  · obtain ⟨v, hv, hvm, hvi, hok, h1, h2, h3, h4⟩ :=
      Init_triple_head cfg K fuel w root w' hK hw hwf hna h m hreach k (Or.inr hzoom)
    refine ⟨v, hv, hvm, hvi, h1, h2, h3, h4, ?_⟩
    obtain ⟨view, hcv, hmm, hfi, htags⟩ := hok.2.2.1
      (by rw [hvm, hvi, hzoom]; intro hc; exact hne (Option.some.inj hc))
      (by rw [hvm, hvi]; exact hzoom)
    rw [hvi] at htags hfi
    simp only [ChildView.tags, List.cons.injEq, and_true] at htags
    exact ⟨view, hcv, by rw [hmm, hvm], htags.1, htags.2.1, htags.2.2, hfi⟩
  · intro j fuel0 u parent n r hk hf hrun
    have hj : j < m.GetItemCount := by
      have hs := MenuModel.itemAt_of_command m _ _ hzoom
      obtain ⟨x, hx⟩ := Option.isSome_iff_exists.1 hs
      obtain ⟨j', hj', hidx, _⟩ := MenuModel.itemAt_some m k x hx
      have : (j : Int) = j' := by omega
      have : j = j' := by exact_mod_cast this
      omega
    obtain ⟨d, sub, v0, v0', wa, w1, w2, n1, i2, new_sub, new_rest, hx, _,
      ⟨hv1', hv3', hv4'⟩, hcase, _, _, hsub, hw1, _, _, _, hw2, hrest, _⟩ :=
      PopulateMenuFrom_step cfg K fuel0 u parent m j n r hf hj hrun
    have hc := MenuModel.GetCommandIdAt_nat m j d sub hx
    rw [← hk, hzoom] at hc
    have hdc : d.command_id = K.IDC_ZOOM_MINUS := (Option.some.inj hc).symm
    have hty := ((hlocal j hj).2.1 (by rw [← hk]; exact hzoom)).1
    rw [MenuModel.GetTypeAt_nat m j d sub hx] at hty
    have hdt : d.type = .TYPE_COMMAND := Option.some.inj hty
    have hi2 : i2 = j + 2 := by
      rcases hcase with ⟨hcut, _⟩ | ⟨_, _, h2, _⟩ | ⟨_, hnz, _⟩
      · rw [hdc] at hcut; exact absurd hcut hne
      · exact h2
      · exact absurd hdc hnz
    rcases hsub with ⟨hsm, _⟩ | ⟨_, hn1, hw1eq⟩
    · rw [hdt] at hsm; cases hsm
    · have hnil := new_sub_nil hw1eq hw1
      rw [hnil, List.append_nil] at hw2
      rw [hi2, hn1] at hrest
      exact ⟨w2, v0', hw2, hv1', hv3', by rw [hv4', hk], hrest⟩

/-- Witness of C5: a model with the zoom row in a nested submenu, in a debug
build. -/
theorem C5_zoom_row_consumed_witness :
    ∃ w', Init debugConfig sampleIds 40 create (nestedModel sampleIds) = .ok w' ∧
      ∀ m, Reached sampleIds (nestedModel sampleIds) m → ∀ k : Int,
        m.GetCommandIdAt k = some sampleIds.IDC_ZOOM_MINUS →
        m.GetCommandIdAt (k + 1) = some sampleIds.IDC_ZOOM_PLUS →
        m.GetCommandIdAt (k + 2) = some sampleIds.IDC_FULLSCREEN →
        (∃ v ∈ w'.menu_items, v.model = m ∧ v.index = k ∧
          (∀ v' ∈ w'.menu_items, v'.model = m → v'.index = k → v'.command = v.command) ∧
          (∀ id : Int, IDToEntry.find w'.id_to_entry_ id = some (m, k) ↔ id = v.command) ∧
          (∀ v' ∈ w'.menu_items, v'.model = m → v'.index ≠ k + 1 ∧ v'.index ≠ k + 2) ∧
          (∀ id : Int, IDToEntry.find w'.id_to_entry_ id ≠ some (m, k + 1) ∧
            IDToEntry.find w'.id_to_entry_ id ≠ some (m, k + 2)) ∧
          ∃ view : ZoomView, v.child_views = [.zoom view] ∧ view.menu_model_ = m ∧
            view.decrement_button_.tag = k ∧ view.increment_button_.tag = k + 1 ∧
            view.fullscreen_button_.tag = k + 2 ∧ view.fullscreen_index_ = k + 2) ∧
        (∀ (j fuel0 : Nat) (u : WrenchMenu) (parent n : Int) (r : Int × WrenchMenu),
          k = (j : Int) + m.GetFirstItemIndex → u.Fresh n →
          PopulateMenuFrom debugConfig sampleIds (fuel0 + 1) u parent m j n = .ok r →
          ∃ (u2 : WrenchMenu) (v0 : MenuItemView), u2.menu_items = u.menu_items ++ [v0] ∧
            v0.command = n ∧ v0.model = m ∧ v0.index = k ∧
            PopulateMenuFrom debugConfig sampleIds fuel0 u2 parent m (j + 3) (n + 1) = .ok r) :=
  C5_zoom_row_consumed debugConfig sampleIds 40 create (nestedModel sampleIds) (by decide)
    ⟨rfl, rfl, rfl, rfl, rfl⟩ (by decide) (by decide) (by decide) (by decide)

end WrenchMenu

namespace WrenchMenu

/-- C6: round-trip dispatch.  Let `w'` be the menu after a successful `Init`
and `u` any later state of it with the same table and the same
`first_bookmark_command_id_`.  For every identifier `id` with table entry
`(model, index)` whose command identifier is neither `IDC_CUT` nor
`IDC_ZOOM_MINUS`: `id` is not a bookmark command, `(model, index)` is the pair
the view with identifier `id` was appended for, and `ExecuteCommand(id, flags)`
returns after exactly one call `model->ActivatedAt(index)`, changing nothing
else. -/
theorem C6_round_trip_dispatch (cfg : Config) (K : CommandIds) (fuel : Nat)
    (w : WrenchMenu) (root : MenuModel) (w' : WrenchMenu) (hw : w.Unpopulated)
    (h : Init cfg K fuel w root = .ok w') (u : WrenchMenu)
    (hu1 : u.id_to_entry_ = w'.id_to_entry_)
    (hu2 : u.first_bookmark_command_id_ = w'.first_bookmark_command_id_)
    (id : Int) (model : MenuModel) (index : Int)
    (hfind : IDToEntry.find w'.id_to_entry_ id = some (model, index))
    (h1 : model.GetCommandIdAt index ≠ some K.IDC_CUT)
    (h2 : model.GetCommandIdAt index ≠ some K.IDC_ZOOM_MINUS) (mouse_event_flags : Int) :
    u.is_bookmark_command id = false ∧
    (∃ v ∈ w'.menu_items, v.command = id ∧ v.model = model ∧ v.index = index) ∧
    ExecuteCommand K u id mouse_event_flags =
      .ok { u with activated := u.activated ++ [(model, index)] } := by
  have hnb := Init_entry_not_bookmark cfg K fuel w root w' hw h u hu2 id _ hfind
  obtain ⟨hc, _, htab, hkeys, hok, _⟩ := Init_effect cfg K fuel w root w' hw h
  obtain ⟨hk1, hk2⟩ := hkeys id _ hfind
  have hmem : id ∈ w'.menu_items.map (fun v => v.command) := by
    rw [consecutiveFrom_mem _ _ hc]
    simp only [List.length_map]
    omega
  obtain ⟨v, hv, hvc⟩ := List.mem_map.1 hmem
  have hsrc := htab v hv
  rw [hvc, hfind] at hsrc
  have hsrc' := Option.some.inj hsrc
  simp only [Prod.mk.injEq] at hsrc'
  refine ⟨hnb, ⟨v, hv, hvc, hsrc'.1.symm, hsrc'.2.symm⟩, ?_⟩
  have hin := (hok v hv).1
  rw [← hsrc'.1, ← hsrc'.2] at hin
  obtain ⟨x, hx⟩ := Option.isSome_iff_exists.1 hin
  have hcmd : model.GetCommandIdAt index = some x.1.command_id := by
    simp [MenuModel.GetCommandIdAt, hx]
  rw [hcmd] at h1 h2
  have h1' : x.1.command_id ≠ K.IDC_CUT := fun hc' => h1 (by rw [hc'])
  have h2' : x.1.command_id ≠ K.IDC_ZOOM_MINUS := fun hc' => h2 (by rw [hc'])
  unfold ExecuteCommand
  simp [hnb, hu1, hfind, hcmd, query, bind, Except.bind, pure, Except.pure, h1', h2']

/-- Witness of C6: identifier 1 of the scenario (the command with identifier
10 at index 0). -/
theorem C6_round_trip_dispatch_witness :
    (create.Unpopulated ∧
      Init debugConfig sampleIds 27 create (scenarioModel sampleIds)
        = .ok (scenarioMenu debugConfig sampleIds) ∧
      IDToEntry.find (scenarioMenu debugConfig sampleIds).id_to_entry_ 1
        = some (scenarioModel sampleIds, 0) ∧
      (scenarioModel sampleIds).GetCommandIdAt 0 ≠ some sampleIds.IDC_CUT ∧
      (scenarioModel sampleIds).GetCommandIdAt 0 ≠ some sampleIds.IDC_ZOOM_MINUS) ∧
    ((scenarioMenu debugConfig sampleIds).is_bookmark_command 1 = false ∧
    (∃ v ∈ (scenarioMenu debugConfig sampleIds).menu_items,
      v.command = 1 ∧ v.model = scenarioModel sampleIds ∧ v.index = 0) ∧
    ExecuteCommand sampleIds (scenarioMenu debugConfig sampleIds) 1 0 =
      .ok { scenarioMenu debugConfig sampleIds with
        activated := (scenarioMenu debugConfig sampleIds).activated
          ++ [(scenarioModel sampleIds, 0)] }) :=
  ⟨⟨⟨rfl, rfl, rfl, rfl, rfl⟩, rfl, rfl, by decide, by decide⟩,
    C6_round_trip_dispatch debugConfig sampleIds 27 create (scenarioModel sampleIds)
      (scenarioMenu debugConfig sampleIds) ⟨rfl, rfl, rfl, rfl, rfl⟩ rfl
      (scenarioMenu debugConfig sampleIds) rfl rfl 1 (scenarioModel sampleIds) 0 rfl
      (by decide) (by decide) 0⟩

/-- C7: row-background no-op.  Let `w'` be the menu after a successful `Init`
and `u` any later state of it with the same table and the same
`first_bookmark_command_id_`.  For every identifier `id` in the table whose
entry has command identifier `IDC_CUT` or `IDC_ZOOM_MINUS`,
`ExecuteCommand(id, flags)` returns with the state unchanged: no model is
activated, and the table, the selected model and the selected index are as
before. -/
theorem C7_row_background_noop (cfg : Config) (K : CommandIds) (fuel : Nat)
    (w : WrenchMenu) (root : MenuModel) (w' : WrenchMenu) (hw : w.Unpopulated)
    (h : Init cfg K fuel w root = .ok w') (u : WrenchMenu)
    (hu1 : u.id_to_entry_ = w'.id_to_entry_)
    (hu2 : u.first_bookmark_command_id_ = w'.first_bookmark_command_id_)
    (id : Int) (model : MenuModel) (index : Int)
    (hfind : IDToEntry.find w'.id_to_entry_ id = some (model, index))
    (hrow : model.GetCommandIdAt index = some K.IDC_CUT ∨
      model.GetCommandIdAt index = some K.IDC_ZOOM_MINUS) (mouse_event_flags : Int) :
    ExecuteCommand K u id mouse_event_flags = .ok u := by
  have hnb := Init_entry_not_bookmark cfg K fuel w root w' hw h u hu2 id _ hfind
  unfold ExecuteCommand
  rcases hrow with hc | hc
  · simp [hnb, hu1, hfind, hc, query, bind, Except.bind, pure, Except.pure]
  · simp [hnb, hu1, hfind, hc, query, bind, Except.bind, pure, Except.pure]

/-- Witness of C7: identifier 2 of the scenario (the cut row at index 1). -/
theorem C7_row_background_noop_witness :
    (create.Unpopulated ∧
      Init debugConfig sampleIds 27 create (scenarioModel sampleIds)
        = .ok (scenarioMenu debugConfig sampleIds) ∧
      IDToEntry.find (scenarioMenu debugConfig sampleIds).id_to_entry_ 2
        = some (scenarioModel sampleIds, 1) ∧
      ((scenarioModel sampleIds).GetCommandIdAt 1 = some sampleIds.IDC_CUT ∨
        (scenarioModel sampleIds).GetCommandIdAt 1 = some sampleIds.IDC_ZOOM_MINUS)) ∧
    ExecuteCommand sampleIds (scenarioMenu debugConfig sampleIds) 2 0 =
      .ok (scenarioMenu debugConfig sampleIds) :=
  ⟨⟨⟨rfl, rfl, rfl, rfl, rfl⟩, rfl, rfl, Or.inl rfl⟩,
    C7_row_background_noop debugConfig sampleIds 27 create (scenarioModel sampleIds)
      (scenarioMenu debugConfig sampleIds) ⟨rfl, rfl, rfl, rfl, rfl⟩ rfl
      (scenarioMenu debugConfig sampleIds) rfl rfl 2 (scenarioModel sampleIds) 1 rfl
      (Or.inl rfl) 0⟩

end WrenchMenu

namespace WrenchMenu

/-- C8: the scenario.  For the flat model `[Command(10), IDC_CUT, IDC_COPY,
IDC_PASTE, Command(20)]` (10 and 20 not being one of the command constants,
which are pairwise distinct), `Init` of an unpopulated menu returns and assigns
the identifiers 1, 2, 3 to the model indices 0, 1, 4: the table maps 1 to
(model, 0), 2 to (model, 1) and 3 to (model, 4); and the view with identifier 2
has one child view, the cut/copy/paste view, with buttons tagged 1, 2, 3. -/
theorem C8_scenario_identifiers (cfg : Config) (K : CommandIds) (fuel : Nat)
    (w : WrenchMenu) (hK : K.Distinct) (h10 : (10 : Int) ∉ K.all)
    (h20 : (20 : Int) ∉ K.all) (hw : w.Unpopulated)
    (hfuel : (scenarioModel K).fuelBound ≤ fuel) :
    ∃ w', Init cfg K fuel w (scenarioModel K) = .ok w' ∧
      IDToEntry.find w'.id_to_entry_ 1 = some (scenarioModel K, 0) ∧
      IDToEntry.find w'.id_to_entry_ 2 = some (scenarioModel K, 1) ∧
      IDToEntry.find w'.id_to_entry_ 3 = some (scenarioModel K, 4) ∧
      ∃ v ∈ w'.menu_items, v.command = 2 ∧
        ∃ view : CutCopyPasteView, v.child_views = [.cut_copy_paste view] ∧
          (view.children.map fun b => b.tag) = [1, 2, 3] := by
  obtain ⟨w', h⟩ := Init_total cfg K fuel w (scenarioModel K) hw
    (scenario_wellFormed K hK h10 h20) (Or.inr (scenario_noZoomRow K hK h10 h20)) hfuel
  obtain ⟨v1, v2, v3, hitems, hv1c, hv1m, hv1i, hv2c, hv2m, hv2i, ⟨view, hcv, _, htags⟩, hv3c,
    hv3m, hv3i⟩ := scenario_run cfg K fuel w w' h10 h20 hw h
  obtain ⟨_, _, htab, _⟩ := Init_effect cfg K fuel w (scenarioModel K) w' hw h
  have t1 := htab v1 (by rw [hitems]; simp)
  have t2 := htab v2 (by rw [hitems]; simp)
  have t3 := htab v3 (by rw [hitems]; simp)
  rw [hv1c, hv1m, hv1i] at t1
  rw [hv2c, hv2m, hv2i] at t2
  rw [hv3c, hv3m, hv3i] at t3
  exact ⟨w', h, t1, t2, t3, v2, by rw [hitems]; simp, hv2c, view, hcv, htags⟩

/-- Witness of C8: the sample command constants in a debug build. -/
theorem C8_scenario_identifiers_witness :
    ∃ w', Init debugConfig sampleIds 27 create (scenarioModel sampleIds) = .ok w' ∧
      IDToEntry.find w'.id_to_entry_ 1 = some (scenarioModel sampleIds, 0) ∧
      IDToEntry.find w'.id_to_entry_ 2 = some (scenarioModel sampleIds, 1) ∧
      IDToEntry.find w'.id_to_entry_ 3 = some (scenarioModel sampleIds, 4) ∧
      ∃ v ∈ w'.menu_items, v.command = 2 ∧
        ∃ view : CutCopyPasteView, v.child_views = [.cut_copy_paste view] ∧
          (view.children.map fun b => b.tag) = [1, 2, 3] :=
  C8_scenario_identifiers debugConfig sampleIds 27 create (by decide) (by decide) (by decide)
    ⟨rfl, rfl, rfl, rfl, rfl⟩ (by decide)

/-- C9 (as stated) fails: in the scenario identifier 3 is assigned and has a
table entry, (model, 4), and the counter ends at 4 (so that
`first_bookmark_command_id_` is 5). -/
theorem C9_counterexample :
    Init debugConfig sampleIds 27 create (scenarioModel sampleIds)
      = .ok (scenarioMenu debugConfig sampleIds) ∧
    IDToEntry.find (scenarioMenu debugConfig sampleIds).id_to_entry_ 3
      = some (scenarioModel sampleIds, 4) ∧
    IDToEntry.find (scenarioMenu debugConfig sampleIds).id_to_entry_ 3 ≠ none ∧
    (scenarioMenu debugConfig sampleIds).first_bookmark_command_id_ = 5 :=
  ⟨rfl, rfl, fun h => Option.noConfusion h, rfl⟩

/-- C9 (amended): for the flat model `[Command(10), IDC_CUT, IDC_COPY,
IDC_PASTE, Command(20)]` exactly the identifiers 1, 2 and 3 are assigned by
`Init`: the triple takes one identifier for its three indices, so the five
indices take three identifiers, identifier 3 has the table entry (model, 4),
and the counter ends at 4, the next free identifier. -/
theorem C9_scenario_counter (cfg : Config) (K : CommandIds) (fuel : Nat)
    (w : WrenchMenu) (hK : K.Distinct) (h10 : (10 : Int) ∉ K.all)
    (h20 : (20 : Int) ∉ K.all) (hw : w.Unpopulated)
    (hfuel : (scenarioModel K).fuelBound ≤ fuel) :
    ∃ w1 w', PopulateMenu cfg K fuel
        { w with root_ := some { has_icons := true, cancel_calls := 0 }, menu_items := [] }
        0 (scenarioModel K) 1 = .ok (4, w1) ∧
      Init cfg K fuel w (scenarioModel K) = .ok w' ∧
      (∀ id : Int, (IDToEntry.find w'.id_to_entry_ id).isSome = true ↔ 1 ≤ id ∧ id ≤ 3) ∧
      IDToEntry.find w'.id_to_entry_ 3 = some (scenarioModel K, 4) ∧
      w'.first_bookmark_command_id_ = 5 := by
  obtain ⟨w', h⟩ := Init_total cfg K fuel w (scenarioModel K) hw
    (scenario_wellFormed K hK h10 h20) (Or.inr (scenario_noZoomRow K hK h10 h20)) hfuel
  obtain ⟨v1, v2, v3, hitems, _, _, _, _, _, _, _, hv3c, hv3m, hv3i⟩ :=
    scenario_run cfg K fuel w w' h10 h20 hw h
  obtain ⟨hc, hfb, htab, hkeys, _, _, _, w1, hp, _⟩ :=
    Init_effect cfg K fuel w (scenarioModel K) w' hw h
  have hlen : w'.menu_items.length = 3 := by rw [hitems]; rfl
  rw [hlen] at hp hfb hkeys
  have t3 := htab v3 (by rw [hitems]; simp)
  rw [hv3c, hv3m, hv3i] at t3
  refine ⟨w1, w', by simpa using hp, h, ?_, t3, by rw [hfb]; rfl⟩
  intro id
  constructor
  · intro hsome
    obtain ⟨e, he⟩ := Option.isSome_iff_exists.1 hsome
    simpa using hkeys id e he
  · intro ⟨h1, h2⟩
    have hmem : id ∈ w'.menu_items.map (fun v => v.command) := by
      rw [consecutiveFrom_mem _ _ hc]
      simp only [List.length_map, hlen]
      omega
    obtain ⟨v, hv, hvc⟩ := List.mem_map.1 hmem
    rw [← hvc, htab v hv]
    rfl

/-- Witness of C9 (amended): the sample command constants in a debug build. -/
theorem C9_scenario_counter_witness :
    ∃ w1 w', PopulateMenu debugConfig sampleIds 27
        { create with root_ := some { has_icons := true, cancel_calls := 0 }, menu_items := [] }
        0 (scenarioModel sampleIds) 1 = .ok (4, w1) ∧
      Init debugConfig sampleIds 27 create (scenarioModel sampleIds) = .ok w' ∧
      (∀ id : Int, (IDToEntry.find w'.id_to_entry_ id).isSome = true ↔ 1 ≤ id ∧ id ≤ 3) ∧
      IDToEntry.find w'.id_to_entry_ 3 = some (scenarioModel sampleIds, 4) ∧
      w'.first_bookmark_command_id_ = 5 :=
  C9_scenario_counter debugConfig sampleIds 27 create (by decide) (by decide) (by decide)
    ⟨rfl, rfl, rfl, rfl, rfl⟩ (by decide)

end WrenchMenu

namespace WrenchMenu

/-- C10 (as stated) fails: in a release build, where DCHECKs are compiled out,
`PopulateMenu` on `[IDC_CUT, Command(10), Command(20)]` returns normally: it
makes one view with identifier 1, attaches the cut/copy/paste view with the
tags 0, 1, 2 to it, skips the two commands and ends the walk with counter 2. -/
theorem C10_counterexample :
    ∃ r, PopulateMenu releaseConfig sampleIds 10 create 0 (malformedCutModel sampleIds) 1
        = .ok r ∧ r.1 = 2 ∧
      (r.2.menu_items.map fun v => (v.command, v.index, v.child_views.map ChildView.tags))
        = [(1, 0, [[0, 1, 2]])] :=
  ⟨_, rfl, rfl, rfl⟩

/-- C10 (amended): in a build with DCHECKs compiled in, and with pairwise
distinct command constants, a model that has at loop position `i` an `IDC_CUT`
item such that `i + 2` is not less than the item count, or the item at
`index + 1` is not `IDC_COPY`, or the item at `index + 2` is not `IDC_PASTE`,
makes `PopulateMenu` fail: it never returns normally, and when the loop is at
position `i` (the item not being a submenu) the iteration stops with the
DCHECK failure, before the composite control is attached. -/
theorem C10_malformed_cut_fails_under_dcheck (cfg : Config) (K : CommandIds)
    (hK : K.Distinct) (hd : cfg.dcheck_is_on = true) (model : MenuModel) (i : Nat)
    (hcut : model.GetCommandIdAt ((i : Int) + model.GetFirstItemIndex) = some K.IDC_CUT)
    (hbad : ¬ (i + 2 < model.GetItemCount ∧
      model.GetCommandIdAt ((i : Int) + model.GetFirstItemIndex + 1) = some K.IDC_COPY ∧
      model.GetCommandIdAt ((i : Int) + model.GetFirstItemIndex + 2) = some K.IDC_PASTE)) :
    (∀ (fuel : Nat) (w : WrenchMenu) (parent n : Int) (r : Int × WrenchMenu),
      PopulateMenu cfg K fuel w parent model n ≠ .ok r) ∧
    (∀ (fuel : Nat) (w : WrenchMenu) (parent n : Int),
      model.GetTypeAt ((i : Int) + model.GetFirstItemIndex) ≠ some .TYPE_SUBMENU →
      PopulateMenuFrom cfg K (fuel + 1) w parent model i n = .error .DCHECK) := by
  constructor
  · intro fuel w parent n r
    exact PopulateMenuFrom_cut_malformed cfg K hK hd model i hcut hbad fuel w parent 0 n r
      (Nat.zero_le _)
  · intro fuel w parent n hty
    exact PopulateMenuFrom_cut_malformed_here cfg K hd model i hcut hty hbad fuel w parent n

/-- Witness of C10 (amended): the model `[IDC_CUT, Command(10), Command(20)]`
in a debug build. -/
theorem C10_malformed_cut_fails_under_dcheck_witness :
    (sampleIds.Distinct ∧ debugConfig.dcheck_is_on = true ∧
      (malformedCutModel sampleIds).GetCommandIdAt
        (((0 : Nat) : Int) + (malformedCutModel sampleIds).GetFirstItemIndex)
        = some sampleIds.IDC_CUT ∧
      ¬ (0 + 2 < (malformedCutModel sampleIds).GetItemCount ∧
        (malformedCutModel sampleIds).GetCommandIdAt
          (((0 : Nat) : Int) + (malformedCutModel sampleIds).GetFirstItemIndex + 1)
          = some sampleIds.IDC_COPY ∧
        (malformedCutModel sampleIds).GetCommandIdAt
          (((0 : Nat) : Int) + (malformedCutModel sampleIds).GetFirstItemIndex + 2)
          = some sampleIds.IDC_PASTE)) ∧
    ((∀ (fuel : Nat) (w : WrenchMenu) (parent n : Int) (r : Int × WrenchMenu),
      PopulateMenu debugConfig sampleIds fuel w parent (malformedCutModel sampleIds) n ≠ .ok r) ∧
    (∀ (fuel : Nat) (w : WrenchMenu) (parent n : Int),
      (malformedCutModel sampleIds).GetTypeAt
        (((0 : Nat) : Int) + (malformedCutModel sampleIds).GetFirstItemIndex)
        ≠ some .TYPE_SUBMENU →
      PopulateMenuFrom debugConfig sampleIds (fuel + 1) w parent (malformedCutModel sampleIds)
        0 n = .error .DCHECK)) :=
  ⟨⟨by decide, rfl, by decide, by decide⟩,
    C10_malformed_cut_fails_under_dcheck debugConfig sampleIds (by decide) rfl
      (malformedCutModel sampleIds) 0 (by decide) (by decide)⟩

end WrenchMenu

namespace WrenchMenu

/-- C11 (code defect): the `IDC_ZOOM_MINUS` case of `PopulateMenu` has no
`DCHECK_LT(i + 2, max)`, unlike the `IDC_CUT` case.  With DCHECKs compiled
in, when the loop is at position `i`, the item there is an `IDC_ZOOM_MINUS`
command, and it is the last item of the model, or the item before the last
and followed by `IDC_ZOOM_PLUS`, the iteration ends not with a DCHECK failure
but with the model asked for the command identifier of an index past its
end. -/
theorem C11_zoom_row_not_bounds_checked (cfg : Config) (K : CommandIds)
    (hd : cfg.dcheck_is_on = true) (hne : K.IDC_ZOOM_MINUS ≠ K.IDC_CUT)
    (model : MenuModel) (i : Nat)
    (hzoom : model.GetCommandIdAt ((i : Int) + model.GetFirstItemIndex) = some K.IDC_ZOOM_MINUS)
    (hty : model.GetTypeAt ((i : Int) + model.GetFirstItemIndex) = some .TYPE_COMMAND)
    (hshort : i + 1 = model.GetItemCount ∨ (i + 2 = model.GetItemCount ∧
      model.GetCommandIdAt ((i : Int) + model.GetFirstItemIndex + 1) = some K.IDC_ZOOM_PLUS))
    (fuel : Nat) (w : WrenchMenu) (parent n : Int) :
    PopulateMenuFrom cfg K (fuel + 1) w parent model i n = .error .OUT_OF_RANGE :=
  PopulateMenuFrom_zoom_short_here cfg K hd hne model i hzoom hty hshort fuel w parent n

/-- Witness of C11: in a debug build the second iteration on
`[Command(10), IDC_ZOOM_MINUS]` queries the model past its end, and so does
`Init` on that model and on `[Command(10), IDC_ZOOM_MINUS, IDC_ZOOM_PLUS]`,
while `Init` on `[Command(10), IDC_CUT]` stops with the DCHECK failure. -/
theorem C11_zoom_row_not_bounds_checked_witness :
    (debugConfig.dcheck_is_on = true ∧ sampleIds.IDC_ZOOM_MINUS ≠ sampleIds.IDC_CUT ∧
      (zoomLastModel sampleIds).GetCommandIdAt
        (((1 : Nat) : Int) + (zoomLastModel sampleIds).GetFirstItemIndex)
        = some sampleIds.IDC_ZOOM_MINUS ∧
      (zoomLastModel sampleIds).GetTypeAt
        (((1 : Nat) : Int) + (zoomLastModel sampleIds).GetFirstItemIndex)
        = some .TYPE_COMMAND ∧
      1 + 1 = (zoomLastModel sampleIds).GetItemCount) ∧
    PopulateMenuFrom debugConfig sampleIds (8 + 1) create 0 (zoomLastModel sampleIds) 1 2
      = .error .OUT_OF_RANGE ∧
    Init debugConfig sampleIds 10 create (zoomLastModel sampleIds) = .error .OUT_OF_RANGE ∧
    Init debugConfig sampleIds 10 create (zoomSecondLastModel sampleIds)
      = .error .OUT_OF_RANGE ∧
    Init debugConfig sampleIds 10 create (cutLastModel sampleIds) = .error .DCHECK :=
  ⟨⟨rfl, by decide, by decide, by decide, by decide⟩,
    C11_zoom_row_not_bounds_checked debugConfig sampleIds rfl (by decide)
      (zoomLastModel sampleIds) 1 (by decide) (by decide) (Or.inl (by decide)) 8 create 0 2,
    rfl, rfl, rfl⟩

end WrenchMenu

namespace WrenchMenu

/-- C13 (code defect): `IsCommandEnabled` and `IsItemChecked` dereference the
iterator returned by `id_to_entry_.find(id)` without comparing it with
`end()`, the check `GetAccelerator` makes.  For an identifier that is not a
bookmark command, is not 0 and has no entry, neither function returns false:
both dereference the past-the-end iterator. -/
theorem C13_state_queries_miss_undefined (K : CommandIds) (w : WrenchMenu) (id : Int)
    (hb : w.is_bookmark_command id = false) (h0 : id ≠ 0)
    (hmiss : IDToEntry.find w.id_to_entry_ id = none) :
    IsCommandEnabled K w id = .error .UNDEFINED ∧ IsItemChecked w id = .error .UNDEFINED := by
  unfold IsCommandEnabled IsItemChecked
  simp [hb, h0, hmiss]

/-- Witness of C13: identifier 7 on the scenario menu, whose table has the
keys 1, 2 and 3. -/
theorem C13_state_queries_miss_undefined_witness :
    ((scenarioMenu debugConfig sampleIds).is_bookmark_command 7 = false ∧ (7 : Int) ≠ 0 ∧
      IDToEntry.find (scenarioMenu debugConfig sampleIds).id_to_entry_ 7 = none) ∧
    (IsCommandEnabled sampleIds (scenarioMenu debugConfig sampleIds) 7 = .error .UNDEFINED ∧
      IsItemChecked (scenarioMenu debugConfig sampleIds) 7 = .error .UNDEFINED) :=
  ⟨⟨rfl, by decide, rfl⟩,
    C13_state_queries_miss_undefined sampleIds (scenarioMenu debugConfig sampleIds) 7 rfl
      (by decide) rfl⟩

/-- C14: lookup miss on the accelerator query.  For an identifier that is a
bookmark command or has no entry in `id_to_entry_`, `GetAccelerator(id, out)`
returns false, leaves `*out` as it was and leaves the menu, its table
included, as it was. -/
theorem C14_accelerator_lookup_miss (K : CommandIds) (w : WrenchMenu) (id : Int)
    (out : Accelerator)
    (h : w.is_bookmark_command id = true ∨ IDToEntry.find w.id_to_entry_ id = none) :
    GetAccelerator K w id out = .ok (false, out, w) ∧
      ∀ r, GetAccelerator K w id out = .ok r →
        IDToEntry.find r.2.2.id_to_entry_ id = IDToEntry.find w.id_to_entry_ id := by
  have hmain : GetAccelerator K w id out = .ok (false, out, w) := by
    unfold GetAccelerator
    rcases h with hb | hmiss
    · simp [hb]
    · cases hb : w.is_bookmark_command id <;> simp [hmiss]
  refine ⟨hmain, ?_⟩
  intro r hr
  rw [hmain] at hr
  cases hr
  rfl

/-- Witness of C14: identifier 7 on the scenario menu, whose table has the
keys 1, 2 and 3. -/
theorem C14_accelerator_lookup_miss_witness :
    (IDToEntry.find (scenarioMenu debugConfig sampleIds).id_to_entry_ 7 = none) ∧
    (GetAccelerator sampleIds (scenarioMenu debugConfig sampleIds) 7
        { key_code := 65, modifiers := 1 }
        = .ok (false, { key_code := 65, modifiers := 1 }, scenarioMenu debugConfig sampleIds) ∧
      ∀ r, GetAccelerator sampleIds (scenarioMenu debugConfig sampleIds) 7
          { key_code := 65, modifiers := 1 } = .ok r →
        IDToEntry.find r.2.2.id_to_entry_ 7
          = IDToEntry.find (scenarioMenu debugConfig sampleIds).id_to_entry_ 7) :=
  ⟨rfl, C14_accelerator_lookup_miss sampleIds (scenarioMenu debugConfig sampleIds) 7
    { key_code := 65, modifiers := 1 } (Or.inr rfl)⟩

/-- C15: accelerator indirection and suppression.  Let `w'` be the menu after
a successful `Init` and `u` any later state of it with the same table and the
same `first_bookmark_command_id_`.  For every identifier `id` with table entry
`(model, index)` the model has a command identifier `c` and an accelerator
answer `acc` at `index`, and `GetAccelerator(id, out)` returns: false with
`*out` untouched when `c` is `IDC_CUT` or `IDC_ZOOM_MINUS`, whatever `acc` is;
otherwise false with `*out` untouched when the model reports no accelerator,
and true with `*out` holding the key code and modifiers of the accelerator the
model reports. -/
theorem C15_accelerator_indirection (cfg : Config) (K : CommandIds) (fuel : Nat)
    (w : WrenchMenu) (root : MenuModel) (w' : WrenchMenu) (hw : w.Unpopulated)
    (h : Init cfg K fuel w root = .ok w') (u : WrenchMenu)
    (hu1 : u.id_to_entry_ = w'.id_to_entry_)
    (hu2 : u.first_bookmark_command_id_ = w'.first_bookmark_command_id_)
    (id : Int) (model : MenuModel) (index : Int)
    (hfind : IDToEntry.find w'.id_to_entry_ id = some (model, index)) (out : Accelerator) :
    ∃ (c : Int) (acc : Option Accelerator),
      model.GetCommandIdAt index = some c ∧ model.GetAcceleratorAt index = some acc ∧
      GetAccelerator K u id out = .ok
        (if c = K.IDC_CUT ∨ c = K.IDC_ZOOM_MINUS then (false, out, u)
         else
          match acc with
          | none => (false, out, u)
          | some a => (true, { key_code := a.key_code, modifiers := a.modifiers }, u)) := by
  have hnb := Init_entry_not_bookmark cfg K fuel w root w' hw h u hu2 id _ hfind
  have hin := Init_entry_in_model cfg K fuel w root w' hw h id model index hfind
  obtain ⟨x, hx⟩ := Option.isSome_iff_exists.1 hin
  refine ⟨x.1.command_id, x.1.accelerator, ?_, ?_, ?_⟩
  · simp [MenuModel.GetCommandIdAt, hx]
  · simp [MenuModel.GetAcceleratorAt, hx]
  · rw [← hu1] at hfind
    exact GetAccelerator_entry K u id model index x out hnb hfind hx

/-- Witness of C15: on the model whose items all report accelerators,
identifier 2 (the `IDC_CUT` row) gets no accelerator although the model
reports one, and identifier 1 gets key code and modifiers of the model's. -/
theorem C15_accelerator_indirection_witness :
    (create.Unpopulated ∧
      Init debugConfig sampleIds 27 create (acceleratedModel sampleIds)
        = .ok (acceleratedMenu debugConfig sampleIds) ∧
      IDToEntry.find (acceleratedMenu debugConfig sampleIds).id_to_entry_ 2
        = some (acceleratedModel sampleIds, 1) ∧
      IDToEntry.find (acceleratedMenu debugConfig sampleIds).id_to_entry_ 1
        = some (acceleratedModel sampleIds, 0)) ∧
    (∃ (c : Int) (acc : Option Accelerator),
      (acceleratedModel sampleIds).GetCommandIdAt 1 = some c ∧
      (acceleratedModel sampleIds).GetAcceleratorAt 1 = some acc ∧
      GetAccelerator sampleIds (acceleratedMenu debugConfig sampleIds) 2
          { key_code := 65, modifiers := 1 } = .ok
        (if c = sampleIds.IDC_CUT ∨ c = sampleIds.IDC_ZOOM_MINUS then
          (false, { key_code := 65, modifiers := 1 }, acceleratedMenu debugConfig sampleIds)
         else
          match acc with
          | none =>
            (false, { key_code := 65, modifiers := 1 }, acceleratedMenu debugConfig sampleIds)
          | some a => (true, { key_code := a.key_code, modifiers := a.modifiers },
              acceleratedMenu debugConfig sampleIds))) ∧
    (acceleratedModel sampleIds).GetAcceleratorAt 1 = some (some { key_code := 88, modifiers := 2 }) ∧
    GetAccelerator sampleIds (acceleratedMenu debugConfig sampleIds) 2
      { key_code := 65, modifiers := 1 }
      = .ok (false, { key_code := 65, modifiers := 1 }, acceleratedMenu debugConfig sampleIds) ∧
    GetAccelerator sampleIds (acceleratedMenu debugConfig sampleIds) 1
      { key_code := 65, modifiers := 1 }
      = .ok (true, { key_code := 84, modifiers := 2 }, acceleratedMenu debugConfig sampleIds) :=
  ⟨⟨⟨rfl, rfl, rfl, rfl, rfl⟩, rfl, rfl, rfl⟩,
    C15_accelerator_indirection debugConfig sampleIds 27 create (acceleratedModel sampleIds)
      (acceleratedMenu debugConfig sampleIds) ⟨rfl, rfl, rfl, rfl, rfl⟩ rfl
      (acceleratedMenu debugConfig sampleIds) rfl rfl 2 (acceleratedModel sampleIds) 1 rfl
      { key_code := 65, modifiers := 1 },
    rfl, rfl, rfl⟩

end WrenchMenu

namespace WrenchMenu

/-- C16: deferred activation after teardown.  Let `during` be the toolkit
calls made while `RunMenuAt` shows the menu, all of which return, and `w1` the
menu after them.  Then `RunMenu` returns, and the calls `ActivatedAt` made by
then are those made during the run followed by: nothing when the run returned
`MENU_DELETED`; otherwise the one call `model->ActivatedAt(index)` for the
arguments of the last call of `CancelAndEvaluate`, and nothing when
`CancelAndEvaluate` was never called (not before the run, when
`selected_menu_model_` is still NULL, and not during it). -/
theorem C16_deferred_activation (cfg : Config) (K : CommandIds) (w : WrenchMenu)
    (during : List Callback) (result : RunResult)
    (hrun : w.menu_runner_ = true)
    (hdur : (Callback.deliverAll cfg K w during).isOk = true) :
    ∃ w1 w', Callback.deliverAll cfg K w during = .ok w1 ∧
      RunMenu cfg K w during result = .ok w' ∧
      (result = .MENU_DELETED → w'.activated = w1.activated) ∧
      (result ≠ .MENU_DELETED → ∀ model index,
        lastCancelRequest w.selection during = some (model, index) →
        w'.activated = w1.activated ++ [(model, index)]) ∧
      (result ≠ .MENU_DELETED → w.selected_menu_model_ = none →
        (∀ c ∈ during, c.cancelRequest = none) → w'.activated = w1.activated) := by
  obtain ⟨w1, hw1⟩ := (Except.isOk_iff _).1 hdur
  have hsel := Callback.deliverAll_selection cfg K during w w1 hw1
  by_cases hres : result = .MENU_DELETED
  · refine ⟨w1, w1, hw1, ?_, fun _ => rfl, fun h => absurd hres h, fun h => absurd hres h⟩
    unfold RunMenu
    simp only [hrun, if_true, hw1, if_pos hres]
  · cases hm : w1.selected_menu_model_ with
    | none =>
      have hnone : w1.selection = none := by unfold selection; rw [hm]; rfl
      refine ⟨w1, w1, hw1, ?_, fun _ => rfl, ?_, fun _ _ _ => rfl⟩
      · unfold RunMenu
        simp only [hrun, if_true, hw1, if_neg hres, hm]
      · intro _ model index hlast
        rw [← hsel, hnone] at hlast
        cases hlast
    | some m =>
      have hsome : w1.selection = some (m, w1.selected_index_) := by
        unfold selection; rw [hm]; rfl
      refine ⟨w1, { w1 with activated := w1.activated ++ [(m, w1.selected_index_)] }, hw1, ?_,
        fun h => absurd h hres, ?_, ?_⟩
      · unfold RunMenu
        simp only [hrun, if_true, hw1, if_neg hres, hm]
      · intro _ model index hlast
        rw [← hsel, hsome] at hlast
        rw [← Option.some.inj hlast]
      · intro _ hw hall
        have hb : w.selection = none := by unfold selection; rw [hw]; rfl
        rw [lastCancelRequest_none _ during hall, hb, hsome] at hsel
        cases hsel

/-- Witness of C16: on the scenario menu the run delivers `ExecuteCommand(1)`,
a press of the copy button and a press of the paste button, and returns
normally; `RunMenu` then activates index 3 of the model, once, after the
activation of index 0 made during the run. -/
theorem C16_deferred_activation_witness :
    ((scenarioMenu debugConfig sampleIds).menu_runner_ = true ∧
      (Callback.deliverAll debugConfig sampleIds (scenarioMenu debugConfig sampleIds)
        [.ExecuteCommand 1 0,
         .CutCopyPasteButtonPressed (scenarioCutCopyPasteView sampleIds) 2,
         .CutCopyPasteButtonPressed (scenarioCutCopyPasteView sampleIds) 3]).isOk = true) ∧
    (∃ w1 w', Callback.deliverAll debugConfig sampleIds (scenarioMenu debugConfig sampleIds)
        [.ExecuteCommand 1 0,
         .CutCopyPasteButtonPressed (scenarioCutCopyPasteView sampleIds) 2,
         .CutCopyPasteButtonPressed (scenarioCutCopyPasteView sampleIds) 3] = .ok w1 ∧
      RunMenu debugConfig sampleIds (scenarioMenu debugConfig sampleIds)
        [.ExecuteCommand 1 0,
         .CutCopyPasteButtonPressed (scenarioCutCopyPasteView sampleIds) 2,
         .CutCopyPasteButtonPressed (scenarioCutCopyPasteView sampleIds) 3]
        .NORMAL_EXIT = .ok w' ∧
      (RunResult.NORMAL_EXIT = .MENU_DELETED → w'.activated = w1.activated) ∧
      (RunResult.NORMAL_EXIT ≠ .MENU_DELETED → ∀ model index,
        lastCancelRequest (scenarioMenu debugConfig sampleIds).selection
          [.ExecuteCommand 1 0,
           .CutCopyPasteButtonPressed (scenarioCutCopyPasteView sampleIds) 2,
           .CutCopyPasteButtonPressed (scenarioCutCopyPasteView sampleIds) 3]
          = some (model, index) →
        w'.activated = w1.activated ++ [(model, index)]) ∧
      (RunResult.NORMAL_EXIT ≠ .MENU_DELETED →
        (scenarioMenu debugConfig sampleIds).selected_menu_model_ = none →
        (∀ c ∈ ([.ExecuteCommand 1 0,
           .CutCopyPasteButtonPressed (scenarioCutCopyPasteView sampleIds) 2,
           .CutCopyPasteButtonPressed (scenarioCutCopyPasteView sampleIds) 3] : List Callback),
          c.cancelRequest = none) → w'.activated = w1.activated)) ∧
    (∃ w', RunMenu debugConfig sampleIds (scenarioMenu debugConfig sampleIds)
        [.ExecuteCommand 1 0,
         .CutCopyPasteButtonPressed (scenarioCutCopyPasteView sampleIds) 2,
         .CutCopyPasteButtonPressed (scenarioCutCopyPasteView sampleIds) 3]
        .NORMAL_EXIT = .ok w' ∧
      w'.activated = [(scenarioModel sampleIds, 0), (scenarioModel sampleIds, 3)]) ∧
    (∃ w', RunMenu debugConfig sampleIds (scenarioMenu debugConfig sampleIds)
        [.ExecuteCommand 1 0,
         .CutCopyPasteButtonPressed (scenarioCutCopyPasteView sampleIds) 2,
         .CutCopyPasteButtonPressed (scenarioCutCopyPasteView sampleIds) 3]
        .MENU_DELETED = .ok w' ∧
      w'.activated = [(scenarioModel sampleIds, 0)]) :=
  ⟨⟨rfl, rfl⟩,
    C16_deferred_activation debugConfig sampleIds (scenarioMenu debugConfig sampleIds)
      [.ExecuteCommand 1 0,
       .CutCopyPasteButtonPressed (scenarioCutCopyPasteView sampleIds) 2,
       .CutCopyPasteButtonPressed (scenarioCutCopyPasteView sampleIds) 3]
      .NORMAL_EXIT rfl rfl,
    ⟨_, rfl, rfl⟩, ⟨_, rfl, rfl⟩⟩

/-- C17: composite sub-button policy, for a menu whose root view exists.
Pressing a `ZoomView` button whose tag differs from `fullscreen_index_` makes
the one call `menu_model_->ActivatedAt(tag)` and changes nothing else (no
`Cancel()`, selection untouched).  Pressing a `ZoomView` button whose tag is
`fullscreen_index_`, or any `CutCopyPasteView` button, makes no call
`ActivatedAt` and is the call `CancelAndEvaluate(menu_model_, tag)`: it
records `(menu_model_, tag)` as the selection and cancels the root view.
Neither path depends on `id_to_entry_` or changes it.  The views the
constructors build have the model they were built for, and the tags of their
buttons are the model indices the constructor was given, the fullscreen
button carrying `fullscreen_index_`. -/
theorem C17_sub_button_policy (menu_ : WrenchMenu) (root : RootView)
    (hroot : menu_.root_ = some root) (sender_tag : Int) :
    (∀ v : ZoomView, sender_tag ≠ v.fullscreen_index_ →
      v.ButtonPressed menu_ sender_tag =
        .ok { menu_ with activated := menu_.activated ++ [(v.menu_model_, sender_tag)] }) ∧
    (∀ v : ZoomView, sender_tag = v.fullscreen_index_ →
      v.ButtonPressed menu_ sender_tag = menu_.CancelAndEvaluate v.menu_model_ sender_tag) ∧
    (∀ v : CutCopyPasteView,
      v.ButtonPressed menu_ sender_tag = menu_.CancelAndEvaluate v.menu_model_ sender_tag) ∧
    (∀ model : MenuModel, menu_.CancelAndEvaluate model sender_tag =
      .ok { menu_ with selected_menu_model_ := some model, selected_index_ := sender_tag,
                       root_ := some { root with cancel_calls := root.cancel_calls + 1 } }) ∧
    (∀ (t : IDToEntry) (v : ZoomView),
      v.ButtonPressed { menu_ with id_to_entry_ := t } sender_tag =
        (v.ButtonPressed menu_ sender_tag).map fun r => { r with id_to_entry_ := t }) ∧
    (∀ (t : IDToEntry) (v : CutCopyPasteView),
      v.ButtonPressed { menu_ with id_to_entry_ := t } sender_tag =
        (v.ButtonPressed menu_ sender_tag).map fun r => { r with id_to_entry_ := t }) ∧
    (∀ (cfg : Config) (fuel : Nat) (model : MenuModel) (d i f : Int) (v : ZoomView),
      ZoomView.create cfg fuel model d i f = .ok v →
      v.menu_model_ = model ∧ v.fullscreen_index_ = f ∧
        (ChildView.zoom v).tags = [d, i, f]) ∧
    (∀ (cfg : Config) (model : MenuModel) (a b c : Int) (v : CutCopyPasteView),
      CutCopyPasteView.create cfg model a b c = .ok v →
      v.menu_model_ = model ∧ (ChildView.cut_copy_paste v).tags = [a, b, c]) := by
  have hcancel : ∀ (t : IDToEntry) (model : MenuModel),
      CancelAndEvaluate { menu_ with id_to_entry_ := t } model sender_tag =
        (menu_.CancelAndEvaluate model sender_tag).map fun r => { r with id_to_entry_ := t } := by
    intro t model
    rw [CancelAndEvaluate_ok menu_ model sender_tag root hroot,
      CancelAndEvaluate_ok { menu_ with id_to_entry_ := t } model sender_tag root hroot]
    rfl
  refine ⟨?_, ?_, fun _ => rfl, fun model => CancelAndEvaluate_ok menu_ model sender_tag root hroot,
    ?_, fun t v => hcancel t v.menu_model_, ?_, ?_⟩
  · intro v hne
    unfold ZoomView.ButtonPressed
    rw [if_neg hne]
  · intro v heq
    unfold ZoomView.ButtonPressed
    rw [if_pos heq]
  · intro t v
    unfold ZoomView.ButtonPressed
    by_cases heq : sender_tag = v.fullscreen_index_
    · rw [if_pos heq, if_pos heq]
      exact hcancel t v.menu_model_
    · rw [if_neg heq, if_neg heq]
      rfl
  · intro cfg fuel model d i f v hv
    exact ZoomView_create_ok cfg fuel model d i f v hv
  · intro cfg model a b c v hv
    exact CutCopyPasteView_create_ok cfg model a b c v hv

/-- Witness of C17: the scenario menu and the tag 2; with it, a press of the
copy button of the scenario's cut/copy/paste view. -/
theorem C17_sub_button_policy_witness :
    ((scenarioMenu debugConfig sampleIds).root_ = some { has_icons := true, cancel_calls := 0 }) ∧
    (scenarioCutCopyPasteView sampleIds).ButtonPressed (scenarioMenu debugConfig sampleIds) 2 =
      .ok { scenarioMenu debugConfig sampleIds with
        selected_menu_model_ := some (scenarioModel sampleIds), selected_index_ := 2,
        root_ := some { has_icons := true, cancel_calls := 1 } } ∧
    (∀ v : ZoomView, (2 : Int) ≠ v.fullscreen_index_ →
      v.ButtonPressed (scenarioMenu debugConfig sampleIds) 2 =
        .ok { scenarioMenu debugConfig sampleIds with
          activated := (scenarioMenu debugConfig sampleIds).activated ++ [(v.menu_model_, 2)] }) :=
  ⟨rfl, rfl,
    (C17_sub_button_policy (scenarioMenu debugConfig sampleIds)
      { has_icons := true, cancel_calls := 0 } rfl 2).1⟩

end WrenchMenu

namespace WrenchMenu

/-- C18: disjoint bookmark identifier range.  On a well-formed model tree
`Init` of an unpopulated menu returns; with `m` the number of views made, the
walk ends with counter `m + 1`, `first_bookmark_command_id_` is that counter
plus one, `m + 2`, and it is greater than every key of `id_to_entry_` and than
the identifier of every view.  A bookmark delegate that `CreateBookmarkMenu`
then makes is constructed with `first_bookmark_command_id_` as its first
identifier, and no key of the table is a bookmark command. -/
theorem C18_bookmark_range_disjoint (cfg : Config) (K : CommandIds) (fuel : Nat)
    (w : WrenchMenu) (model : MenuModel) (hw : w.Unpopulated) (hwf : model.WellFormed K)
    (hz : cfg.ZoomRangeOk ∨ model.NoZoomRow K) (hfuel : model.fuelBound ≤ fuel) :
    ∃ (next_id : Int) (w1 w' : WrenchMenu),
      PopulateMenu cfg K fuel
        { w with root_ := some { has_icons := true, cancel_calls := 0 }, menu_items := [] }
        0 model 1 = .ok (next_id, w1) ∧
      Init cfg K fuel w model = .ok w' ∧
      next_id = (w'.menu_items.length : Int) + 1 ∧
      w'.first_bookmark_command_id_ = next_id + 1 ∧
      (∀ p ∈ w'.id_to_entry_, p.1 < w'.first_bookmark_command_id_) ∧
      (∀ id e, IDToEntry.find w'.id_to_entry_ id = some e →
        id < w'.first_bookmark_command_id_) ∧
      (∀ v ∈ w'.menu_items, v.command < w'.first_bookmark_command_id_) ∧
      (∀ (bookmark_model : Option Bool) (r : WrenchMenu × Option Int),
        CreateBookmarkMenu w' bookmark_model = .ok r →
        (∀ start, r.2 = some start → start = w'.first_bookmark_command_id_) ∧
        r.1.id_to_entry_ = w'.id_to_entry_ ∧
        ∀ p ∈ r.1.id_to_entry_, r.1.is_bookmark_command p.1 = false) := by
  obtain ⟨w', hinit⟩ := Init_total cfg K fuel w model hw hwf hz hfuel
  obtain ⟨_, hfb, htab, hkeys, _, _, _, w1, hp, _⟩ := Init_effect cfg K fuel w model w' hw hinit
  have hfind : ∀ id e, IDToEntry.find w'.id_to_entry_ id = some e →
      id < w'.first_bookmark_command_id_ := by
    intro id e he
    have := (hkeys id e he).2
    omega
  have hmem : ∀ p ∈ w'.id_to_entry_, p.1 < w'.first_bookmark_command_id_ := by
    intro p hp'
    obtain ⟨e, he⟩ := IDToEntry.find_of_mem _ p hp'
    exact hfind _ e he
  refine ⟨_, w1, w', hp, hinit, rfl, by rw [hfb], hmem, hfind, ?_, ?_⟩
  · intro v hv
    exact hfind _ _ (htab v hv)
  · intro bookmark_model r hr
    have hnb : ∀ (u : WrenchMenu), u.id_to_entry_ = w'.id_to_entry_ →
        u.first_bookmark_command_id_ = w'.first_bookmark_command_id_ →
        ∀ p ∈ u.id_to_entry_, u.is_bookmark_command p.1 = false := by
      intro u hu1 hu2 p hp'
      rw [hu1] at hp'
      have := hmem p hp'
      unfold is_bookmark_command
      rw [hu2]
      have hn : ¬ (w'.first_bookmark_command_id_ ≤ p.1) := by omega
      simp [hn]
    unfold CreateBookmarkMenu at hr
    by_cases hb : w'.bookmark_menu_delegate_ = true
    · rw [if_pos hb] at hr
      rw [← Except.ok.inj hr]
      exact ⟨(fun _ hs => by cases hs), rfl, hnb _ rfl rfl⟩
    · rw [if_neg hb] at hr
      match bookmark_model, hr with
      | none, hr => cases hr
      | some false, hr =>
        rw [← Except.ok.inj hr]
        exact ⟨(fun _ hs => by cases hs), rfl, hnb _ rfl rfl⟩
      | some true, hr =>
        rw [← Except.ok.inj hr]
        exact ⟨fun _ hs => (Option.some.inj hs).symm, rfl, hnb _ rfl rfl⟩

/-- Witness of C18: the scenario model in a debug build. -/
theorem C18_bookmark_range_disjoint_witness :
    ∃ (next_id : Int) (w1 w' : WrenchMenu),
      PopulateMenu debugConfig sampleIds 27
        { create with root_ := some { has_icons := true, cancel_calls := 0 }, menu_items := [] }
        0 (scenarioModel sampleIds) 1 = .ok (next_id, w1) ∧
      Init debugConfig sampleIds 27 create (scenarioModel sampleIds) = .ok w' ∧
      next_id = (w'.menu_items.length : Int) + 1 ∧
      w'.first_bookmark_command_id_ = next_id + 1 ∧
      (∀ p ∈ w'.id_to_entry_, p.1 < w'.first_bookmark_command_id_) ∧
      (∀ id e, IDToEntry.find w'.id_to_entry_ id = some e →
        id < w'.first_bookmark_command_id_) ∧
      (∀ v ∈ w'.menu_items, v.command < w'.first_bookmark_command_id_) ∧
      (∀ (bookmark_model : Option Bool) (r : WrenchMenu × Option Int),
        CreateBookmarkMenu w' bookmark_model = .ok r →
        (∀ start, r.2 = some start → start = w'.first_bookmark_command_id_) ∧
        r.1.id_to_entry_ = w'.id_to_entry_ ∧
        ∀ p ∈ r.1.id_to_entry_, r.1.is_bookmark_command p.1 = false) :=
  C18_bookmark_range_disjoint debugConfig sampleIds 27 create (scenarioModel sampleIds)
    ⟨rfl, rfl, rfl, rfl, rfl⟩ (by decide) (Or.inl (by decide)) (by decide)

/-- C19 (as stated) fails: delivering the global-errors-changed notification
to a menu that has not been populated is no no-op.  `Observe` calls
`root_->Cancel()` without testing `root_`, which is NULL until `Init`, so on
the menu as constructed it does not return normally, in a debug and in a
release build. -/
theorem C19_counterexample :
    create.Unpopulated ∧
    Observe debugConfig create .NOTIFICATION_GLOBAL_ERRORS_CHANGED = .error .UNDEFINED ∧
    Observe releaseConfig create .NOTIFICATION_GLOBAL_ERRORS_CHANGED = .error .UNDEFINED ∧
    ¬ ∃ w', Observe debugConfig create .NOTIFICATION_GLOBAL_ERRORS_CHANGED = .ok w' :=
  ⟨⟨rfl, rfl, rfl, rfl, rfl⟩, rfl, rfl, fun ⟨_, h⟩ => by cases h⟩

/-- C19 (amended): on a menu whose root view exists, delivering the
global-errors-changed notification returns, changes no member of the menu and
asks the root view to cancel; delivering it a second time returns as well and
leaves the menu in the same state as delivering it once, but for the root view
having received `Cancel()` once more.  On a menu whose `root_` is NULL the
handler does not return normally. -/
theorem C19_invalidation_idempotent_when_populated (cfg : Config) (w : WrenchMenu)
    (root : RootView) (hroot : w.root_ = some root) :
    (∃ w1 w2, Observe cfg w .NOTIFICATION_GLOBAL_ERRORS_CHANGED = .ok w1 ∧
      Observe cfg w1 .NOTIFICATION_GLOBAL_ERRORS_CHANGED = .ok w2 ∧
      w1 = { w with root_ := some { root with cancel_calls := root.cancel_calls + 1 } } ∧
      w2 = { w with root_ := some { root with cancel_calls := root.cancel_calls + 2 } } ∧
      w1.forgetCancelCount.1 = w.forgetCancelCount.1 ∧
      w2.forgetCancelCount = w1.forgetCancelCount ∧ w1.forgetCancelCount.2 = true) ∧
    (∀ u : WrenchMenu, u.root_ = none →
      Observe cfg u .NOTIFICATION_GLOBAL_ERRORS_CHANGED = .error .UNDEFINED) := by
  refine ⟨⟨_, _, Observe_ok cfg w root hroot, Observe_ok cfg _ _ rfl, rfl, rfl, ?_, ?_, ?_⟩,
    fun u hu => Observe_null_root cfg u hu⟩
  · simp [forgetCancelCount, hroot]
  · simp [forgetCancelCount]
  · simp [forgetCancelCount]

/-- Witness of C19 (amended): the scenario menu after `Init`. -/
theorem C19_invalidation_idempotent_when_populated_witness :
    ((scenarioMenu debugConfig sampleIds).root_ = some { has_icons := true, cancel_calls := 0 }) ∧
    ((∃ w1 w2,
      Observe debugConfig (scenarioMenu debugConfig sampleIds)
        .NOTIFICATION_GLOBAL_ERRORS_CHANGED = .ok w1 ∧
      Observe debugConfig w1 .NOTIFICATION_GLOBAL_ERRORS_CHANGED = .ok w2 ∧
      w1 = { scenarioMenu debugConfig sampleIds with
        root_ := some { has_icons := true, cancel_calls := 0 + 1 } } ∧
      w2 = { scenarioMenu debugConfig sampleIds with
        root_ := some { has_icons := true, cancel_calls := 0 + 2 } } ∧
      w1.forgetCancelCount.1 = (scenarioMenu debugConfig sampleIds).forgetCancelCount.1 ∧
      w2.forgetCancelCount = w1.forgetCancelCount ∧ w1.forgetCancelCount.2 = true) ∧
    (∀ u : WrenchMenu, u.root_ = none →
      Observe debugConfig u .NOTIFICATION_GLOBAL_ERRORS_CHANGED = .error .UNDEFINED)) :=
  ⟨rfl,
    C19_invalidation_idempotent_when_populated debugConfig (scenarioMenu debugConfig sampleIds)
      { has_icons := true, cancel_calls := 0 } rfl⟩

/-- C20 (as stated) fails: in a release build, where `DCHECK(!root_)` is
compiled out, `Init` on the populated scenario menu returns normally.  It
makes a new root view and a second tree (two views for the second model) and
assigns the identifiers 1 and 2 again, so that the table entries of 1 and 2 now
name the second model, while the entry of 3 still names the first. -/
theorem C20_counterexample :
    (scenarioMenu releaseConfig sampleIds).root_.isSome = true ∧
    IDToEntry.find (scenarioMenu releaseConfig sampleIds).id_to_entry_ 1
      = some (scenarioModel sampleIds, 0) ∧
    ∃ w', Init releaseConfig sampleIds 27 (scenarioMenu releaseConfig sampleIds)
        (acceleratedModel sampleIds) = .ok w' ∧
      (w'.menu_items.map fun v => (v.command, v.index)) = [(1, 0), (2, 1)] ∧
      IDToEntry.find w'.id_to_entry_ 1 = some (acceleratedModel sampleIds, 0) ∧
      IDToEntry.find w'.id_to_entry_ 2 = some (acceleratedModel sampleIds, 1) ∧
      IDToEntry.find w'.id_to_entry_ 3 = some (scenarioModel sampleIds, 4) :=
  ⟨rfl, rfl, _, rfl, rfl, rfl, rfl, rfl⟩

/-- C20 (amended): in a build with DCHECKs compiled in, `Init` on a menu whose
`root_` is already set stops at `DCHECK(!root_)`, whatever the model: it
returns no menu, so it builds no second tree and assigns no identifier. -/
theorem C20_second_init_fails_under_dcheck (cfg : Config) (K : CommandIds) (fuel : Nat)
    (w : WrenchMenu) (model : MenuModel) (root : RootView)
    (hd : cfg.dcheck_is_on = true) (hroot : w.root_ = some root) :
    Init cfg K fuel w model = .error .DCHECK ∧
      ∀ w', Init cfg K fuel w model ≠ .ok w' := by
  have h := Init_populated_dcheck cfg K fuel w model root hd hroot
  exact ⟨h, fun w' hw' => by rw [h] at hw'; cases hw'⟩

/-- Witness of C20 (amended): a second `Init` on the scenario menu in a debug
build. -/
theorem C20_second_init_fails_under_dcheck_witness :
    (debugConfig.dcheck_is_on = true ∧
      (scenarioMenu debugConfig sampleIds).root_ = some { has_icons := true, cancel_calls := 0 }) ∧
    (Init debugConfig sampleIds 27 (scenarioMenu debugConfig sampleIds)
        (acceleratedModel sampleIds) = .error .DCHECK ∧
      ∀ w', Init debugConfig sampleIds 27 (scenarioMenu debugConfig sampleIds)
        (acceleratedModel sampleIds) ≠ .ok w') :=
  ⟨⟨rfl, rfl⟩,
    C20_second_init_fails_under_dcheck debugConfig sampleIds 27
      (scenarioMenu debugConfig sampleIds) (acceleratedModel sampleIds)
      { has_icons := true, cancel_calls := 0 } rfl rfl⟩

end WrenchMenu

namespace WrenchMenu

/-- C21: depth-first pre-order numbering.  After every successful `Init`:
views with the same parent view (the materialized items of one walk of a
model) were made for the same model, and among them the identifier strictly
increases with the model index; no two views share an identifier; and for every
view `p` there is a number `d` such that the views below `p` in the view tree
are exactly the views with identifiers `p + 1, ..., p + d`, each of these
identifiers is taken by a view below `p`, and every view with the parent of
`p` and a larger index than `p` has an identifier above `p + d`. -/
theorem C21_preorder_numbering (cfg : Config) (K : CommandIds) (fuel : Nat)
    (w : WrenchMenu) (model : MenuModel) (w' : WrenchMenu)
    (h : Init cfg K fuel w model = .ok w') :
    (∀ u ∈ w'.menu_items, ∀ v ∈ w'.menu_items, u.parent = v.parent →
      u.model = v.model ∧ (u.index < v.index → u.command < v.command)) ∧
    (w'.menu_items.map fun v => v.command).Nodup ∧
    (∀ p ∈ w'.menu_items, ∃ d : Nat, p.command + d ≤ w'.menu_items.length ∧
      (∀ v ∈ w'.menu_items, Descendant w'.menu_items p.command v ↔
        (p.command + 1 ≤ v.command ∧ v.command ≤ p.command + d)) ∧
      (∀ id : Int, p.command + 1 ≤ id → id ≤ p.command + d →
        ∃ v ∈ w'.menu_items, v.command = id ∧ Descendant w'.menu_items p.command v) ∧
      (∀ s ∈ w'.menu_items, s.parent = p.parent → p.index < s.index →
        p.command + d < s.command)) := by
  have hpre := Init_preorder cfg K fuel w model w' h
  have hsib := (hpre.siblings (by decide)).2
  have hsib' : ∀ u ∈ w'.menu_items, ∀ v ∈ w'.menu_items, u.parent = v.parent →
      u.model = v.model ∧ (u.index < v.index → u.command < v.command) :=
    fun u hu v hv huv =>
      hsib u.skeleton (List.mem_map_of_mem _ hu) v.skeleton (List.mem_map_of_mem _ hv) huv
  refine ⟨hsib', ?_, ?_⟩
  · have hc := consecutiveFrom_nodup _ _ hpre.consecutive
    simpa [List.map_map] using hc
  · intro p hp
    obtain ⟨d, h1, h2, h3, h4⟩ := preorder_descendants w'.menu_items _ _ hpre p hp
    refine ⟨d, h1, h2, h3, ?_⟩
    intro s hs hsp hlt
    exact h4 s hs hsp ((hsib' p hp s hs hsp.symm).2 hlt)

/-- Witness of C21: the nested model.  Its views are, in creation order, a
command (identifier 1), the submenu item (2), the zoom row (3) and a command
(4) of the submenu, and the cut row (5); the views below the submenu item are
those with the identifiers 3 and 4. -/
theorem C21_preorder_numbering_witness :
    (Init debugConfig sampleIds 40 create (nestedModel sampleIds)
      = .ok (nestedMenu debugConfig sampleIds)) ∧
    ((∀ u ∈ (nestedMenu debugConfig sampleIds).menu_items,
      ∀ v ∈ (nestedMenu debugConfig sampleIds).menu_items, u.parent = v.parent →
      u.model = v.model ∧ (u.index < v.index → u.command < v.command)) ∧
    ((nestedMenu debugConfig sampleIds).menu_items.map fun v => v.command).Nodup ∧
    (∀ p ∈ (nestedMenu debugConfig sampleIds).menu_items, ∃ d : Nat,
      p.command + d ≤ (nestedMenu debugConfig sampleIds).menu_items.length ∧
      (∀ v ∈ (nestedMenu debugConfig sampleIds).menu_items,
        Descendant (nestedMenu debugConfig sampleIds).menu_items p.command v ↔
        (p.command + 1 ≤ v.command ∧ v.command ≤ p.command + d)) ∧
      (∀ id : Int, p.command + 1 ≤ id → id ≤ p.command + d →
        ∃ v ∈ (nestedMenu debugConfig sampleIds).menu_items, v.command = id ∧
          Descendant (nestedMenu debugConfig sampleIds).menu_items p.command v) ∧
      (∀ s ∈ (nestedMenu debugConfig sampleIds).menu_items, s.parent = p.parent →
        p.index < s.index → p.command + d < s.command))) ∧
    ((nestedMenu debugConfig sampleIds).menu_items.map fun v => (v.command, v.parent, v.index))
      = [(1, 0, 0), (2, 0, 1), (3, 2, 0), (4, 2, 3), (5, 0, 2)] :=
  ⟨rfl,
    C21_preorder_numbering debugConfig sampleIds 40 create (nestedModel sampleIds)
      (nestedMenu debugConfig sampleIds) rfl,
    rfl⟩

end WrenchMenu

namespace WrenchMenu

/-- C22: enabled query.  Let `w'` be the menu after a successful `Init` and
`u` any later state of it with the same table and the same
`first_bookmark_command_id_`.  Every identifier `id` with table entry
`(model, index)` is not 0 and not a bookmark command, the model has a command
identifier `c` and an enabled state `en` at `index`, and `IsCommandEnabled(id)`
returns true when `c` is `IDC_CUT`, whatever `en` is, and `en` otherwise; so
for the zoom row (`c` is `IDC_ZOOM_MINUS`, a constant other than `IDC_CUT`) it
returns `en`. -/
theorem C22_enabled_query (cfg : Config) (K : CommandIds) (fuel : Nat)
    (w : WrenchMenu) (root : MenuModel) (w' : WrenchMenu) (hw : w.Unpopulated)
    (h : Init cfg K fuel w root = .ok w') (u : WrenchMenu)
    (hu1 : u.id_to_entry_ = w'.id_to_entry_)
    (hu2 : u.first_bookmark_command_id_ = w'.first_bookmark_command_id_)
    (id : Int) (model : MenuModel) (index : Int)
    (hfind : IDToEntry.find w'.id_to_entry_ id = some (model, index)) :
    id ≠ 0 ∧ u.is_bookmark_command id = false ∧
    ∃ (c : Int) (en : Bool),
      model.GetCommandIdAt index = some c ∧ model.IsEnabledAt index = some en ∧
      IsCommandEnabled K u id = .ok (if c = K.IDC_CUT then true else en) ∧
      (K.IDC_ZOOM_MINUS ≠ K.IDC_CUT → c = K.IDC_ZOOM_MINUS →
        IsCommandEnabled K u id = .ok en) := by
  have hnb := Init_entry_not_bookmark cfg K fuel w root w' hw h u hu2 id _ hfind
  have hin := Init_entry_in_model cfg K fuel w root w' hw h id model index hfind
  obtain ⟨_, _, _, hkeys, _⟩ := Init_effect cfg K fuel w root w' hw h
  have h0 : id ≠ 0 := by
    have := (hkeys id _ hfind).1
    omega
  obtain ⟨x, hx⟩ := Option.isSome_iff_exists.1 hin
  rw [← hu1] at hfind
  have hmain := IsCommandEnabled_entry K u id model index x hnb h0 hfind hx
  refine ⟨h0, hnb, x.1.command_id, x.1.enabled, ?_, ?_, hmain, ?_⟩
  · simp [MenuModel.GetCommandIdAt, hx]
  · simp [MenuModel.IsEnabledAt, hx]
  · intro hne hc
    rw [hmain, if_neg (by rw [hc]; exact hne)]

/-- Witness of C22: on the model whose cut and zoom rows are reported as
disabled, identifier 2 (the zoom row) is disabled and identifier 1 (the cut
row) is enabled. -/
theorem C22_enabled_query_witness :
    (create.Unpopulated ∧
      Init debugConfig sampleIds 30 create (disabledRowsModel sampleIds)
        = .ok (disabledRowsMenu debugConfig sampleIds) ∧
      IDToEntry.find (disabledRowsMenu debugConfig sampleIds).id_to_entry_ 2
        = some (disabledRowsModel sampleIds, 3)) ∧
    ((2 : Int) ≠ 0 ∧ (disabledRowsMenu debugConfig sampleIds).is_bookmark_command 2 = false ∧
    ∃ (c : Int) (en : Bool),
      (disabledRowsModel sampleIds).GetCommandIdAt 3 = some c ∧
      (disabledRowsModel sampleIds).IsEnabledAt 3 = some en ∧
      IsCommandEnabled sampleIds (disabledRowsMenu debugConfig sampleIds) 2
        = .ok (if c = sampleIds.IDC_CUT then true else en) ∧
      (sampleIds.IDC_ZOOM_MINUS ≠ sampleIds.IDC_CUT → c = sampleIds.IDC_ZOOM_MINUS →
        IsCommandEnabled sampleIds (disabledRowsMenu debugConfig sampleIds) 2 = .ok en)) ∧
    (disabledRowsModel sampleIds).IsEnabledAt 0 = some false ∧
    IsCommandEnabled sampleIds (disabledRowsMenu debugConfig sampleIds) 1 = .ok true ∧
    (disabledRowsModel sampleIds).IsEnabledAt 3 = some false ∧
    IsCommandEnabled sampleIds (disabledRowsMenu debugConfig sampleIds) 2 = .ok false :=
  ⟨⟨⟨rfl, rfl, rfl, rfl, rfl⟩, rfl, rfl⟩,
    C22_enabled_query debugConfig sampleIds 30 create (disabledRowsModel sampleIds)
      (disabledRowsMenu debugConfig sampleIds) ⟨rfl, rfl, rfl, rfl, rfl⟩ rfl
      (disabledRowsMenu debugConfig sampleIds) rfl rfl 2 (disabledRowsModel sampleIds) 3 rfl,
    rfl, rfl, rfl, rfl⟩

end WrenchMenu

namespace WrenchMenu

/-- C23: one identifier per outer-loop iteration.  An iteration of the loop of
`PopulateMenu` at an item that is not a submenu appends one view and goes on
with the counter advanced by exactly one, whether the item starts a composite
triple (the loop then resumes three positions further) or not (one position
further).  So on a flat well-formed model of `n` items with `t` triples `Init`
of an unpopulated menu returns with exactly `n - 2t` views, the key set of the
table is `{1, ..., n - 2t}`, and when the first item of the model starts a
triple, the first view carries identifier 1 and the table maps 1 to the first
index of the model. -/
theorem C23_one_identifier_per_iteration (cfg : Config) (K : CommandIds) (fuel : Nat)
    (w : WrenchMenu) (model : MenuModel) (hK : K.Distinct) (hw : w.Unpopulated)
    (hwf : model.WellFormed K) (hflat : model.Flat)
    (hz : cfg.ZoomRangeOk ∨ model.NoZoomRow K) (hfuel : model.fuelBound ≤ fuel) :
    (∀ (fuel1 : Nat) (u : WrenchMenu) (parent : Int) (i : Nat) (n : Int)
        (r : Int × WrenchMenu) (d : ItemData) (sub : Option MenuModel),
      u.Fresh n → model.items[i]? = some (d, sub) →
      PopulateMenuFrom cfg K fuel1 u parent model i n = .ok r →
      ∃ (fuel0 : Nat) (u2 : WrenchMenu) (i2 : Nat),
        PopulateMenuFrom cfg K fuel0 u2 parent model i2 (n + 1) = .ok r ∧
        u2.menu_items.length = u.menu_items.length + 1 ∧
        ((d.command_id = K.IDC_CUT ∨ d.command_id = K.IDC_ZOOM_MINUS) → i2 = i + 3) ∧
        (d.command_id ≠ K.IDC_CUT → d.command_id ≠ K.IDC_ZOOM_MINUS → i2 = i + 1)) ∧
    ∃ w', Init cfg K fuel w model = .ok w' ∧
      w'.menu_items.length + 2 * tripleHeads K model.items = model.GetItemCount ∧
      (∀ id : Int, (IDToEntry.find w'.id_to_entry_ id).isSome = true ↔
        1 ≤ id ∧ id + 2 * (tripleHeads K model.items : Int) ≤ model.GetItemCount) ∧
      (∀ (d : ItemData) (sub : Option MenuModel), model.items[0]? = some (d, sub) →
        (d.command_id = K.IDC_CUT ∨ d.command_id = K.IDC_ZOOM_MINUS) →
        ∃ v rest, w'.menu_items = v :: rest ∧ v.command = 1 ∧ v.model = model ∧
          v.index = model.GetFirstItemIndex ∧
          IDToEntry.find w'.id_to_entry_ 1 = some (model, model.GetFirstItemIndex)) := by
  have hmem_flat : ∀ (i : Nat) (d : ItemData) (sub : Option MenuModel),
      model.items[i]? = some (d, sub) → d.type ≠ .TYPE_SUBMENU := by
    intro i d sub hx
    obtain ⟨hl, he⟩ := List.getElem?_eq_some.1 hx
    exact hflat (d, sub) (by rw [← he]; exact List.getElem_mem _)
  constructor
  · intro fuel1 u parent i n r d sub hf hx h
    obtain ⟨fuel0, v, u2, i2, _, _, _, _, _, _, hhead, hplain, _, hitems, hrest⟩ :=
      PopulateMenuFrom_flat_step cfg K fuel1 u parent model i n r hf d sub hx
        (hmem_flat i d sub hx) h
    exact ⟨fuel0, u2, i2, hrest, by rw [hitems]; simp, hhead, hplain⟩
  · obtain ⟨w', hinit⟩ := Init_total cfg K fuel w model hw hwf hz hfuel
    obtain ⟨hc, _, htab, hkeys, _, _, _, w1, hp, hw1⟩ := Init_effect cfg K fuel w model w' hw hinit
    have hok : model.LocalOk K := hwf.1 model (by rw [MenuModel.subtree_eq]; exact List.mem_cons_self _ _)
    have hitems : w'.menu_items = w1.menu_items := by rw [hw1]
    obtain ⟨_, hcount⟩ := PopulateMenuFrom_flat_count cfg K hK model hflat hok fuel _ 0 0 1 _
      hw.fresh_one (Nat.zero_le _) hp
    simp only [List.drop_zero, List.length_nil, Nat.cast_zero, add_zero, zero_add] at hcount
    rw [← hitems] at hcount
    have hlen : w'.menu_items.length + 2 * tripleHeads K model.items = model.GetItemCount := by
      omega
    refine ⟨w', hinit, hlen, ?_, ?_⟩
    · intro id
      constructor
      · intro hsome
        obtain ⟨e, he⟩ := Option.isSome_iff_exists.1 hsome
        have := hkeys id e he
        omega
      · intro ⟨h1, h2⟩
        have hmem : id ∈ List.map (fun v => v.command) w'.menu_items := by
          rw [consecutiveFrom_mem _ _ hc]
          simp only [List.length_map]
          omega
        obtain ⟨v, hv, hvc⟩ := List.mem_map.1 hmem
        rw [← hvc, htab v hv]
        rfl
    · intro d sub hx _
      obtain ⟨fuel0, v, u2, i2, _, hv1, hv2, hv3, _, _, _, _, hf2, hu2, hrest⟩ :=
        PopulateMenuFrom_flat_step cfg K fuel _ 0 model 0 1 _ hw.fresh_one d sub hx
          (hmem_flat 0 d sub hx) hp
      have eff := PopulateMenuFrom_effect cfg K fuel0 u2 0 model i2 (1 + 1) _ hf2 hrest
      obtain ⟨new, hnew, _⟩ := eff.items
      simp only at hnew hu2
      rw [hu2] at hnew
      simp only [List.nil_append, List.singleton_append] at hnew
      have hw'items : w'.menu_items = v :: new := by rw [hitems, hnew]
      have hvi : v.index = model.GetFirstItemIndex := by
        rw [hv3]; simp
      refine ⟨v, new, hw'items, hv1, hv2, hvi, ?_⟩
      have := htab v (by rw [hw'items]; exact List.mem_cons_self _ _)
      rw [hv1, hv2, hvi] at this
      exact this

/-- Witness of C23: the scenario model, five items with one triple, gets three
identifiers. -/
theorem C23_one_identifier_per_iteration_witness :
    (sampleIds.Distinct ∧ create.Unpopulated ∧ (scenarioModel sampleIds).WellFormed sampleIds ∧
      (scenarioModel sampleIds).Flat ∧ (scenarioModel sampleIds).fuelBound ≤ 27) ∧
    ((∀ (fuel1 : Nat) (u : WrenchMenu) (parent : Int) (i : Nat) (n : Int)
        (r : Int × WrenchMenu) (d : ItemData) (sub : Option MenuModel),
      u.Fresh n → (scenarioModel sampleIds).items[i]? = some (d, sub) →
      PopulateMenuFrom debugConfig sampleIds fuel1 u parent (scenarioModel sampleIds) i n = .ok r →
      ∃ (fuel0 : Nat) (u2 : WrenchMenu) (i2 : Nat),
        PopulateMenuFrom debugConfig sampleIds fuel0 u2 parent (scenarioModel sampleIds) i2 (n + 1)
          = .ok r ∧
        u2.menu_items.length = u.menu_items.length + 1 ∧
        ((d.command_id = sampleIds.IDC_CUT ∨ d.command_id = sampleIds.IDC_ZOOM_MINUS) →
          i2 = i + 3) ∧
        (d.command_id ≠ sampleIds.IDC_CUT → d.command_id ≠ sampleIds.IDC_ZOOM_MINUS →
          i2 = i + 1)) ∧
    ∃ w', Init debugConfig sampleIds 27 create (scenarioModel sampleIds) = .ok w' ∧
      w'.menu_items.length + 2 * tripleHeads sampleIds (scenarioModel sampleIds).items
        = (scenarioModel sampleIds).GetItemCount ∧
      (∀ id : Int, (IDToEntry.find w'.id_to_entry_ id).isSome = true ↔
        1 ≤ id ∧ id + 2 * (tripleHeads sampleIds (scenarioModel sampleIds).items : Int)
          ≤ (scenarioModel sampleIds).GetItemCount) ∧
      (∀ (d : ItemData) (sub : Option MenuModel),
        (scenarioModel sampleIds).items[0]? = some (d, sub) →
        (d.command_id = sampleIds.IDC_CUT ∨ d.command_id = sampleIds.IDC_ZOOM_MINUS) →
        ∃ v rest, w'.menu_items = v :: rest ∧ v.command = 1 ∧ v.model = scenarioModel sampleIds ∧
          v.index = (scenarioModel sampleIds).GetFirstItemIndex ∧
          IDToEntry.find w'.id_to_entry_ 1
            = some (scenarioModel sampleIds, (scenarioModel sampleIds).GetFirstItemIndex))) ∧
    tripleHeads sampleIds (scenarioModel sampleIds).items = 1 ∧
    (scenarioModel sampleIds).GetItemCount = 5 ∧
    (scenarioMenu debugConfig sampleIds).menu_items.length = 3 :=
  ⟨⟨by decide, ⟨rfl, rfl, rfl, rfl, rfl⟩, by decide, by decide, by decide⟩,
    C23_one_identifier_per_iteration debugConfig sampleIds 27 create (scenarioModel sampleIds)
      (by decide) ⟨rfl, rfl, rfl, rfl, rfl⟩ (by decide) (by decide) (Or.inl (by decide))
      (by decide),
    by decide, rfl, rfl⟩

end WrenchMenu

/-- C24 (code defect): `MaxWidthForZoomLabel`, commented "Calculates the max
width the zoom string can be", measures the zoom string only at the percents
`min, min + step, ...` with `step = (max - min) / 10`.  With the zoom range 25%
to 500% the step is 47 and 100% is not among the measured percents; in a font
in which the string for 100% is 50 wide and every other one 10 wide, it
returns 10 plus the insets width 12, which is less than the insets width plus
the width at 100%: the value returned does not cover every percent of the
range. -/
theorem C24_zoom_label_width_not_max :
    wideHundredConfig.selected_tab = some sampleTab ∧
    (sampleTab.minimum_zoom_percent ≤ 100 ∧ 100 ≤ sampleTab.maximum_zoom_percent) ∧
    wideHundredConfig.string_width 100 = 50 ∧
    MaxWidthForZoomLabel wideHundredConfig 21 = .ok (12 + 10) ∧
    ¬ ∃ value : Int, MaxWidthForZoomLabel wideHundredConfig 21 = .ok (12 + value) ∧
      ∀ p : Int, sampleTab.minimum_zoom_percent ≤ p → p ≤ sampleTab.maximum_zoom_percent →
        wideHundredConfig.string_width p ≤ value := by
  refine ⟨rfl, by decide, rfl, rfl, ?_⟩
  rintro ⟨value, hv, hall⟩
  have h1 : MaxWidthForZoomLabel wideHundredConfig 21 = .ok (12 + 10) := rfl
  rw [h1] at hv
  have h2 : (12 : Int) + 10 = 12 + value := Except.ok.inj hv
  have h3 := hall 100 (by decide) (by decide)
  have h4 : wideHundredConfig.string_width 100 = 50 := rfl
  rw [h4] at h3
  omega

/-- C25: termination of the zoom-label sampling loop.  With a selected tab,
`MaxWidthForZoomLabel` returns for some number of steps if and only if
`max < min` or `max - min >= 10` (with `0 <= max - min < 10` the step is 0 and
the loop never ends).  Each test of the loop condition takes one step, so a
loop whose body runs `k` times returns with `k + 1` steps and not with `k`:
for `max - min >= 10` there is such a `k` between 11 and 20, and for
`max < min` the loop returns at its first test. -/
theorem C25_zoom_label_loop_termination (cfg : Config) (tab : WebContents)
    (htab : cfg.selected_tab = some tab) :
    ((∃ (fuel : Nat) (r : Int), MaxWidthForZoomLabel cfg fuel = .ok r) ↔
      (tab.maximum_zoom_percent < tab.minimum_zoom_percent ∨
        tab.maximum_zoom_percent - tab.minimum_zoom_percent ≥ 10)) ∧
    (tab.maximum_zoom_percent - tab.minimum_zoom_percent ≥ 10 →
      ∃ k : Nat, 11 ≤ k ∧ k ≤ 20 ∧
        (∃ r, MaxWidthForZoomLabel cfg (k + 1) = .ok r) ∧
        MaxWidthForZoomLabel cfg k = .error .OUT_OF_FUEL) ∧
    (tab.maximum_zoom_percent < tab.minimum_zoom_percent →
      (∃ r, MaxWidthForZoomLabel cfg (0 + 1) = .ok r) ∧
      MaxWidthForZoomLabel cfg 0 = .error .OUT_OF_FUEL) := by
  have hrun : tab.maximum_zoom_percent - tab.minimum_zoom_percent ≥ 10 →
      ∃ k : Nat, 11 ≤ k ∧ k ≤ 20 ∧
        (∃ r, MaxWidthForZoomLabel cfg (k + 1) = .ok r) ∧
        MaxWidthForZoomLabel cfg k = .error .OUT_OF_FUEL := by
    intro hge
    obtain ⟨hs, k, hk1, hk2, hk3, hk4⟩ :=
      zoom_step_facts tab.minimum_zoom_percent tab.maximum_zoom_percent (by omega)
    obtain ⟨⟨r, hr⟩, hout⟩ := zoomLabelLoop_exact cfg.string_width tab.maximum_zoom_percent _ hs
      k tab.minimum_zoom_percent 0 hk3 (Or.inr hk4)
    refine ⟨k, hk1, hk2, ?_, ?_⟩
    · rw [MaxWidthForZoomLabel_tab cfg tab htab, hr]
      exact ⟨_, rfl⟩
    · rw [MaxWidthForZoomLabel_tab cfg tab htab, hout]
  have hempty : tab.maximum_zoom_percent < tab.minimum_zoom_percent →
      (∃ r, MaxWidthForZoomLabel cfg (0 + 1) = .ok r) ∧
      MaxWidthForZoomLabel cfg 0 = .error .OUT_OF_FUEL := by
    intro hlt
    have hn : ¬ tab.minimum_zoom_percent ≤ tab.maximum_zoom_percent := by omega
    constructor
    · rw [MaxWidthForZoomLabel_tab cfg tab htab]
      simp only [zoomLabelLoop, if_neg hn]
      exact ⟨_, rfl⟩
    · rw [MaxWidthForZoomLabel_tab cfg tab htab]
      rfl
  refine ⟨⟨?_, ?_⟩, hrun, hempty⟩
  · rintro ⟨fuel, r, hr⟩
    by_contra hcon
    have h1 : tab.minimum_zoom_percent ≤ tab.maximum_zoom_percent := by omega
    have h2 : tab.maximum_zoom_percent - tab.minimum_zoom_percent < 10 := by omega
    have hstep : Int.tdiv (tab.maximum_zoom_percent - tab.minimum_zoom_percent) 10 = 0 := by
      rw [Int.tdiv_eq_ediv (by omega) (by decide)]
      omega
    rw [MaxWidthForZoomLabel_tab cfg tab htab, hstep,
      zoomLabelLoop_step_zero cfg.string_width _ fuel _ 0 h1] at hr
    cases hr
  · rintro (hlt | hge)
    · obtain ⟨⟨r, hr⟩, _⟩ := hempty hlt
      exact ⟨_, r, hr⟩
    · obtain ⟨k, _, _, ⟨r, hr⟩, _⟩ := hrun hge
      exact ⟨_, r, hr⟩

/-- Witness of C25: the zoom range 25% to 500% takes 11 iterations, and the
zoom range 100% to 105% does not end. -/
theorem C25_zoom_label_loop_termination_witness :
    (wideHundredConfig.selected_tab = some sampleTab) ∧
    (((∃ (fuel : Nat) (r : Int), MaxWidthForZoomLabel wideHundredConfig fuel = .ok r) ↔
      (sampleTab.maximum_zoom_percent < sampleTab.minimum_zoom_percent ∨
        sampleTab.maximum_zoom_percent - sampleTab.minimum_zoom_percent ≥ 10)) ∧
    (sampleTab.maximum_zoom_percent - sampleTab.minimum_zoom_percent ≥ 10 →
      ∃ k : Nat, 11 ≤ k ∧ k ≤ 20 ∧
        (∃ r, MaxWidthForZoomLabel wideHundredConfig (k + 1) = .ok r) ∧
        MaxWidthForZoomLabel wideHundredConfig k = .error .OUT_OF_FUEL) ∧
    (sampleTab.maximum_zoom_percent < sampleTab.minimum_zoom_percent →
      (∃ r, MaxWidthForZoomLabel wideHundredConfig (0 + 1) = .ok r) ∧
      MaxWidthForZoomLabel wideHundredConfig 0 = .error .OUT_OF_FUEL)) ∧
    MaxWidthForZoomLabel wideHundredConfig 11 = .error .OUT_OF_FUEL ∧
    MaxWidthForZoomLabel wideHundredConfig 12 = .ok 22 ∧
    MaxWidthForZoomLabel narrowRangeConfig 40 = .error .OUT_OF_FUEL :=
  ⟨rfl, C25_zoom_label_loop_termination wideHundredConfig sampleTab rfl, rfl, rfl, rfl⟩

/-- C26: zoom row layout.  For non-negative preferred widths of the buttons
(of the increment and the fullscreen button; the decrement button enters
through the maximum only), in the touch and the non-touch layout, `Layout`
places the decrement button at 0, the label at the right edge of the decrement
button, the increment button at the right edge of the label and the fullscreen
button at or after the right edge of the increment button; the widths of the
three buttons are non-negative, and so is the width of the label, which is
`zoom_label_width_`, when that is non-negative, as it is in every view the
constructor builds with a font whose string widths are non-negative; the
decrement and the increment button both get the width
`max(increment preferred, decrement preferred)`; and the right edge of the
fullscreen button is the width `GetPreferredSize` returns. -/
theorem C26_zoom_layout_matches_preferred_size (cfg : Config) (v : ZoomView)
    (pref : ZoomPreferredWidths) (height : Int)
    (hinc : 0 ≤ pref.increment_button_) (hfull : 0 ≤ pref.fullscreen_button_) :
    (v.Layout cfg pref height).decrement_button_.x = 0 ∧
    (v.Layout cfg pref height).decrement_button_.right
      = (v.Layout cfg pref height).zoom_label_.x ∧
    (v.Layout cfg pref height).zoom_label_.right
      = (v.Layout cfg pref height).increment_button_.x ∧
    (v.Layout cfg pref height).increment_button_.right
      ≤ (v.Layout cfg pref height).fullscreen_button_.x ∧
    (0 ≤ (v.Layout cfg pref height).decrement_button_.width ∧
      0 ≤ (v.Layout cfg pref height).increment_button_.width ∧
      0 ≤ (v.Layout cfg pref height).fullscreen_button_.width) ∧
    (0 ≤ v.zoom_label_width_ → 0 ≤ (v.Layout cfg pref height).zoom_label_.width) ∧
    (∀ (fuel : Nat) (model : MenuModel) (d i f : Int),
      ZoomView.create cfg fuel model d i f = .ok v → (∀ p, 0 ≤ cfg.string_width p) →
      0 ≤ v.zoom_label_width_) ∧
    (v.Layout cfg pref height).decrement_button_.width
      = max pref.increment_button_ pref.decrement_button_ ∧
    (v.Layout cfg pref height).increment_button_.width
      = max pref.increment_button_ pref.decrement_button_ ∧
    (v.Layout cfg pref height).zoom_label_.width = v.zoom_label_width_ ∧
    (v.Layout cfg pref height).fullscreen_button_.right = (v.GetPreferredSize cfg pref).1 := by
  have hmax : 0 ≤ max pref.increment_button_ pref.decrement_button_ :=
    le_trans hinc (le_max_left _ _)
  have hcreate : ∀ (fuel : Nat) (model : MenuModel) (d i f : Int),
      ZoomView.create cfg fuel model d i f = .ok v → (∀ p, 0 ≤ cfg.string_width p) →
      0 ≤ v.zoom_label_width_ := fun fuel model d i f hv hfont =>
    MaxWidthForZoomLabel_nonneg cfg fuel _ hfont (ZoomView_create_width cfg fuel model d i f v hv)
  refine ⟨rfl, ?_, ?_, ?_, ⟨hmax, hmax, ?_⟩, fun hl => hl, hcreate, rfl, rfl, rfl, ?_⟩
  all_goals
    simp only [ZoomView.Layout, ZoomView.GetPreferredSize, Rect.right, kZoomPadding,
      kTouchZoomPadding]
    try
      generalize max pref.increment_button_ pref.decrement_button_ = b at hmax ⊢
      cases cfg.is_touch <;> simp <;> omega

/-- Witness of C26: the zoom view the constructor builds for the zoom row
model, with preferred widths 30, 28 and 40, laid out at height 20. -/
theorem C26_zoom_layout_matches_preferred_size_witness :
    ZoomView.create debugConfig 1 (zoomRowModel sampleIds) 0 1 2
      = .ok (sampleZoomView sampleIds) ∧
    ((0 : Int) ≤ 30 ∧ (0 : Int) ≤ 40) ∧
    (sampleZoomView sampleIds).Layout debugConfig
      { increment_button_ := 30, decrement_button_ := 28, fullscreen_button_ := 40 } 20
      = { decrement_button_ := { x := 0, y := 0, width := 30, height := 20 },
          zoom_label_ := { x := 30, y := 0, width := 112, height := 20 },
          increment_button_ := { x := 142, y := 0, width := 30, height := 20 },
          fullscreen_button_ := { x := 178, y := 0, width := 40, height := 20 } } ∧
    (sampleZoomView sampleIds).GetPreferredSize debugConfig
      { increment_button_ := 30, decrement_button_ := 28, fullscreen_button_ := 40 }
      = (218, 0) ∧
    ((sampleZoomView sampleIds).Layout debugConfig
      { increment_button_ := 30, decrement_button_ := 28, fullscreen_button_ := 40 }
      20).fullscreen_button_.right =
    ((sampleZoomView sampleIds).GetPreferredSize debugConfig
      { increment_button_ := 30, decrement_button_ := 28, fullscreen_button_ := 40 }).1 :=
  ⟨rfl, ⟨by decide, by decide⟩, by decide, by decide,
    (C26_zoom_layout_matches_preferred_size debugConfig (sampleZoomView sampleIds)
      { increment_button_ := 30, decrement_button_ := 28, fullscreen_button_ := 40 } 20
      (by decide) (by decide)).2.2.2.2.2.2.2.2.2.2⟩

end Chrome
